import Mathlib

/-!
Verification development for the Zen-Tab-Sorter browser extension.

The definitions below are a shallow embedding of `src/background.js` and
`src/usf.js`.  Browser tabs and tab groups are modelled as Lean structures;
the asynchronous calls to the browser's Tab / TabGroup services are modelled
as an explicit operation trace together with a state-transition function on
a window model; platform functions (`Array.prototype.sort`,
`String.prototype.localeCompare`, the WHATWG `URL` parser) are modelled by
executable Lean functions or abstract parameters, as noted at each
definition.
-/

namespace ZenTab

/-! ## Data model

`Tab` mirrors the fields of a browser tab object that the extension reads:
`id`, `url`, `title`, `pinned`, `active`, `index`, `groupId`.  The value
`none` of `groupId` plays the role of `browser.tabGroups.TAB_GROUP_ID_NONE`.
`Group` mirrors a tab-group record.  A `Window` holds the ordered tab list
(list position = tab position in the window) plus the group records; the
`index` field of a stored `Tab` may be stale, queries re-attach the current
position (see `queryTabs`). -/

structure Tab where
  id : Nat
  url : String
  title : String
  pinned : Bool
  active : Bool
  index : Nat
  groupId : Option Nat
deriving Repr, DecidableEq

structure Group where
  id : Nat
  title : String
  color : String
  collapsed : Bool
deriving Repr, DecidableEq

structure Window where
  tabs : List Tab
  groups : List Group
deriving Repr, DecidableEq

/-- Set the `index` field of a tab record. -/
def setIdx (t : Tab) (i : Nat) : Tab := { t with index := i }

/-- Model of `browser.tabs.query({windowId})`: the browser returns the
window's tabs in position order with their `index` field equal to their
current position. -/
def queryTabs (w : Window) : List Tab :=
  w.tabs.enum.map fun p => setIdx p.2 p.1

/-- Two tab records that agree on every field except possibly `index`.
Moving tabs around only renumbers them, so records before and after a
reshuffle are related by `eqMod`. -/
def eqMod (a b : Tab) : Prop :=
  a.id = b.id ∧ a.url = b.url ∧ a.title = b.title ∧ a.pinned = b.pinned ∧
    a.active = b.active ∧ a.groupId = b.groupId

instance : DecidableEq Window := inferInstance

instance (a b : Tab) : Decidable (eqMod a b) := by
  unfold eqMod; infer_instance

theorem eqMod_refl (a : Tab) : eqMod a a := ⟨rfl, rfl, rfl, rfl, rfl, rfl⟩

theorem eqMod_symm {a b : Tab} (h : eqMod a b) : eqMod b a := by
  obtain ⟨h1, h2, h3, h4, h5, h6⟩ := h
  exact ⟨h1.symm, h2.symm, h3.symm, h4.symm, h5.symm, h6.symm⟩

theorem eqMod_trans {a b c : Tab} (h : eqMod a b) (h' : eqMod b c) : eqMod a c := by
  obtain ⟨h1, h2, h3, h4, h5, h6⟩ := h
  obtain ⟨g1, g2, g3, g4, g5, g6⟩ := h'
  exact ⟨h1.trans g1, h2.trans g2, h3.trans g3, h4.trans g4, h5.trans g5, h6.trans g6⟩

theorem eqMod_setIdx (t : Tab) (i : Nat) : eqMod (setIdx t i) t :=
  ⟨rfl, rfl, rfl, rfl, rfl, rfl⟩

/-! ## Stable sort

`Array.prototype.sort(cmp)` is specified to be a stable sort; we model it by
a stable insertion sort over the boolean relation `cmp a b ≤ 0` ("a may come
before b").  For a consistent comparator this agrees with every stable
sorting algorithm, which is all ECMAScript guarantees. -/

def insertSorted (le : α → α → Bool) (a : α) : List α → List α
  | [] => [a]
  | b :: l => if le a b then a :: b :: l else b :: insertSorted le a l

/-- Model of `Array.prototype.sort` with comparator-derived relation `le`. -/
def jsSort (le : α → α → Bool) : List α → List α
  | [] => []
  | a :: l => insertSorted le a (jsSort le l)

theorem insertSorted_perm (le : α → α → Bool) (a : α) (l : List α) :
    (insertSorted le a l).Perm (a :: l) := by
  induction l with
  | nil => simp [insertSorted]
  | cons b t ih =>
    simp only [insertSorted]
    by_cases h : le a b
    · simp [h]
    · simp only [h, if_neg, Bool.false_eq_true, if_false]
      exact ((ih.cons b).trans (List.Perm.swap a b t))

theorem jsSort_perm (le : α → α → Bool) (l : List α) : (jsSort le l).Perm l := by
  induction l with
  | nil => simp [jsSort]
  | cons a t ih =>
    exact (insertSorted_perm le a (jsSort le t)).trans (ih.cons a)

theorem mem_jsSort {le : α → α → Bool} {l : List α} {x : α} :
    x ∈ jsSort le l ↔ x ∈ l :=
  (jsSort_perm le l).mem_iff

theorem jsSort_length (le : α → α → Bool) (l : List α) :
    (jsSort le l).length = l.length :=
  (jsSort_perm le l).length_eq

/-- Inserting an element that may come before every element of `l` puts it at
the head. -/
theorem insertSorted_of_forall_le {le : α → α → Bool} {a : α} {l : List α}
    (h : ∀ b ∈ l, le a b) : insertSorted le a l = a :: l := by
  cases l with
  | nil => rfl
  | cons b t => simp [insertSorted, h b (by simp)]

/-- Sorting a list that is already pairwise ordered returns it unchanged
(this is the stability property the reconciler's fast path relies on). -/
theorem jsSort_of_pairwise {le : α → α → Bool} {l : List α}
    (h : l.Pairwise (fun a b => le a b)) : jsSort le l = l := by
  induction l with
  | nil => rfl
  | cons a t ih =>
    rw [List.pairwise_cons] at h
    rw [jsSort, ih h.2, insertSorted_of_forall_le h.1]

theorem pairwise_insertSorted {le : α → α → Bool}
    (htot : ∀ a b, le a b ∨ le b a)
    (htrans : ∀ a b c, le a b → le b c → le a c) {a : α} {l : List α}
    (h : l.Pairwise (fun x y => le x y)) :
    (insertSorted le a l).Pairwise (fun x y => le x y) := by
  induction l with
  | nil => simp [insertSorted]
  | cons b t ih =>
    rw [List.pairwise_cons] at h
    simp only [insertSorted]
    by_cases hab : le a b
    · simp only [hab, if_true]
      refine List.pairwise_cons.2 ⟨?_, List.pairwise_cons.2 h⟩
      intro x hx
      rcases List.mem_cons.1 hx with rfl | hx
      · exact hab
      · exact htrans a b x hab (h.1 x hx)
    · simp only [hab, Bool.false_eq_true, if_false]
      refine List.pairwise_cons.2 ⟨?_, ih h.2⟩
      intro x hx
      rcases (insertSorted_perm le a t).mem_iff.1 hx with hx'
      rcases List.mem_cons.1 hx' with rfl | hx''
      · cases htot x b with
        | inl h' => exact absurd h' hab
        | inr h' => exact h'
      · exact h.1 x hx''

theorem jsSort_pairwise {le : α → α → Bool}
    (htot : ∀ a b, le a b ∨ le b a)
    (htrans : ∀ a b c, le a b → le b c → le a c) (l : List α) :
    (jsSort le l).Pairwise (fun x y => le x y) := by
  induction l with
  | nil => simp [jsSort]
  | cons a t ih => exact pairwise_insertSorted htot htrans ih

/-- Sorting commutes with a relation-preserving map. -/
theorem insertSorted_map {α β : Type _} (f : α → β) (le : α → α → Bool)
    (le' : β → β → Bool) (hle : ∀ x y, le' (f x) (f y) = le x y)
    (a : α) (l : List α) :
    insertSorted le' (f a) (l.map f) = (insertSorted le a l).map f := by
  induction l with
  | nil => rfl
  | cons b t ih =>
    simp only [List.map_cons, insertSorted, hle a b]
    by_cases h : le a b
    · simp [h]
    · simp [h, ih]

theorem jsSort_map {α β : Type _} (f : α → β) (le : α → α → Bool)
    (le' : β → β → Bool) (hle : ∀ x y, le' (f x) (f y) = le x y) (l : List α) :
    jsSort le' (l.map f) = (jsSort le l).map f := by
  induction l with
  | nil => rfl
  | cons a t ih => simp only [List.map_cons, jsSort, ih, insertSorted_map f le le' hle]

/-- Members of the right list of a `Forall₂` have related left partners. -/
theorem forall₂_mem_right {R : α → β → Prop} {l : List α} {l' : List β}
    (h : List.Forall₂ R l l') : ∀ y ∈ l', ∃ x ∈ l, R x y := by
  induction h with
  | nil => intro y hy; cases hy
  | cons hr _ ih =>
    intro y hy
    rcases List.mem_cons.1 hy with rfl | hy'
    · exact ⟨_, by simp, hr⟩
    · obtain ⟨x, hx, hxy⟩ := ih y hy'
      exact ⟨x, by simp [hx], hxy⟩

/-- Sorting respects a relation that the comparator cannot distinguish. -/
theorem insertSorted_forall₂ {R : α → α → Prop} {le : α → α → Bool}
    (hresp : ∀ a a' b b', R a a' → R b b' → le a b = le a' b')
    {a a' : α} (ha : R a a') {l l' : List α} (h : List.Forall₂ R l l') :
    List.Forall₂ R (insertSorted le a l) (insertSorted le a' l') := by
  induction h with
  | nil => exact List.Forall₂.cons ha List.Forall₂.nil
  | @cons b b' t t' hb ht ih =>
    simp only [insertSorted, hresp a a' b b' ha hb]
    by_cases hc : le a' b'
    · simp only [hc, if_true]
      exact List.Forall₂.cons ha (List.Forall₂.cons hb ht)
    · simp only [hc, Bool.false_eq_true, if_false]
      exact List.Forall₂.cons hb ih

theorem jsSort_forall₂ {R : α → α → Prop} {le : α → α → Bool}
    (hresp : ∀ a a' b b', R a a' → R b b' → le a b = le a' b')
    {l l' : List α} (h : List.Forall₂ R l l') :
    List.Forall₂ R (jsSort le l) (jsSort le l') := by
  induction h with
  | nil => exact List.Forall₂.nil
  | cons ha _ ih => exact insertSorted_forall₂ hresp ha ih

/-- Pairwise orderedness transfers along a comparator-indistinguishable
pointwise relation. -/
theorem pairwise_of_forall₂ {R : α → α → Prop} {le : α → α → Bool}
    (hresp : ∀ a a' b b', R a a' → R b b' → le a b = le a' b')
    {l l' : List α} (hF : List.Forall₂ R l l')
    (h : l.Pairwise (fun x y => le x y)) :
    l'.Pairwise (fun x y => le x y) := by
  induction hF with
  | nil => exact List.Pairwise.nil
  | @cons a a' t t' ha ht ih =>
    rw [List.pairwise_cons] at h
    refine List.pairwise_cons.2 ⟨?_, ih h.2⟩
    intro y' hy'
    obtain ⟨y, hy, hyy'⟩ := forall₂_mem_right ht y' hy'
    rw [← hresp a a' y y' ha hyy']
    exact h.1 y hy

/-! ## String primitives

The JavaScript string operations used by the source (`toLowerCase`, `split`,
`startsWith`, `endsWith`, `slice`, `join`) are modelled by structurally
recursive functions over `List Char`, so that concrete instances evaluate
inside the kernel.  `toLowerCase` is modelled on the ASCII range, which is
the range the source's inputs (hostnames, schemes) exercise. -/

/-- ASCII lowercasing of a character. -/
def asciiLower (c : Char) : Char :=
  if 'A' ≤ c && c ≤ 'Z' then Char.ofNat (c.toNat + 32) else c

/-- Model of `String.prototype.toLowerCase` (ASCII range). -/
def strLower (s : String) : String := String.mk (s.toList.map asciiLower)

/-- Split a character list at every occurrence of `sep`, JavaScript
`split` semantics: splitting the empty string yields one empty piece. -/
def splitOnChar (sep : Char) : List Char → List (List Char)
  | [] => [[]]
  | c :: rest =>
    match splitOnChar sep rest with
    | g :: gs => if c = sep then [] :: g :: gs else (c :: g) :: gs
    | [] => if c = sep then [[], []] else [[c]]

/-- Model of `String.prototype.split` with a one-character separator. -/
def strSplit (s : String) (sep : Char) : List String :=
  (splitOnChar sep s.toList).map String.mk

/-- Model of `String.prototype.startsWith`. -/
def strStartsWith (s pre : String) : Bool :=
  decide (s.toList.take pre.toList.length = pre.toList)

/-- Model of `String.prototype.endsWith`. -/
def strEndsWith (s suf : String) : Bool :=
  decide (s.toList.drop (s.toList.length - suf.toList.length) = suf.toList)

/-- Model of `String.prototype.slice(n)` for a nonnegative index. -/
def strDrop (s : String) (n : Nat) : String := String.mk (s.toList.drop n)

/-- Interleave a separator character between list pieces. -/
def joinWith (sep : Char) : List (List Char) → List Char
  | [] => []
  | [p] => p
  | p :: ps => p ++ sep :: joinWith sep ps

/-- Model of `Array.prototype.join(".")` over string pieces. -/
def strJoinDot (parts : List String) : String :=
  String.mk (joinWith '.' (parts.map String.toList))

/-- Digit run to number, used for URL port validation. -/
def digitsToNat (l : List Char) : Option Nat :=
  if l.all Char.isDigit && !l.isEmpty then
    some (l.foldl (fun n c => n * 10 + (c.toNat - 48)) 0)
  else none

/-- Decimal digits of a number, most significant first (fuel recursion on
the number itself). -/
def natDigitsAux : Nat → Nat → List Char
  | 0, _ => []
  | _ + 1, 0 => []
  | fuel + 1, n + 1 =>
    natDigitsAux fuel ((n + 1) / 10) ++ [Char.ofNat ((n + 1) % 10 + 48)]

/-- Decimal rendering of a number, used by the URL serializer. -/
def natToChars (n : Nat) : List Char :=
  match n with
  | 0 => ['0']
  | _ => natDigitsAux n n

/-! ## URL model

`src/background.js` calls the platform's WHATWG URL parser (`new URL(...)`)
and its serializer (`.href`).  These are not part of the repository, so we
model them: `parseURL` handles absolute `scheme://[user@]host[:port][/path]
[?query][#fragment]` URLs (lowercasing scheme and host, dropping user info,
validating the port and dropping a scheme-default port) and fails on
everything else; `href` reserializes, defaulting an empty path to `/`. -/

structure URLRec where
  scheme : String
  hostname : String
  port : Option Nat
  path : String
  query : Option String
  hash : Option String
deriving Repr, DecidableEq

def isSchemeChar (c : Char) : Bool :=
  c.isAlphanum || c = '+' || c = '-' || c = '.'

def isHostForbidden (c : Char) : Bool :=
  c = ' ' || c = '\t' || c = '#' || c = '/' || c = '?' || c = '@' ||
    c = '[' || c = ']' || c = '\\'

def defaultPort (scheme : String) : Option Nat :=
  if scheme = "http" || scheme = "ws" then some 80
  else if scheme = "https" || scheme = "wss" then some 443
  else if scheme = "ftp" then some 21
  else none

/-- Model of the platform URL parser, see the section comment. -/
def parseURL (raw : String) : Option URLRec :=
  let cs := raw.toList
  let schemeCs := cs.takeWhile (fun c => c ≠ ':')
  let rest := cs.dropWhile (fun c => c ≠ ':')
  match schemeCs, rest with
  | c :: scs, _ :: afterColon =>
    if !(c.isAlpha && scs.all isSchemeChar) then none
    else
      match afterColon with
      | '/' :: '/' :: rest2 =>
        let authority := rest2.takeWhile fun ch => ch ≠ '/' && ch ≠ '?' && ch ≠ '#'
        let pathEtc := rest2.dropWhile fun ch => ch ≠ '/' && ch ≠ '?' && ch ≠ '#'
        let hostPort := (authority.reverse.takeWhile (fun ch => ch ≠ '@')).reverse
        let hostCs := hostPort.takeWhile (fun ch => ch ≠ ':')
        let portCs := hostPort.dropWhile (fun ch => ch ≠ ':')
        if hostCs.isEmpty || hostCs.any isHostForbidden then none
        else
          let scheme := strLower (String.mk (c :: scs))
          let hostname := strLower (String.mk hostCs)
          let port? : Option (Option Nat) :=
            match portCs with
            | [] => some none
            | _ :: [] => some none
            | _ :: ds =>
              match digitsToNat ds with
              | some n => if defaultPort scheme = some n then some none else some (some n)
              | none => none
          match port? with
          | none => none
          | some port =>
            let pathCs := pathEtc.takeWhile fun ch => ch ≠ '?' && ch ≠ '#'
            let afterPath := pathEtc.dropWhile fun ch => ch ≠ '?' && ch ≠ '#'
            let path := if pathCs.isEmpty then "/" else String.mk pathCs
            let qh : Option String × Option String :=
              match afterPath with
              | '?' :: qs =>
                (some (String.mk (qs.takeWhile (fun ch => ch ≠ '#'))),
                 match qs.dropWhile (fun ch => ch ≠ '#') with
                 | _ :: hs => some (String.mk hs)
                 | [] => none)
              | '#' :: hs => (none, some (String.mk hs))
              | _ => (none, none)
            some { scheme, hostname, port, path, query := qh.1, hash := qh.2 }
      | _ => none
  | _, _ => none

/-- Model of the WHATWG URL serializer (`.href`). -/
def href (u : URLRec) : String :=
  u.scheme ++ "://" ++ u.hostname ++
    (match u.port with | none => "" | some n => ":" ++ String.mk (natToChars n)) ++
    u.path ++
    (match u.query with | none => "" | some q => "?" ++ q) ++
    (match u.hash with | none => "" | some h => "#" ++ h)

/-! ## HostnameResolver (src/background.js lines 14-62) -/

/-- The fixed multi-part suffix table (src/background.js:28-32). -/
def multiPartSuffixes : List String :=
  ["co.uk", "org.uk", "gov.uk", "ac.uk", "com.au", "net.au", "org.au", "co.jp"]

/-- The test `/^\d{1,3}(\.\d{1,3}){3}$/` of src/background.js:19: exactly
four dot-separated runs of one to three decimal digits. -/
def ipv4DottedQuad (s : String) : Bool :=
  match strSplit s '.' with
  | [a, b, c, d] =>
    [a, b, c, d].all fun p =>
      decide (1 ≤ p.toList.length) && decide (p.toList.length ≤ 3) &&
        p.toList.all Char.isDigit
  | _ => false

/-- Translation of `getEffectiveHostname` (src/background.js:14-47). -/
def getEffectiveHostname (hostname : String) : String :=
  let lower := strLower hostname
  if lower = "" then ""
  else if ipv4DottedQuad lower || lower = "localhost" then lower
  else
    let host := if strStartsWith lower "www." then strDrop lower 4 else lower
    match multiPartSuffixes.find? (fun suffix => strEndsWith host ("." ++ suffix)) with
    | some _ =>
      let parts := strSplit host '.'
      strJoinDot (parts.drop (parts.length - 3))
    | none =>
      let parts := strSplit host '.'
      if 2 ≤ parts.length then strJoinDot (parts.drop (parts.length - 2))
      else host

/-- Translation of `getHost` (src/background.js:54-62), parametric in the
platform URL parser: `parse` returns the parsed hostname, or `none` when
`new URL(tab.url)` would throw, in which case the code falls back to the
lowercased raw URL. -/
def getHostWith (parse : String → Option String) (tab : Tab) : String :=
  match parse tab.url with
  | some hostname => getEffectiveHostname hostname
  | none => strLower tab.url

/-- The hostname of a URL under the model parser. -/
def urlHostname (raw : String) : Option String := (parseURL raw).map (·.hostname)

/-- `getHost` instantiated with the model URL parser. -/
def getHost (tab : Tab) : String := getHostWith urlHostname tab

/-- Translation of `normalizeUrlForDeduplication` (src/background.js:70-78):
parse, clear the fragment, reserialize; on parse failure return the raw
string ( `rawUrl || ""` collapses to the raw string because absent URLs are
modelled as the empty string). -/
def normalizeUrlForDeduplication (rawUrl : String) : String :=
  match parseURL rawUrl with
  | some u => href { u with hash := none }
  | none => rawUrl

/-- Formalisation of spec section 4.1 (HostnameResolver), written from the
spec's words for comparison with the source translation: parse; on failure
return the lowercased raw string; on success lowercase the hostname, keep an
IPv4 dotted quad or `localhost` unchanged, otherwise strip a leading `www.`,
return the last three dot-separated labels when the host ends in a tabled
multi-part suffix, else the last two labels, or the whole host when it has
fewer than two labels. -/
def resolveSpec (parse : String → Option String) (url : String) : String :=
  match parse url with
  | none => strLower url
  | some hostname =>
    let h := strLower hostname
    if ipv4DottedQuad h || h = "localhost" then h
    else
      let stripped := if strStartsWith h "www." then strDrop h 4 else h
      let labels := strSplit stripped '.'
      match multiPartSuffixes.find? (fun sfx => strEndsWith stripped ("." ++ sfx)) with
      | some _ => strJoinDot (labels.drop (labels.length - 3))
      | none =>
        if 2 ≤ labels.length then strJoinDot (labels.drop (labels.length - 2))
        else stripped

/-- A tab carrying only a URL, used for concrete resolver examples. -/
def urlTab (u : String) : Tab :=
  { id := 0, url := u, title := "", pinned := false, active := false,
    index := 0, groupId := none }

theorem getEffectiveHostname_eq_resolveSpec (hostname : String) :
    getEffectiveHostname hostname = resolveSpec (fun _ => some hostname) "" := by
  show getEffectiveHostname hostname = _
  unfold getEffectiveHostname resolveSpec
  by_cases hl : strLower hostname = ""
  · simp only [hl]
    decide
  · simp only [hl, if_neg, if_false]

/-- C3: for every URL string the hostname resolver behaves as the spec
describes it — on parse failure the lowercased raw string, on success the
lowercased hostname kept verbatim for IPv4 dotted quads and `localhost`, and
otherwise reduced, after stripping a leading `www.`, to the last three
labels for hosts ending in a tabled multi-part suffix and the last two
labels otherwise (the whole host when it has fewer than two labels); in
particular the google subdomains resolve to `google.com`, `www.bbc.co.uk`
to `bbc.co.uk` and `http://192.168.1.1:8080/x` to `192.168.1.1`. -/
theorem hostnameResolver_matches_spec :
    (∀ (parse : String → Option String) (tab : Tab),
        getHostWith parse tab = resolveSpec parse tab.url) ∧
      getHost (urlTab "https://mail.google.com") = "google.com" ∧
      getHost (urlTab "https://docs.google.com") = "google.com" ∧
      getHost (urlTab "https://www.google.com") = "google.com" ∧
      getHost (urlTab "https://www.bbc.co.uk") = "bbc.co.uk" ∧
      getHost (urlTab "http://192.168.1.1:8080/x") = "192.168.1.1" := by
  refine ⟨?_, by decide, by decide, by decide, by decide, by decide⟩
  intro parse tab
  unfold getHostWith resolveSpec
  cases hp : parse tab.url with
  | none => rfl
  | some hostname => exact getEffectiveHostname_eq_resolveSpec hostname

/-! ## Deduplicator (src/background.js lines 87-131) -/

/-- Append a tab to the bucket of `key` in an insertion-ordered association
list, creating the bucket at the end when absent.  Models the JS `Map`
updates of `removeDuplicateTabs` (`set` / `get(...).push`). -/
def pushEntry (key : String) (tab : Tab) :
    List (String × List Tab) → List (String × List Tab)
  | [] => [(key, [tab])]
  | (k, ts) :: rest =>
    if k = key then (k, ts ++ [tab]) :: rest else (k, ts) :: pushEntry key tab rest

/-- The grouping loop of `removeDuplicateTabs` (src/background.js:93-98):
tabs with an empty URL are skipped (`if (!tab.url) continue`), the rest
bucketed by normalized URL in first-encounter order. -/
def urlToTabs (tabs : List Tab) : List (String × List Tab) :=
  tabs.foldl
    (fun m tab =>
      if tab.url = "" then m
      else pushEntry (normalizeUrlForDeduplication tab.url) tab m)
    []

/-- The survivor ordering `(a, b) => a.index - b.index`. -/
def idxLe (a b : Tab) : Bool := decide (a.index ≤ b.index)

/-- Survivor choice among unpinned duplicates (src/background.js:116-119):
`unpinnedTabs.find(t => t.active)`, else the head of the list sorted by
index. -/
def bucketSurvivor (unpinnedTabs : List Tab) : Option Tab :=
  match unpinnedTabs.find? (·.active) with
  | some k => some k
  | none => (jsSort idxLe unpinnedTabs).head?

/-- Closure choice for one duplicate bucket (src/background.js:102-123):
buckets of size one are skipped; with a pinned member every unpinned member
is closed; otherwise the survivor is kept and the other unpinned members
are closed. -/
def bucketClosure (sameUrlTabs : List Tab) : List Nat :=
  if sameUrlTabs.length ≤ 1 then []
  else
    let pinnedTabs := sameUrlTabs.filter (·.pinned)
    let unpinnedTabs := sameUrlTabs.filter (fun t => !t.pinned)
    if 0 < pinnedTabs.length then unpinnedTabs.map (·.id)
    else
      match bucketSurvivor unpinnedTabs with
      | some keep => (unpinnedTabs.filter (fun t => t.id ≠ keep.id)).map (·.id)
      | none => []

/-- The closure set `toClose` accumulated by `removeDuplicateTabs`
(src/background.js:100-123). -/
def dedupPlan (tabs : List Tab) : List Nat :=
  (urlToTabs tabs).foldl (fun acc e => acc ++ bucketClosure e.2) []

/-- First bucket stored under a key (`Map.get`). -/
def lookupBucket (m : List (String × List Tab)) (k : String) : List Tab :=
  match m.find? (fun e => e.1 = k) with
  | some e => e.2
  | none => []

theorem pushEntry_lookup (key : String) (tab : Tab)
    (m : List (String × List Tab)) (k : String) :
    lookupBucket (pushEntry key tab m) k =
      if k = key then lookupBucket m k ++ [tab] else lookupBucket m k := by
  induction m with
  | nil =>
    by_cases hk : k = key
    · subst hk; simp [pushEntry, lookupBucket, List.find?]
    · have h2 : ¬ key = k := fun h => hk h.symm
      simp [pushEntry, lookupBucket, List.find?, h2, hk]
  | cons e rest ih =>
    obtain ⟨k', ts⟩ := e
    by_cases he : k' = key
    · subst he
      by_cases hk : k = k'
      · subst hk; simp [pushEntry, lookupBucket, List.find?]
      · have h2 : ¬ k' = k := fun h => hk h.symm
        simp [pushEntry, lookupBucket, List.find?, h2, hk]
    · by_cases hk2 : k' = k
      · subst hk2
        have h3 : ¬ k' = key := he
        have h4 : k' = k' := rfl
        simp [pushEntry, lookupBucket, List.find?, he, fun h => he (h4.trans h)]
      · simp only [pushEntry, if_neg he]
        have h5 : lookupBucket ((k', ts) :: pushEntry key tab rest) k =
            lookupBucket (pushEntry key tab rest) k := by
          simp [lookupBucket, List.find?, hk2]
        have h6 : lookupBucket ((k', ts) :: rest) k = lookupBucket rest k := by
          simp [lookupBucket, List.find?, hk2]
        rw [h5, h6, ih]

theorem pushEntry_keys (key : String) (tab : Tab)
    (m : List (String × List Tab)) :
    (pushEntry key tab m).map Prod.fst =
      if key ∈ m.map Prod.fst then m.map Prod.fst else m.map Prod.fst ++ [key] := by
  induction m with
  | nil => simp [pushEntry]
  | cons e rest ih =>
    obtain ⟨k', ts⟩ := e
    by_cases he : k' = key
    · subst he; simp [pushEntry]
    · have : ¬ key = k' := fun h => he h.symm
      by_cases hmem : key ∈ rest.map Prod.fst <;>
        simp [pushEntry, he, this, hmem, ih]

theorem mem_pushEntry_keys (key : String) (tab : Tab)
    (m : List (String × List Tab)) (k : String) :
    (k ∈ (pushEntry key tab m).map Prod.fst) ↔
      k ∈ m.map Prod.fst ∨ k = key := by
  rw [pushEntry_keys]
  by_cases hmem : key ∈ m.map Prod.fst
  · simp only [hmem, if_true]
    constructor
    · exact Or.inl
    · rintro (h | rfl)
      · exact h
      · exact hmem
  · simp [hmem]

theorem pushEntry_keys_nodup (key : String) (tab : Tab)
    {m : List (String × List Tab)} (hN : (m.map Prod.fst).Nodup) :
    ((pushEntry key tab m).map Prod.fst).Nodup := by
  rw [pushEntry_keys]
  by_cases hmem : key ∈ m.map Prod.fst
  · simpa [hmem]
  · simp only [hmem, if_false]
    simp [List.nodup_append, hN, hmem]

theorem mem_eq_lookupBucket :
    ∀ {m : List (String × List Tab)}, ((m.map Prod.fst).Nodup) →
      ∀ {k : String} {g : List Tab}, (k, g) ∈ m → g = lookupBucket m k := by
  intro m
  induction m with
  | nil => intro _ k g h; cases h
  | cons e rest ih =>
    obtain ⟨k', ts⟩ := e
    intro hN k g h
    rw [List.map_cons] at hN
    have hN2 := List.nodup_cons.1 hN
    rcases List.mem_cons.1 h with heq | hrest
    · simp only [Prod.mk.injEq] at heq
      obtain ⟨rfl, rfl⟩ := heq
      simp [lookupBucket, List.find?]
    · have hkmem : k ∈ rest.map Prod.fst :=
        List.mem_map.2 ⟨(k, g), hrest, rfl⟩
      have hk' : ¬ k' = k := by
        intro hkk
        subst hkk
        exact hN2.1 hkmem
      have := ih hN2.2 hrest
      simpa [lookupBucket, List.find?, hk'] using this

/-- The bucketing predicate of the dedup `Map`: a tab lands in bucket `k`
exactly when its URL is nonempty and normalizes to `k`. -/
def dedupPred (k : String) (t : Tab) : Bool :=
  decide (t.url ≠ "") && decide (normalizeUrlForDeduplication t.url = k)

theorem urlToTabs_go_lookup (tabs : List Tab) (k : String) :
    ∀ m, lookupBucket
        (tabs.foldl
          (fun m tab =>
            if tab.url = "" then m
            else pushEntry (normalizeUrlForDeduplication tab.url) tab m)
          m) k =
      lookupBucket m k ++ tabs.filter (dedupPred k) := by
  induction tabs with
  | nil => intro m; simp
  | cons t rest ih =>
    intro m
    simp only [List.foldl_cons]
    by_cases hurl : t.url = ""
    · have hpred : dedupPred k t = false := by
        simp [dedupPred, hurl]
      simp only [hurl, if_true, List.filter_cons, hpred, Bool.false_eq_true, if_false]
      exact ih m
    · simp only [hurl, if_false]
      rw [ih, pushEntry_lookup]
      by_cases hk : k = normalizeUrlForDeduplication t.url
      · subst hk
        have hpred : dedupPred (normalizeUrlForDeduplication t.url) t = true := by
          simp [dedupPred, hurl]
        simp [List.filter_cons, hpred]
      · have hpred : dedupPred k t = false := by
          simp only [dedupPred, Bool.and_eq_false_iff]
          right
          simpa [eq_comm] using hk
        simp [hk, List.filter_cons, hpred]

theorem urlToTabs_lookup (tabs : List Tab) (k : String) :
    lookupBucket (urlToTabs tabs) k = tabs.filter (dedupPred k) := by
  have := urlToTabs_go_lookup tabs k []
  simpa [urlToTabs, lookupBucket, List.find?] using this

theorem urlToTabs_keys_nodup (tabs : List Tab) :
    ((urlToTabs tabs).map Prod.fst).Nodup := by
  have : ∀ m, ((m.map Prod.fst).Nodup) →
      (((tabs.foldl
          (fun m tab =>
            if tab.url = "" then m
            else pushEntry (normalizeUrlForDeduplication tab.url) tab m)
          m).map Prod.fst).Nodup) := by
    induction tabs with
    | nil => intro m hm; simpa
    | cons t rest ih =>
      intro m hm
      simp only [List.foldl_cons]
      by_cases hurl : t.url = ""
      · simp only [hurl, if_true]
        exact ih m hm
      · simp only [hurl, if_false]
        exact ih _ (pushEntry_keys_nodup _ _ hm)
  simpa [urlToTabs] using this [] (by simp)

theorem mem_urlToTabs_eq_filter {tabs : List Tab} {k : String} {g : List Tab}
    (h : (k, g) ∈ urlToTabs tabs) : g = tabs.filter (dedupPred k) := by
  rw [mem_eq_lookupBucket (urlToTabs_keys_nodup tabs) h, urlToTabs_lookup]

theorem mem_dedupPlan_aux (l : List (String × List Tab)) (i : Nat) :
    ∀ acc, (i ∈ l.foldl (fun a e => a ++ bucketClosure e.2) acc ↔
      i ∈ acc ∨ ∃ e ∈ l, i ∈ bucketClosure e.2) := by
  induction l with
  | nil => intro acc; simp
  | cons e rest ih =>
    intro acc
    simp only [List.foldl_cons]
    rw [ih]
    constructor
    · rintro (h | h)
      · rcases List.mem_append.1 h with h' | h'
        · exact Or.inl h'
        · exact Or.inr ⟨e, by simp, h'⟩
      · obtain ⟨e', he', hi⟩ := h
        exact Or.inr ⟨e', by simp [he'], hi⟩
    · rintro (h | ⟨e', he', hi⟩)
      · exact Or.inl (List.mem_append.2 (Or.inl h))
      · rcases List.mem_cons.1 he' with rfl | hrest
        · exact Or.inl (List.mem_append.2 (Or.inr hi))
        · exact Or.inr ⟨e', hrest, hi⟩

theorem mem_dedupPlan {tabs : List Tab} {i : Nat} :
    i ∈ dedupPlan tabs ↔ ∃ e ∈ urlToTabs tabs, i ∈ bucketClosure e.2 := by
  simpa [dedupPlan] using mem_dedupPlan_aux (urlToTabs tabs) i []

theorem bucketSurvivor_mem {l : List Tab} {s : Tab}
    (h : bucketSurvivor l = some s) : s ∈ l := by
  unfold bucketSurvivor at h
  cases hf : l.find? (·.active) with
  | some k =>
    rw [hf] at h
    cases h
    exact List.mem_of_find?_eq_some hf
  | none =>
    rw [hf] at h
    have h' : (jsSort idxLe l).head? = some s := h
    cases hsort : jsSort idxLe l with
    | nil => rw [hsort] at h'; cases h'
    | cons a t =>
      rw [hsort] at h'
      have ha : a = s := by simpa using h'
      have : s ∈ jsSort idxLe l := by rw [hsort, ← ha]; exact List.mem_cons_self a t
      exact mem_jsSort.1 this

/-- Every id in a bucket closure belongs to an unpinned member of the
bucket. -/
theorem mem_bucketClosure_unpinned {g : List Tab} {i : Nat}
    (h : i ∈ bucketClosure g) : ∃ t ∈ g, t.id = i ∧ t.pinned = false := by
  unfold bucketClosure at h
  by_cases hlen : g.length ≤ 1
  · simp [hlen] at h
  · rw [if_neg hlen] at h
    by_cases hpin : 0 < (g.filter (·.pinned)).length
    · rw [if_pos hpin] at h
      obtain ⟨t, ht, hid⟩ := List.mem_map.1 h
      have := List.mem_filter.1 ht
      exact ⟨t, this.1, hid, by simpa using this.2⟩
    · rw [if_neg hpin] at h
      cases hs : bucketSurvivor (g.filter (fun t => !t.pinned)) with
      | none => rw [hs] at h; cases h
      | some keep =>
        rw [hs] at h
        obtain ⟨t, ht, hid⟩ := List.mem_map.1 h
        have := List.mem_filter.1 (List.mem_filter.1 ht).1
        exact ⟨t, this.1, hid, by simpa using this.2⟩

/-- Two tabs of a duplicate-free-id list with the same id coincide. -/
theorem eq_of_id_eq {tabs : List Tab} (hids : (tabs.map (·.id)).Nodup)
    {a b : Tab} (ha : a ∈ tabs) (hb : b ∈ tabs) (hid : a.id = b.id) : a = b := by
  classical
  by_contra hne
  have : ¬ (tabs.map (·.id)).Nodup := by
    clear hids
    induction tabs with
    | nil => cases ha
    | cons t rest ih =>
      rcases List.mem_cons.1 ha with rfl | ha' <;>
        rcases List.mem_cons.1 hb with h | hb'
      · exact absurd h.symm (by rw [h] at hne; exact fun hh => hne rfl)
      · intro hN
        rw [List.map_cons, List.nodup_cons] at hN
        exact hN.1 (hid ▸ List.mem_map.2 ⟨b, hb', rfl⟩)
      · subst h
        intro hN
        rw [List.map_cons, List.nodup_cons] at hN
        exact hN.1 (hid ▸ List.mem_map.2 ⟨a, ha', rfl⟩)
      · intro hN
        rw [List.map_cons, List.nodup_cons] at hN
        exact ih ha' hb' hN.2
  exact this hids

/-- With duplicate-free ids, membership of a bucket member's id in the
global plan is decided inside its own bucket. -/
theorem mem_dedupPlan_bucket {tabs : List Tab}
    (hids : (tabs.map (·.id)).Nodup) {k : String} {g : List Tab}
    (hg : (k, g) ∈ urlToTabs tabs) {t : Tab} (ht : t ∈ g) :
    t.id ∈ dedupPlan tabs ↔ t.id ∈ bucketClosure g := by
  constructor
  · intro h
    obtain ⟨e, he, hi⟩ := mem_dedupPlan.1 h
    obtain ⟨k', g'⟩ := e
    obtain ⟨u, hu, huid, _⟩ := mem_bucketClosure_unpinned hi
    have hg'f := mem_urlToTabs_eq_filter he
    have hgf := mem_urlToTabs_eq_filter hg
    have hu2 := hu
    rw [hg'f] at hu2
    have ht2 := ht
    rw [hgf] at ht2
    have hut : u = t :=
      eq_of_id_eq hids (List.mem_filter.1 hu2).1 (List.mem_filter.1 ht2).1 huid
    have hpred_u : dedupPred k' t = true := hut ▸ (List.mem_filter.1 hu2).2
    have hpred_t : dedupPred k t = true := (List.mem_filter.1 ht2).2
    have hkk : k' = k := by
      simp only [dedupPred, Bool.and_eq_true, decide_eq_true_eq] at hpred_u hpred_t
      exact hpred_u.2.symm.trans hpred_t.2
    subst hkk
    have : g' = g := hg'f.trans hgf.symm
    subst this
    exact hi
  · intro h
    exact mem_dedupPlan.2 ⟨(k, g), hg, h⟩

theorem bucketClosure_of_pinned {g : List Tab} (hlen : ¬ g.length ≤ 1)
    (hpin : 0 < (g.filter (·.pinned)).length) :
    bucketClosure g = (g.filter (fun t => !t.pinned)).map (·.id) := by
  unfold bucketClosure
  rw [if_neg hlen, if_pos hpin]

theorem bucketClosure_of_survivor {g : List Tab} (hlen : ¬ g.length ≤ 1)
    (hpin : ¬ 0 < (g.filter (·.pinned)).length) {s : Tab}
    (hs : bucketSurvivor (g.filter (fun t => !t.pinned)) = some s) :
    bucketClosure g =
      ((g.filter (fun t => !t.pinned)).filter (fun t => t.id ≠ s.id)).map (·.id) := by
  unfold bucketClosure
  rw [if_neg hlen, if_neg hpin, hs]

theorem idxLe_total (a b : Tab) : idxLe a b ∨ idxLe b a := by
  simp only [idxLe, decide_eq_true_eq]
  exact Nat.le_total a.index b.index

theorem idxLe_trans (a b c : Tab) : idxLe a b → idxLe b c → idxLe a c := by
  simp only [idxLe, decide_eq_true_eq]
  exact Nat.le_trans

theorem bucketSurvivor_active {l : List Tab} (ha : ∃ a ∈ l, a.active = true) :
    ∃ s, bucketSurvivor l = some s ∧ s.active = true := by
  obtain ⟨a, hal, haa⟩ := ha
  cases hf : l.find? (·.active) with
  | none =>
    rw [List.find?_eq_none] at hf
    exact absurd haa (by simpa using hf a hal)
  | some k =>
    exact ⟨k, by simp [bucketSurvivor, hf], by simpa using List.find?_some hf⟩

theorem bucketSurvivor_no_active {l : List Tab} (hne : l ≠ [])
    (ha : ∀ a ∈ l, a.active = false) :
    ∃ s, bucketSurvivor l = some s ∧ ∀ u ∈ l, s.index ≤ u.index := by
  have hf : l.find? (·.active) = none :=
    List.find?_eq_none.2 (fun x hx => by simp [ha x hx])
  cases hsort : jsSort idxLe l with
  | nil =>
    have hlen := jsSort_length idxLe l
    rw [hsort] at hlen
    exact absurd (List.length_eq_zero.1 hlen.symm) hne
  | cons s t =>
    refine ⟨s, by simp [bucketSurvivor, hf, hsort], ?_⟩
    intro u hu
    have hpw := jsSort_pairwise idxLe_total idxLe_trans l
    rw [hsort] at hpw
    have hu' : u ∈ s :: t := by rw [← hsort]; exact mem_jsSort.2 hu
    rcases List.mem_cons.1 hu' with rfl | hu''
    · exact le_refl _
    · have := (List.pairwise_cons.1 hpw).1 u hu''
      simpa [idxLe] using this

/-- C2: for every duplicate bucket of size at least two, the closure set
contains exactly the unpinned members when some member is pinned (pinned
members are never closed, even when duplicated among themselves), and
otherwise all members except one survivor, which is an active member when
the bucket has one and a member of lowest index otherwise. -/
theorem deduplicator_survivor_policy (tabs : List Tab)
    (hids : (tabs.map (·.id)).Nodup) :
    (∀ t ∈ tabs, t.pinned = true → t.id ∉ dedupPlan tabs) ∧
      (∀ k g, (k, g) ∈ urlToTabs tabs → 2 ≤ g.length →
        ((∃ p ∈ g, p.pinned = true) →
          ∀ t ∈ g, (t.id ∈ dedupPlan tabs ↔ t.pinned = false)) ∧
        ((∀ p ∈ g, p.pinned = false) →
          ∃ s ∈ g, ((∃ a ∈ g, a.active = true) → s.active = true) ∧
            ((¬ ∃ a ∈ g, a.active = true) → ∀ u ∈ g, s.index ≤ u.index) ∧
            ∀ t ∈ g, (t.id ∈ dedupPlan tabs ↔ t.id ≠ s.id))) := by
  constructor
  · intro t ht hpinned hplan
    obtain ⟨e, he, hi⟩ := mem_dedupPlan.1 hplan
    obtain ⟨u, hu, huid, hunp⟩ := mem_bucketClosure_unpinned hi
    have hef := mem_urlToTabs_eq_filter he
    rw [hef] at hu
    have hut : u = t := eq_of_id_eq hids (List.mem_filter.1 hu).1 ht huid
    rw [hut] at hunp
    rw [hpinned] at hunp
    cases hunp
  · intro k g hg hlen
    have hlen1 : ¬ g.length ≤ 1 := by omega
    have hgf := mem_urlToTabs_eq_filter hg
    have hsub : ∀ t ∈ g, t ∈ tabs := by
      intro t ht
      rw [hgf] at ht
      exact (List.mem_filter.1 ht).1
    constructor
    · intro hpin t ht
      obtain ⟨p, hp, hpp⟩ := hpin
      have hpinlen : 0 < (g.filter (·.pinned)).length :=
        List.length_pos_of_mem (List.mem_filter.2 ⟨hp, by simp [hpp]⟩)
      rw [mem_dedupPlan_bucket hids hg ht,
        bucketClosure_of_pinned hlen1 hpinlen]
      constructor
      · intro h
        obtain ⟨u, hu, huid⟩ := List.mem_map.1 h
        have hu' := List.mem_filter.1 hu
        have hut : u = t := eq_of_id_eq hids (hsub u hu'.1) (hsub t ht) huid
        rw [← hut]
        simpa using hu'.2
      · intro h
        exact List.mem_map.2 ⟨t, List.mem_filter.2 ⟨ht, by simp [h]⟩, rfl⟩
    · intro hall
      have hfe : g.filter (fun t => !t.pinned) = g :=
        List.filter_eq_self.2 (fun t ht => by simp [hall t ht])
      have hpin : ¬ 0 < (g.filter (·.pinned)).length := by
        intro hpos
        obtain ⟨p, hp⟩ := List.exists_mem_of_length_pos hpos
        have hp' := List.mem_filter.1 hp
        have := hall p hp'.1
        rw [this] at hp'
        simpa using hp'.2
      have hne : g ≠ [] := by
        intro h
        rw [h] at hlen
        simp at hlen
      have hcl : ∀ s : Tab,
          bucketSurvivor (g.filter (fun t => !t.pinned)) = some s →
          ∀ t ∈ g, (t.id ∈ dedupPlan tabs ↔ t.id ≠ s.id) := by
        intro s hs t ht
        rw [mem_dedupPlan_bucket hids hg ht,
          bucketClosure_of_survivor hlen1 hpin hs, hfe]
        constructor
        · intro h hts
          obtain ⟨u, hu, huid⟩ := List.mem_map.1 h
          have hu' := List.mem_filter.1 hu
          have : u.id ≠ s.id := by simpa using hu'.2
          rw [huid, hts] at this
          exact this rfl
        · intro h
          exact List.mem_map.2 ⟨t, List.mem_filter.2 ⟨ht, by simpa using h⟩, rfl⟩
      by_cases hact : ∃ a ∈ g, a.active = true
      · obtain ⟨s, hs, hsact⟩ :=
          bucketSurvivor_active (l := g.filter (fun t => !t.pinned))
            (by rw [hfe]; exact hact)
        have smem : s ∈ g := by
          have := bucketSurvivor_mem hs
          rwa [hfe] at this
        exact ⟨s, smem, fun _ => hsact, fun hno => absurd hact hno, hcl s hs⟩
      · have hnone : ∀ a ∈ g, a.active = false := by
          intro a ha
          by_contra h
          exact hact ⟨a, ha, by simpa using h⟩
        obtain ⟨s, hs, hmin⟩ :=
          bucketSurvivor_no_active (l := g.filter (fun t => !t.pinned))
            (by rw [hfe]; exact hne) (by rw [hfe]; exact hnone)
        have smem : s ∈ g := by
          have := bucketSurvivor_mem hs
          rwa [hfe] at this
        rw [hfe] at hmin
        exact ⟨s, smem, fun hex => absurd hex hact, fun _ => hmin, hcl s hs⟩

/-- The duplicate bucket example of the spec: three tabs on the same URL,
none pinned, the middle one active. -/
def dedupExample : List Tab :=
  [{ id := 1, url := "https://a.com", title := "", pinned := false,
     active := false, index := 3, groupId := none },
   { id := 2, url := "https://a.com", title := "", pinned := false,
     active := true, index := 1, groupId := none },
   { id := 3, url := "https://a.com", title := "", pinned := false,
     active := false, index := 0, groupId := none }]

theorem deduplicator_survivor_policy_witness :
    ((dedupExample.map (·.id)).Nodup) ∧
      ((∀ t ∈ dedupExample, t.pinned = true → t.id ∉ dedupPlan dedupExample) ∧
        (∀ k g, (k, g) ∈ urlToTabs dedupExample → 2 ≤ g.length →
          ((∃ p ∈ g, p.pinned = true) →
            ∀ t ∈ g, (t.id ∈ dedupPlan dedupExample ↔ t.pinned = false)) ∧
          ((∀ p ∈ g, p.pinned = false) →
            ∃ s ∈ g, ((∃ a ∈ g, a.active = true) → s.active = true) ∧
              ((¬ ∃ a ∈ g, a.active = true) → ∀ u ∈ g, s.index ≤ u.index) ∧
              ∀ t ∈ g, (t.id ∈ dedupPlan dedupExample ↔ t.id ≠ s.id)))) ∧
      dedupPlan dedupExample = [1, 3] :=
  ⟨by decide, deduplicator_survivor_policy dedupExample (by decide), by decide⟩

theorem urlToTabs_filter_nonempty (tabs : List Tab) :
    urlToTabs tabs = urlToTabs (tabs.filter (fun t => t.url ≠ "")) := by
  have : ∀ m, (tabs.foldl
      (fun m tab =>
        if tab.url = "" then m
        else pushEntry (normalizeUrlForDeduplication tab.url) tab m) m) =
      ((tabs.filter (fun t => t.url ≠ "")).foldl
      (fun m tab =>
        if tab.url = "" then m
        else pushEntry (normalizeUrlForDeduplication tab.url) tab m) m) := by
    induction tabs with
    | nil => intro m; rfl
    | cons t rest ih =>
      intro m
      by_cases hurl : t.url = ""
      · simp [List.filter_cons, hurl, ih]
      · simp [List.filter_cons, hurl, ih]
  simpa [urlToTabs] using this []

/-- C8, amended: only tabs with an *empty* URL are excluded from
deduplication (they join no bucket, are never closed and never cause a
closure); tabs with unparsable URLs participate, keyed by the raw URL
string, while parsable URLs are compared after clearing the fragment. -/
theorem dedup_url_participation (tabs : List Tab) :
    (dedupPlan tabs = dedupPlan (tabs.filter (fun t => t.url ≠ ""))) ∧
      ((tabs.map (·.id)).Nodup → ∀ t ∈ tabs, t.url = "" → t.id ∉ dedupPlan tabs) ∧
      (∀ url r, parseURL url = some r →
        normalizeUrlForDeduplication url = href { r with hash := none }) ∧
      (∀ url, parseURL url = none → normalizeUrlForDeduplication url = url) := by
  refine ⟨?_, ?_, ?_, ?_⟩
  · unfold dedupPlan
    rw [urlToTabs_filter_nonempty]
  · intro hids t ht hurl hplan
    obtain ⟨e, he, hi⟩ := mem_dedupPlan.1 hplan
    obtain ⟨u, hu, huid, _⟩ := mem_bucketClosure_unpinned hi
    have hef := mem_urlToTabs_eq_filter he
    rw [hef] at hu
    have hu' := List.mem_filter.1 hu
    have hut : u = t := eq_of_id_eq hids hu'.1 ht huid
    have := hu'.2
    rw [hut] at this
    simp only [dedupPred, Bool.and_eq_true, decide_eq_true_eq] at this
    exact this.1 hurl
  · intro url r hp
    simp [normalizeUrlForDeduplication, hp]
  · intro url hp
    simp [normalizeUrlForDeduplication, hp]

/-- Counterexample to C8 as stated: two tabs sharing the unparsable URL
`"not a url"` form a duplicate bucket and the second is marked for
closure, so unparsable URLs are not excluded from deduplication. -/
theorem dedup_unparsable_counterexample :
    parseURL "not a url" = none ∧
      2 ∈ dedupPlan
        [{ id := 1, url := "not a url", title := "", pinned := false,
           active := false, index := 0, groupId := none },
         { id := 2, url := "not a url", title := "", pinned := false,
           active := false, index := 1, groupId := none }] := by
  decide

/-- A tab with an empty URL, for the dedup exclusion witness. -/
def emptyUrlTab : Tab :=
  { id := 7, url := "", title := "", pinned := false, active := false,
    index := 0, groupId := none }

theorem dedup_url_participation_witness :
    (dedupPlan dedupExample =
        dedupPlan (dedupExample.filter (fun t => t.url ≠ ""))) ∧
      (([emptyUrlTab].map (·.id)).Nodup ∧ emptyUrlTab ∈ [emptyUrlTab] ∧
        emptyUrlTab.url = "" ∧ emptyUrlTab.id ∉ dedupPlan [emptyUrlTab]) ∧
      (parseURL "https://a.com/x#sec" =
          some { scheme := "https", hostname := "a.com", port := none,
                 path := "/x", query := none, hash := some "sec" } ∧
        normalizeUrlForDeduplication "https://a.com/x#sec" =
          href { scheme := "https", hostname := "a.com", port := none,
                 path := "/x", query := none, hash := none }) :=
  ⟨(dedup_url_participation dedupExample).1,
    ⟨by decide, by decide, rfl,
      (dedup_url_participation [emptyUrlTab]).2.1 (by decide) emptyUrlTab
        (by decide) rfl⟩,
    by decide,
    (dedup_url_participation []).2.2.1 "https://a.com/x#sec"
      { scheme := "https", hostname := "a.com", port := none,
        path := "/x", query := none, hash := some "sec" } (by decide)⟩

/-! ## Operations and window semantics

Calls to the Tab / TabGroup services are recorded as an operation trace.
`applyOp` gives the state transition of a *successful* call: `move` removes
the tab and reinserts it so that its final position is the requested index
(clamped to the end, as the browser does); `group` re-assigns membership;
`groupNew` models `tabs.group` without a group id, which creates a fresh
group with default metadata; `updateGroup` patches group metadata; `remove`
closes tabs.  A failing call leaves the window unchanged.  Failures are
driven by an oracle indexed by the call counter. -/

inductive Op where
  | move (tabId : Nat) (index : Nat)
  | group (tabIds : List Nat) (groupId : Nat)
  | groupNew (tabIds : List Nat) (newGroupId : Nat)
  | updateGroup (groupId : Nat) (title : Option String) (color : Option String)
      (collapsed : Option Bool)
  | remove (tabIds : List Nat)
deriving Repr, DecidableEq

def applyMove (w : Window) (tabId : Nat) (idx : Nat) : Window :=
  match w.tabs.findIdx? (fun t => t.id = tabId) with
  | none => w
  | some i =>
    match w.tabs[i]? with
    | none => w
    | some t =>
      let rest := w.tabs.eraseIdx i
      { w with tabs := rest.insertIdx (min idx rest.length) t }

def assignGroup (w : Window) (ids : List Nat) (gid : Option Nat) : Window :=
  { w with tabs := w.tabs.map fun t =>
      if t.id ∈ ids then { t with groupId := gid } else t }

def applyOp (w : Window) : Op → Window
  | .move tid idx => applyMove w tid idx
  | .group ids gid => assignGroup w ids (some gid)
  | .groupNew ids gid =>
    let w' := assignGroup w ids (some gid)
    { w' with groups := w'.groups ++
        [{ id := gid, title := "", color := "grey", collapsed := false }] }
  | .updateGroup gid ti co cl =>
    { w with groups := w.groups.map fun g =>
        if g.id = gid then
          { g with
              title := ti.getD g.title
              color := co.getD g.color
              collapsed := cl.getD g.collapsed }
        else g }
  | .remove ids => { w with tabs := w.tabs.filter fun t => !(t.id ∈ ids) }

/-- Execution state: current window, trace of attempted calls, call
counter. -/
structure Exec where
  win : Window
  trace : List Op
  calls : Nat
deriving Repr, DecidableEq

/-- Issue one service call: it is recorded in the trace, consumes a tick of
the call counter, and transforms the window only when the failure oracle
lets it succeed. -/
def attempt (fail : Nat → Bool) (s : Exec) (op : Op) : Exec × Bool :=
  let ok := !fail s.calls
  ({ win := if ok then applyOp s.win op else s.win,
     trace := s.trace ++ [op], calls := s.calls + 1 }, ok)

/-- Environment of a reconciliation run: the failure oracle for individual
move/group/update/remove calls, failure flags for the enumerating queries
(the payload is the message the rejected promise would carry), group
support, and the two abstract collation functions.  `lcBase` models
`localeCompare(x, undefined, {sensitivity: "base"})` as used by
`sortUngroupedTabs`; `lcDef` models the two-argument
`localeCompare(x, {sensitivity: "base"})` of the general path, whose
options object lands in the locales position so that the default collation
is used. -/
structure Env where
  fail : Nat → Bool
  dedupQueryFail : Bool
  tabsQueryFail : Option String
  groupsQueryFail : Option String
  supportsTabGroups : Bool
  lcBase : String → String → Int
  lcDef : String → String → Int

inductive Status where
  | sorted
  | already_sorted
  | error (message : String)
deriving Repr, DecidableEq

/-- The tab comparator (src/background.js:238-245 and 313-323): effective
host first, then title. -/
def tabCompare (lc : String → String → Int) (a b : Tab) : Int :=
  let hostCompare := lc (getHost a) (getHost b)
  if hostCompare ≠ 0 then hostCompare else lc a.title b.title

def tabLe (lc : String → String → Int) (a b : Tab) : Bool :=
  decide (tabCompare lc a b ≤ 0)

/-- Group ordering by collated title (src/background.js:251-253). -/
def groupLe (lc : String → String → Int) (a b : Group × List Tab) : Bool :=
  decide (lc a.1.title b.1.title ≤ 0)

/-- Translation of `removeDuplicateTabs` (src/background.js:87-131) at the
service level: query, compute the closure set, and issue a single `remove`
when it is nonempty; a failing query or a failing removal is swallowed. -/
def removeDuplicateTabsExec (env : Env) (s : Exec) : Exec :=
  if env.dedupQueryFail then s
  else
    let tabs := queryTabs s.win
    let toClose := dedupPlan tabs
    if 0 < toClose.length then (attempt env.fail s (.remove toClose)).1 else s

/-- The move loop pattern shared by both execution paths: move each listed
tab to the running target index, advancing the index only after a
successful move (src/background.js:271-275, 294-299, 335-340). -/
def moveSeq (fail : Nat → Bool) : Exec → List Nat → Nat → Exec × Nat
  | s, [], idx => (s, idx)
  | s, tid :: rest, idx =>
    let r := attempt fail s (.move tid idx)
    moveSeq fail r.1 rest (if r.2 then idx + 1 else idx)

/-- Translation of `sortUngroupedTabs` (src/background.js:312-342). -/
def sortUngroupedTabsExec (env : Env) (s : Exec) (unpinnedTabs : List Tab)
    (pinnedCount : Nat) : Exec × Status :=
  let sortedUnpinned := jsSort (tabLe env.lcBase) unpinnedTabs
  let currentOrderIds : List Nat := unpinnedTabs.map (·.id)
  let sortedOrderIds : List Nat := sortedUnpinned.map (·.id)
  if currentOrderIds = sortedOrderIds then (s, Status.already_sorted)
  else
    let r := moveSeq env.fail s (sortedUnpinned.map (·.id)) pinnedCount
    (r.1, Status.sorted)

/-- Insertion-ordered `Map.set` over group data keyed by group id. -/
def setEntryG (gid : Nat) (v : Group × List Tab) :
    List (Nat × (Group × List Tab)) → List (Nat × (Group × List Tab))
  | [] => [(gid, v)]
  | (k, w) :: rest =>
    if k = gid then (k, v) :: rest else (k, w) :: setEntryG gid v rest

/-- `groups.forEach(g => groupData.set(g.id, {group: g, tabs: []}))`
(src/background.js:222-223). -/
def initGroupData (groups : List Group) : List (Nat × (Group × List Tab)) :=
  groups.foldl (fun m g => setEntryG g.id (g, []) m) []

def hasKeyG (m : List (Nat × (Group × List Tab))) (gid : Nat) : Bool :=
  (m.find? (fun e => e.1 = gid)).isSome

/-- `groupData.get(tab.groupId).tabs.push(tab)`. -/
def pushTabG (gid : Nat) (t : Tab) :
    List (Nat × (Group × List Tab)) → List (Nat × (Group × List Tab))
  | [] => []
  | (k, v) :: rest =>
    if k = gid then (k, (v.1, v.2 ++ [t])) :: rest
    else (k, v) :: pushTabG gid t rest

/-- The distribution loop (src/background.js:226-234): pinned tabs are
skipped; a tab whose `groupId` is a known group joins that group's bucket
(`tab.groupId && tab.groupId !== TAB_GROUP_ID_NONE && groupData.has(...)`,
with the no-group sentinel modelled as `none`), every other unpinned tab
joins the ungrouped list. -/
def distributeTabs (gd : List (Nat × (Group × List Tab))) (tabs : List Tab) :
    List (Nat × (Group × List Tab)) × List Tab :=
  tabs.foldl
    (fun acc tab =>
      if tab.pinned then acc
      else
        match tab.groupId with
        | some gid =>
          if hasKeyG acc.1 gid then (pushTabG gid tab acc.1, acc.2)
          else (acc.1, acc.2 ++ [tab])
        | none => (acc.1, acc.2 ++ [tab]))
    (gd, [])

/-- A group id unused by the window, handed out for the fallback
`tabs.group({tabIds})` call. -/
def freshGroupId (w : Window) : Nat :=
  (w.groups.map (·.id)).foldl max 0 + 1

/-- The per-group execution loop of the general path
(src/background.js:264-291): skip empty buckets; move the bucket's tabs
into a contiguous block; re-apply the group; if that fails, create a new
group from the same tab ids and set its title; if that fails too, leave the
tabs ungrouped. -/
def groupLoop (fail : Nat → Bool) :
    Exec → List (Group × List Tab) → Nat → Exec × Nat
  | s, [], idx => (s, idx)
  | s, (g, tabs) :: rest, idx =>
    if tabs.isEmpty then groupLoop fail s rest idx
    else
      let tabIds := tabs.map (·.id)
      let r1 := moveSeq fail s tabIds idx
      let r2 := attempt fail r1.1 (.group tabIds g.id)
      if r2.2 then groupLoop fail r2.1 rest r1.2
      else
        let fresh := freshGroupId r2.1.win
        let r3 := attempt fail r2.1 (.groupNew tabIds fresh)
        if r3.2 then
          let r4 := attempt fail r3.1 (.updateGroup fresh (some g.title) none none)
          groupLoop fail r4.1 rest r1.2
        else groupLoop fail r3.1 rest r1.2

/-- Translation of `sortTabsInWindow` (src/background.js:204-305): dedup
first, then the enumerating query (whose failure yields `"error"`); without
group support fall through to `sortUngroupedTabs`; otherwise query groups
(failure also escapes to the outer catch), bucket, sort buckets and groups
and the ungrouped rest, and execute the brute-force regrouping. -/
def sortTabsInWindow (env : Env) (w : Window) : Exec × Status :=
  let s0 : Exec := { win := w, trace := [], calls := 0 }
  let s1 := removeDuplicateTabsExec env s0
  match env.tabsQueryFail with
  | some e => (s1, .error e)
  | none =>
    let allTabs := queryTabs s1.win
    let pinned := allTabs.filter (·.pinned)
    if !env.supportsTabGroups then
      sortUngroupedTabsExec env s1 (allTabs.filter (fun t => !t.pinned)) pinned.length
    else
      match env.groupsQueryFail with
      | some e => (s1, .error e)
      | none =>
        let groups := s1.win.groups
        let gd := initGroupData groups
        let dist := distributeTabs gd allTabs
        let gd2 := dist.1.map fun e => (e.1, (e.2.1, jsSort (tabLe env.lcDef) e.2.2))
        let sortedGroupData := jsSort (groupLe env.lcDef) (gd2.map (·.2))
        let sortedUngrouped := jsSort (tabLe env.lcDef) dist.2
        let r1 := groupLoop env.fail s1 sortedGroupData pinned.length
        let r2 := moveSeq env.fail r1.1 (sortedUngrouped.map (·.id)) r1.2
        (r2.1, .sorted)

/-- The candidate computation of `autoSortNewTab` (src/background.js:
176-186): the query returns unpinned tabs, restricted to ungrouped ones
when tab groups are supported, and the filter keeps tabs other than the
new tab itself that share its effective host. -/
def autoCandidates (supportsTabGroups : Bool) (w : Window) (tab : Tab) :
    List Tab :=
  ((queryTabs w).filter fun t =>
      !t.pinned && (if supportsTabGroups then t.groupId = none else true)).filter
    fun t => decide (t.id ≠ tab.id) && decide (getHost t = getHost tab)

/-- Translation of `autoSortNewTab` (src/background.js:167-196): bail out
for pinned or URL-less tabs; among the queried candidates sharing the new
tab's effective host, move the tab to the minimum index; otherwise do
nothing.  The returned list is the issued move commands. -/
def autoSortNewTab (supportsTabGroups : Bool) (w : Window) (tab : Tab) :
    List Op :=
  if tab.url = "" || tab.pinned then []
  else
    let sameDomainTabs := autoCandidates supportsTabGroups w tab
    if 0 < sameDomainTabs.length then
      match (sameDomainTabs.map (·.index)).min? with
      | some targetIndex => [Op.move tab.id targetIndex]
      | none => []
    else []

/-- An environment in which every call succeeds, with one collation
function for both call sites. -/
def noFailEnv (supports : Bool) (lc : String → String → Int) : Env :=
  { fail := fun _ => false, dedupQueryFail := false, tabsQueryFail := none,
    groupsQueryFail := none, supportsTabGroups := supports,
    lcBase := lc, lcDef := lc }

/-- Strict lexicographic code-point order on character lists. -/
def charsLt : List Char → List Char → Bool
  | [], [] => false
  | [], _ :: _ => true
  | _ :: _, [] => false
  | a :: as, b :: bs =>
    if a.toNat < b.toNat then true
    else if b.toNat < a.toNat then false
    else charsLt as bs

/-- A concrete collation standing in for the platform's in witnesses:
plain code-point comparison. -/
def lcSimple (a b : String) : Int :=
  if charsLt a.toList b.toList then -1
  else if charsLt b.toList a.toList then 1
  else 0

/-! ## universalSort (src/usf.js) -/

/-- The options object of `universalSort` with its defaults
(src/usf.js:2-10).  `sortKey` is modelled as a projection (property
access `a[sortKey]`), `customCompare` as an optional comparator. -/
structure SortOptions (α : Type) where
  ignoreCase : Bool := true
  natural : Bool := true
  reverse : Bool := false
  sortKey : Option (α → String) := none
  customCompare : Option (α → α → Int) := none
  removeAccents : Bool := true
  removePunctuation : Bool := false

/-- Code points of the character class
`!"#$%&'()*+,-./:;<=>?@[\]^_\x60\x7b|\x7d~` of src/usf.js:27. -/
def punctCodes : List Nat :=
  [33, 34, 35, 36, 37, 38, 39, 40, 41, 42, 43, 44, 45, 46, 47, 58, 59, 60,
   61, 62, 63, 64, 91, 92, 93, 94, 95, 96, 123, 124, 125, 126]

/-- The punctuation-removal replace of src/usf.js:26-28. -/
def stripPunct (s : String) : String :=
  String.mk (s.toList.filter fun c => !(punctCodes.contains c.toNat))

/-- Translation of `universalSort` (src/usf.js:1-49).  Platform pieces are
parameters: `collatorFamily numeric base` models
`new Intl.Collator(undefined, {numeric, sensitivity}).compare`; `nfkd`
models `normalize("NFKD")` followed by the combining-mark strip; `selfVal`
models reading the element itself as the compared string value when no
`sortKey` is given (the identity when the elements are strings). -/
def universalSort {α : Type}
    (collatorFamily : Bool → Bool → String → String → Int)
    (nfkd : String → String) (selfVal : α → String)
    (opts : SortOptions α) (arr : List α) : List α :=
  let collator := collatorFamily opts.natural opts.ignoreCase
  let normalize : String → String := fun str =>
    let r1 := if opts.removeAccents then nfkd str else str
    if opts.removePunctuation then stripPunct r1 else r1
  let compare : α → α → Int := fun a b =>
    match opts.customCompare with
    | some f => f a b
    | none =>
      let valA := match opts.sortKey with | some key => key a | none => selfVal a
      let valB := match opts.sortKey with | some key => key b | none => selfVal b
      collator (normalize valA) (normalize valB)
  let sorted := jsSort (fun a b => decide (compare a b ≤ 0)) arr
  if opts.reverse then sorted.reverse else sorted

/-- C10: for every input array and options object, `universalSort` returns
a permutation of the input's elements; the input list itself is left
untouched — the source sorts a spread copy (`[...arr].sort`), and the
embedding is accordingly a pure function of the input list. -/
theorem universalSort_perm {α : Type}
    (collatorFamily : Bool → Bool → String → String → Int)
    (nfkd : String → String) (selfVal : α → String)
    (opts : SortOptions α) (arr : List α) :
    (universalSort collatorFamily nfkd selfVal opts arr).Perm arr := by
  unfold universalSort
  by_cases hr : opts.reverse
  · simp only [hr, if_true]
    exact (List.reverse_perm _).trans (jsSort_perm _ arr)
  · simp only [hr, Bool.false_eq_true, if_false]
    exact jsSort_perm _ arr

/-! ## AutoPlacer (claim C5) -/

theorem natMin?_spec {l : List Nat} {a : Nat} (h : l.min? = some a) :
    a ∈ l ∧ ∀ b ∈ l, a ≤ b := by
  rw [List.min?_eq_some_iff (fun a => Nat.le_refl a)
    (fun a b => by
      rcases Nat.le_total a b with hab | hba
      · exact Or.inl (Nat.min_eq_left hab)
      · exact Or.inr (Nat.min_eq_right hba))
    (fun a b c => Nat.le_min)] at h
  exact h

theorem natMin?_isSome {l : List Nat} (h : l ≠ []) : ∃ a, l.min? = some a := by
  cases l with
  | nil => exact absurd rfl h
  | cons a t => exact ⟨t.foldl min a, rfl⟩

/-- C5: for a new tab, the auto placer issues no move when the tab is
pinned or URL-less; with same-host unpinned ungrouped candidates present it
issues exactly one move, of the new tab, to the minimum candidate index —
an index held by an unpinned, ungrouped candidate sharing the tab's host;
with no candidate it issues nothing. -/
theorem autoPlacer_policy (w : Window) (tab : Tab) :
    ((tab.pinned = true ∨ tab.url = "") → autoSortNewTab true w tab = []) ∧
      (tab.pinned = false → tab.url ≠ "" →
        (autoCandidates true w tab = [] → autoSortNewTab true w tab = []) ∧
        (autoCandidates true w tab ≠ [] →
          ∃ target, autoSortNewTab true w tab = [Op.move tab.id target] ∧
            (∃ c ∈ autoCandidates true w tab, c.index = target ∧ c.pinned = false ∧
              c.groupId = none ∧ getHost c = getHost tab ∧ c.id ≠ tab.id) ∧
            ∀ c ∈ autoCandidates true w tab, target ≤ c.index)) := by
  constructor
  · intro h
    rcases h with hp | hu
    · simp [autoSortNewTab, hp]
    · simp [autoSortNewTab, hu]
  · intro hp hu
    have hguard : (tab.url = "" || tab.pinned) = false := by
      simp [hp, hu]
    constructor
    · intro hempty
      unfold autoSortNewTab
      rw [hguard]
      simp only [Bool.false_eq_true, if_false]
      rw [hempty]
      simp
    · intro hne
      unfold autoSortNewTab
      rw [hguard]
      simp only [Bool.false_eq_true, if_false]
      have hlen : 0 < (autoCandidates true w tab).length := List.length_pos.2 hne
      obtain ⟨a, ha⟩ := natMin?_isSome (l := (autoCandidates true w tab).map (·.index))
        (by
          intro h
          rw [List.map_eq_nil_iff] at h
          exact hne h)
      obtain ⟨hamem, hamin⟩ := natMin?_spec ha
      obtain ⟨c, hcmem, hcidx⟩ := List.mem_map.1 hamem
      refine ⟨a, ?_, ⟨c, hcmem, hcidx, ?_, ?_, ?_, ?_⟩, ?_⟩
      · rw [if_pos hlen, ha]
      · have := (List.mem_filter.1 (List.mem_filter.1 hcmem).1).2
        simp only [Bool.and_eq_true] at this
        simpa using this.1
      · have := (List.mem_filter.1 (List.mem_filter.1 hcmem).1).2
        simp only [Bool.and_eq_true] at this
        simpa using this.2
      · have := (List.mem_filter.1 hcmem).2
        simp only [Bool.and_eq_true, decide_eq_true_eq] at this
        exact this.2
      · have := (List.mem_filter.1 hcmem).2
        simp only [Bool.and_eq_true, decide_eq_true_eq] at this
        exact this.1
      · intro c' hc'
        exact hamin c'.index (List.mem_map.2 ⟨c', hc', rfl⟩)

/-- Window for the auto placer witness: two ungrouped unpinned tabs on
different hosts. -/
def autoWitnessWindow : Window :=
  { tabs :=
      [{ id := 1, url := "https://a.com", title := "A", pinned := false,
         active := false, index := 0, groupId := none },
       { id := 2, url := "https://b.com", title := "B", pinned := false,
         active := false, index := 1, groupId := none }],
    groups := [] }

/-- The newly created tab of the auto placer witness. -/
def autoWitnessTab : Tab :=
  { id := 4, url := "https://a.com/z", title := "Z", pinned := false,
    active := false, index := 2, groupId := none }

theorem autoPlacer_policy_witness :
    autoWitnessTab.pinned = false ∧ autoWitnessTab.url ≠ "" ∧
      autoCandidates true autoWitnessWindow autoWitnessTab ≠ [] ∧
      (∃ target, autoSortNewTab true autoWitnessWindow autoWitnessTab =
          [Op.move autoWitnessTab.id target] ∧
        (∃ c ∈ autoCandidates true autoWitnessWindow autoWitnessTab,
          c.index = target ∧ c.pinned = false ∧ c.groupId = none ∧
            getHost c = getHost autoWitnessTab ∧ c.id ≠ autoWitnessTab.id) ∧
        ∀ c ∈ autoCandidates true autoWitnessWindow autoWitnessTab,
          target ≤ c.index) ∧
      autoSortNewTab true autoWitnessWindow
        { autoWitnessTab with pinned := true } = [] := by
  refine ⟨rfl, by decide, by decide, ?_, ?_⟩
  · exact ((autoPlacer_policy autoWitnessWindow autoWitnessTab).2 rfl
      (by decide)).2 (by decide)
  · exact (autoPlacer_policy autoWitnessWindow _).1 (Or.inl rfl)

/-! ## Trace shapes -/

def isMoveOp : Op → Bool
  | .move _ _ => true
  | _ => false

def isGroupAssignOp : Op → Bool
  | .group _ _ => true
  | .groupNew _ _ => true
  | _ => false

def isUpdateOp : Op → Bool
  | .updateGroup _ _ _ _ => true
  | _ => false

theorem attempt_trace (fail : Nat → Bool) (s : Exec) (op : Op) :
    ((attempt fail s op).1).trace = s.trace ++ [op] := rfl

theorem removeDuplicateTabsExec_trace (env : Env) (s : Exec) :
    (removeDuplicateTabsExec env s).trace = s.trace ∨
      ∃ ids, (removeDuplicateTabsExec env s).trace = s.trace ++ [Op.remove ids] := by
  unfold removeDuplicateTabsExec
  by_cases hq : env.dedupQueryFail = true
  · simp [hq]
  · simp only [hq, Bool.false_eq_true, if_false]
    by_cases hc : 0 < (dedupPlan (queryTabs s.win)).length
    · rw [if_pos hc]
      exact Or.inr ⟨_, attempt_trace _ _ _⟩
    · rw [if_neg hc]
      exact Or.inl rfl

theorem moveSeq_trace_shape (fail : Nat → Bool) :
    ∀ (tids : List Nat) (s : Exec) (idx : Nat),
      ∀ op ∈ (moveSeq fail s tids idx).1.trace,
        op ∈ s.trace ∨ isMoveOp op = true := by
  intro tids
  induction tids with
  | nil => intro s idx op h; exact Or.inl h
  | cons tid tl ih =>
    intro s idx op h
    rw [moveSeq] at h
    rcases ih _ _ op h with h' | h'
    · rw [attempt_trace] at h'
      rcases List.mem_append.1 h' with h'' | h''
      · exact Or.inl h''
      · right
        have : op = Op.move tid idx := by simpa using h''
        rw [this]
        rfl
    · exact Or.inr h'

theorem groupLoop_trace_shape (fail : Nat → Bool) :
    ∀ (entries : List (Group × List Tab)) (s : Exec) (idx : Nat),
      ∀ op ∈ (groupLoop fail s entries idx).1.trace,
        op ∈ s.trace ∨ isMoveOp op = true ∨ isGroupAssignOp op = true ∨
          ∃ gid t, op = Op.updateGroup gid (some t) none none := by
  intro entries
  induction entries with
  | nil => intro s idx op h; exact Or.inl h
  | cons e rest ih =>
    obtain ⟨g, tabs⟩ := e
    intro s idx op h
    rw [groupLoop] at h
    by_cases hemp : tabs.isEmpty
    · rw [if_pos hemp] at h
      exact ih s idx op h
    · rw [if_neg hemp] at h
      set r1 := moveSeq fail s (tabs.map (·.id)) idx with hr1
      set r2 := attempt fail r1.1 (.group (tabs.map (·.id)) g.id) with hr2
      have hmoves : ∀ o ∈ r2.1.trace,
          o ∈ s.trace ∨ isMoveOp o = true ∨ isGroupAssignOp o = true := by
        intro o ho
        rw [hr2, attempt_trace] at ho
        rcases List.mem_append.1 ho with h1 | h1
        · rcases moveSeq_trace_shape fail _ s idx o h1 with h2 | h2
          · exact Or.inl h2
          · exact Or.inr (Or.inl h2)
        · right; right
          have : o = Op.group (tabs.map (·.id)) g.id := by simpa using h1
          rw [this]; rfl
      by_cases hok : r2.2 = true
      · rw [if_pos hok] at h
        rcases ih _ _ op h with h1 | h1
        · rcases hmoves op h1 with h2 | h2
          · exact Or.inl h2
          · exact Or.inr (by tauto)
        · exact Or.inr h1
      · rw [if_neg hok] at h
        set r3 := attempt fail r2.1 (.groupNew (tabs.map (·.id)) (freshGroupId r2.1.win)) with hr3
        have hr3tr : ∀ o ∈ r3.1.trace,
            o ∈ s.trace ∨ isMoveOp o = true ∨ isGroupAssignOp o = true := by
          intro o ho
          rw [hr3, attempt_trace] at ho
          rcases List.mem_append.1 ho with h1 | h1
          · exact hmoves o h1
          · right; right
            have : o = Op.groupNew (tabs.map (·.id)) (freshGroupId r2.1.win) := by
              simpa using h1
            rw [this]; rfl
        by_cases hok3 : r3.2 = true
        · rw [if_pos hok3] at h
          rcases ih _ _ op h with h1 | h1
          · rw [attempt_trace] at h1
            rcases List.mem_append.1 h1 with h2 | h2
            · rcases hr3tr op h2 with h3 | h3
              · exact Or.inl h3
              · exact Or.inr (by tauto)
            · right; right; right
              have : op = Op.updateGroup (freshGroupId r2.1.win) (some g.title) none none := by
                simpa using h2
              exact ⟨_, _, this⟩
          · exact Or.inr h1
        · rw [if_neg hok3] at h
          rcases ih _ _ op h with h1 | h1
          · rcases hr3tr op h1 with h2 | h2
            · exact Or.inl h2
            · exact Or.inr (by tauto)
          · exact Or.inr h1

/-! ## Claim C1: the fast path -/

theorem sortUngroupedTabsExec_already (env : Env) (s : Exec)
    (unpinnedTabs : List Tab) (P : Nat)
    (h : (unpinnedTabs.map (·.id) : List Nat) =
      (jsSort (tabLe env.lcBase) unpinnedTabs).map (·.id)) :
    sortUngroupedTabsExec env s unpinnedTabs P = (s, Status.already_sorted) := by
  unfold sortUngroupedTabsExec
  rw [if_pos h]

theorem sortUngroupedTabsExec_trace_shape (env : Env) (s : Exec)
    (unpinnedTabs : List Tab) (P : Nat) :
    ∀ op ∈ (sortUngroupedTabsExec env s unpinnedTabs P).1.trace,
      op ∈ s.trace ∨ isMoveOp op = true := by
  unfold sortUngroupedTabsExec
  by_cases h : (unpinnedTabs.map (·.id) : List Nat) =
      (jsSort (tabLe env.lcBase) unpinnedTabs).map (·.id)
  · rw [if_pos h]
    intro op hop
    exact Or.inl hop
  · rw [if_neg h]
    intro op hop
    exact moveSeq_trace_shape _ _ _ _ op hop

/-- The general execution path always reports `"sorted"` when both
enumerating queries succeed. -/
theorem sortTabsInWindow_general_status (env : Env) (w : Window)
    (hsup : env.supportsTabGroups = true)
    (htq : env.tabsQueryFail = none) (hgq : env.groupsQueryFail = none) :
    (sortTabsInWindow env w).2 = Status.sorted := by
  unfold sortTabsInWindow
  simp only [htq, hsup, hgq, Bool.not_true, Bool.false_eq_true, if_false]

/-- C1, amended: the `"already_sorted"` fast path exists only on the
workflow without tab-group support, where a window whose post-dedup
unpinned tabs are already in target id order yields `"already_sorted"`
with zero move and zero group calls; with group support present the
general path is taken even for a window with zero groups, and it reports
`"sorted"`. -/
theorem fastPath_ungrouped_only (env : Env) (w : Window)
    (hsup : env.supportsTabGroups = false)
    (htq : env.tabsQueryFail = none)
    (horder :
      ((((queryTabs (removeDuplicateTabsExec env
            { win := w, trace := [], calls := 0 }).win).filter
          (fun t => !t.pinned)).map (·.id)) : List Nat) =
        (jsSort (tabLe env.lcBase)
          ((queryTabs (removeDuplicateTabsExec env
            { win := w, trace := [], calls := 0 }).win).filter
            (fun t => !t.pinned))).map (·.id)) :
    (sortTabsInWindow env w).2 = Status.already_sorted ∧
      (∀ op ∈ (sortTabsInWindow env w).1.trace,
        isMoveOp op = false ∧ isGroupAssignOp op = false) ∧
      ∀ (env' : Env) (w' : Window), env'.supportsTabGroups = true →
        env'.tabsQueryFail = none → env'.groupsQueryFail = none →
        (sortTabsInWindow env' w').2 = Status.sorted := by
  have hrun : sortTabsInWindow env w =
      (removeDuplicateTabsExec env { win := w, trace := [], calls := 0 },
        Status.already_sorted) := by
    unfold sortTabsInWindow
    simp only [htq, hsup, Bool.not_false, if_true]
    exact sortUngroupedTabsExec_already env _ _ _ horder
  refine ⟨by rw [hrun], ?_, ?_⟩
  · intro op hop
    rw [hrun] at hop
    rcases removeDuplicateTabsExec_trace env
        { win := w, trace := [], calls := 0 } with h | ⟨ids, h⟩
    · rw [h] at hop
      cases hop
    · rw [h] at hop
      have : op = Op.remove ids := by simpa using hop
      rw [this]
      exact ⟨rfl, rfl⟩
  · intro env' w' hsup' htq' hgq'
    exact sortTabsInWindow_general_status env' w' hsup' htq' hgq'

/-- A two-tab, zero-group window whose tabs are already in target order
under plain code-point collation. -/
def zeroGroupsWindow : Window :=
  { tabs :=
      [{ id := 1, url := "https://a.com", title := "A", pinned := false,
         active := false, index := 0, groupId := none },
       { id := 2, url := "https://b.com", title := "B", pinned := false,
         active := false, index := 1, groupId := none }],
    groups := [] }

/-- Counterexample to C1 as stated: with group support present and zero
groups in the window, tabs already in target order still take the general
path — the run reports `"sorted"` (not `"already_sorted"`) and issues
moves. -/
theorem fastPath_zeroGroups_counterexample :
    zeroGroupsWindow.groups = [] ∧
      ((((queryTabs zeroGroupsWindow).filter (fun t => !t.pinned)).map (·.id)) :
          List Nat) =
        (jsSort (tabLe lcSimple)
          ((queryTabs zeroGroupsWindow).filter (fun t => !t.pinned))).map (·.id) ∧
      (sortTabsInWindow (noFailEnv true lcSimple) zeroGroupsWindow).2 =
        Status.sorted ∧
      Op.move 1 0 ∈
        (sortTabsInWindow (noFailEnv true lcSimple) zeroGroupsWindow).1.trace := by
  decide

theorem fastPath_ungrouped_only_witness :
    (noFailEnv false lcSimple).supportsTabGroups = false ∧
      ((sortTabsInWindow (noFailEnv false lcSimple) zeroGroupsWindow).2 =
          Status.already_sorted ∧
        (∀ op ∈ (sortTabsInWindow (noFailEnv false lcSimple)
            zeroGroupsWindow).1.trace,
          isMoveOp op = false ∧ isGroupAssignOp op = false) ∧
        ∀ (env' : Env) (w' : Window), env'.supportsTabGroups = true →
          env'.tabsQueryFail = none → env'.groupsQueryFail = none →
          (sortTabsInWindow env' w').2 = Status.sorted) :=
  ⟨rfl, fastPath_ungrouped_only (noFailEnv false lcSimple) zeroGroupsWindow
    rfl rfl (by decide)⟩

/-! ## Claim C7: group metadata restoration -/

/-- A window with one titled, colored, collapsed group holding two tabs in
unsorted order, plus one ungrouped tab. -/
def groupedWindow : Window :=
  { tabs :=
      [{ id := 1, url := "https://b.com", title := "B", pinned := false,
         active := false, index := 0, groupId := some 5 },
       { id := 2, url := "https://a.com", title := "A", pinned := false,
         active := false, index := 1, groupId := some 5 },
       { id := 3, url := "https://c.com", title := "C", pinned := false,
         active := false, index := 2, groupId := none }],
    groups := [{ id := 5, title := "g", color := "blue", collapsed := true }] }

/-- Counterexample to C7 as stated: in a successful general-path run over a
window whose group carries a title, a color and a collapsed flag, group
membership is re-applied (a group command is issued) but no update command
restoring the group's metadata is ever sent to the TabGroup service. -/
theorem metadata_restore_counterexample :
    groupedWindow.groups =
        [{ id := 5, title := "g", color := "blue", collapsed := true }] ∧
      (sortTabsInWindow (noFailEnv true lcSimple) groupedWindow).2 =
        Status.sorted ∧
      Op.group [2, 1] 5 ∈
        (sortTabsInWindow (noFailEnv true lcSimple) groupedWindow).1.trace ∧
      (sortTabsInWindow (noFailEnv true lcSimple)
          groupedWindow).1.trace.filter isUpdateOp = [] := by
  decide

/-- C7, amended: the general execution path issues a group-metadata update
only on the fallback that creates a replacement group, and that update
carries the stored title alone — the color and collapsed state are never
restored by command. -/
theorem group_update_title_only (env : Env) (w : Window) :
    ∀ gid ti co cl,
      Op.updateGroup gid ti co cl ∈ (sortTabsInWindow env w).1.trace →
        (∃ t, ti = some t) ∧ co = none ∧ cl = none := by
  intro gid ti co cl hmem
  have hshape : ∀ op ∈ (sortTabsInWindow env w).1.trace,
      op ∈ ([] : List Op) ∨ isMoveOp op = true ∨ isGroupAssignOp op = true ∨
        (∃ ids, op = Op.remove ids) ∨
        ∃ g t, op = Op.updateGroup g (some t) none none := by
    intro op hop
    unfold sortTabsInWindow at hop
    have hdedup : ∀ o ∈ (removeDuplicateTabsExec env
        { win := w, trace := [], calls := 0 }).trace, ∃ ids, o = Op.remove ids := by
      intro o ho
      rcases removeDuplicateTabsExec_trace env
          { win := w, trace := [], calls := 0 } with h | ⟨ids, h⟩
      · rw [h] at ho; cases ho
      · rw [h] at ho
        exact ⟨ids, by simpa using ho⟩
    cases htq : env.tabsQueryFail with
    | some e =>
      rw [htq] at hop
      exact Or.inr (Or.inr (Or.inr (Or.inl (hdedup op hop))))
    | none =>
      rw [htq] at hop
      by_cases hsup : env.supportsTabGroups = true
      · simp only [hsup, Bool.not_true, Bool.false_eq_true, if_false] at hop
        cases hgq : env.groupsQueryFail with
        | some e =>
          rw [hgq] at hop
          exact Or.inr (Or.inr (Or.inr (Or.inl (hdedup op hop))))
        | none =>
          rw [hgq] at hop
          rcases moveSeq_trace_shape env.fail _ _ _ op hop with h1 | h1
          · rcases groupLoop_trace_shape env.fail _ _ _ op h1 with h2 | h2
            · exact Or.inr (Or.inr (Or.inr (Or.inl (hdedup op h2))))
            · rcases h2 with h3 | h3 | ⟨g, t, h3⟩
              · exact Or.inr (Or.inl h3)
              · exact Or.inr (Or.inr (Or.inl h3))
              · exact Or.inr (Or.inr (Or.inr (Or.inr ⟨g, t, h3⟩)))
          · exact Or.inr (Or.inl h1)
      · have hsup' : env.supportsTabGroups = false := by
          cases hb : env.supportsTabGroups
          · rfl
          · exact absurd hb hsup
        simp only [hsup', Bool.not_false, if_true] at hop
        rcases sortUngroupedTabsExec_trace_shape env _ _ _ op hop with h1 | h1
        · exact Or.inr (Or.inr (Or.inr (Or.inl (hdedup op h1))))
        · exact Or.inr (Or.inl h1)
  rcases hshape _ hmem with h | h | h | ⟨ids, h⟩ | ⟨g, t, h⟩
  · cases h
  · simp [isMoveOp] at h
  · simp [isGroupAssignOp] at h
  · cases h
  · injection h with h1 h2 h3 h4
    exact ⟨⟨t, h2⟩, h3, h4⟩

/-! ## Trace extension and move coverage (claim C4) -/

theorem moveSeq_trace_ext (fail : Nat → Bool) :
    ∀ (tids : List Nat) (s : Exec) (idx : Nat),
      ∃ l, (moveSeq fail s tids idx).1.trace = s.trace ++ l := by
  intro tids
  induction tids with
  | nil => intro s idx; exact ⟨[], by simp [moveSeq]⟩
  | cons tid tl ih =>
    intro s idx
    rw [moveSeq]
    obtain ⟨l, hl⟩ := ih (attempt fail s (.move tid idx)).1
      (if (attempt fail s (.move tid idx)).2 then idx + 1 else idx)
    exact ⟨[Op.move tid idx] ++ l, by rw [hl, attempt_trace, List.append_assoc]⟩

theorem groupLoop_trace_ext (fail : Nat → Bool) :
    ∀ (entries : List (Group × List Tab)) (s : Exec) (idx : Nat),
      ∃ l, (groupLoop fail s entries idx).1.trace = s.trace ++ l := by
  intro entries
  induction entries with
  | nil => intro s idx; exact ⟨[], by simp [groupLoop]⟩
  | cons e rest ih =>
    obtain ⟨g, tabs⟩ := e
    intro s idx
    rw [groupLoop]
    by_cases hemp : tabs.isEmpty
    · rw [if_pos hemp]; exact ih s idx
    · rw [if_neg hemp]
      obtain ⟨l1, hl1⟩ := moveSeq_trace_ext fail (tabs.map (·.id)) s idx
      set r1 := moveSeq fail s (tabs.map (·.id)) idx
      set r2 := attempt fail r1.1 (.group (tabs.map (·.id)) g.id) with hr2
      have htr2 : r2.1.trace = s.trace ++ (l1 ++ [Op.group (tabs.map (·.id)) g.id]) := by
        rw [hr2, attempt_trace, hl1, List.append_assoc]
      by_cases hok : r2.2 = true
      · rw [if_pos hok]
        obtain ⟨l2, hl2⟩ := ih r2.1 r1.2
        exact ⟨_, by rw [hl2, htr2, List.append_assoc]⟩
      · rw [if_neg hok]
        set r3 := attempt fail r2.1 (.groupNew (tabs.map (·.id)) (freshGroupId r2.1.win)) with hr3
        have htr3 : ∃ l', r3.1.trace = s.trace ++ l' :=
          ⟨_, by rw [hr3, attempt_trace, htr2, List.append_assoc]⟩
        obtain ⟨l3, hl3⟩ := htr3
        by_cases hok3 : r3.2 = true
        · rw [if_pos hok3]
          set r4 := attempt fail r3.1 (.updateGroup (freshGroupId r2.1.win) (some g.title) none none) with hr4
          obtain ⟨l4, hl4⟩ := ih r4.1 r1.2
          exact ⟨_, by rw [hl4, hr4, attempt_trace, hl3, List.append_assoc, List.append_assoc]⟩
        · rw [if_neg hok3]
          obtain ⟨l4, hl4⟩ := ih r3.1 r1.2
          exact ⟨_, by rw [hl4, hl3, List.append_assoc]⟩

theorem moveSeq_covers (fail : Nat → Bool) :
    ∀ (tids : List Nat) (s : Exec) (idx : Nat), ∀ tid ∈ tids,
      ∃ i, Op.move tid i ∈ (moveSeq fail s tids idx).1.trace := by
  intro tids
  induction tids with
  | nil => intro s idx tid h; cases h
  | cons t0 tl ih =>
    intro s idx tid h
    rw [moveSeq]
    rcases List.mem_cons.1 h with rfl | h'
    · refine ⟨idx, ?_⟩
      obtain ⟨l, hl⟩ := moveSeq_trace_ext fail tl (attempt fail s (.move tid idx)).1
        (if (attempt fail s (.move tid idx)).2 then idx + 1 else idx)
      rw [hl, attempt_trace]
      simp
    · exact ih _ _ tid h'

theorem groupLoop_covers (fail : Nat → Bool) :
    ∀ (entries : List (Group × List Tab)) (s : Exec) (idx : Nat),
      ∀ p ∈ entries, ∀ t ∈ p.2,
        ∃ i, Op.move t.id i ∈ (groupLoop fail s entries idx).1.trace := by
  intro entries
  induction entries with
  | nil => intro s idx p hp; cases hp
  | cons e rest ih =>
    obtain ⟨g, tabs⟩ := e
    intro s idx p hp t ht
    rw [groupLoop]
    rcases List.mem_cons.1 hp with rfl | hp'
    · have hne : ¬ tabs.isEmpty := by
        cases tabs with
        | nil => cases ht
        | cons a l => simp
      rw [if_neg hne]
      obtain ⟨i, hi⟩ := moveSeq_covers fail (tabs.map (·.id)) s idx t.id
        (List.mem_map.2 ⟨t, ht, rfl⟩)
      refine ⟨i, ?_⟩
      set r1 := moveSeq fail s (tabs.map (·.id)) idx
      set r2 := attempt fail r1.1 (.group (tabs.map (·.id)) g.id) with hr2
      have hi2 : Op.move t.id i ∈ r2.1.trace := by
        rw [hr2, attempt_trace]
        exact List.mem_append.2 (Or.inl hi)
      by_cases hok : r2.2 = true
      · rw [if_pos hok]
        obtain ⟨l, hl⟩ := groupLoop_trace_ext fail rest r2.1 r1.2
        rw [hl]
        exact List.mem_append.2 (Or.inl hi2)
      · rw [if_neg hok]
        set r3 := attempt fail r2.1 (.groupNew (tabs.map (·.id)) (freshGroupId r2.1.win)) with hr3
        have hi3 : Op.move t.id i ∈ r3.1.trace := by
          rw [hr3, attempt_trace]
          exact List.mem_append.2 (Or.inl hi2)
        by_cases hok3 : r3.2 = true
        · rw [if_pos hok3]
          set r4 := attempt fail r3.1
            (.updateGroup (freshGroupId r2.1.win) (some g.title) none none) with hr4
          obtain ⟨l, hl⟩ := groupLoop_trace_ext fail rest r4.1 r1.2
          rw [hl, hr4, attempt_trace]
          exact List.mem_append.2 (Or.inl (List.mem_append.2 (Or.inl hi3)))
        · rw [if_neg hok3]
          obtain ⟨l, hl⟩ := groupLoop_trace_ext fail rest r3.1 r1.2
          rw [hl]
          exact List.mem_append.2 (Or.inl hi3)
    · by_cases hemp : tabs.isEmpty
      · rw [if_pos hemp]
        exact ih s idx p hp' t ht
      · rw [if_neg hemp]
        by_cases hok : (attempt fail (moveSeq fail s (tabs.map (·.id)) idx).1
            (.group (tabs.map (·.id)) g.id)).2 = true
        · rw [if_pos hok]
          exact ih _ _ p hp' t ht
        · rw [if_neg hok]
          by_cases hok3 : (attempt fail (attempt fail (moveSeq fail s (tabs.map (·.id)) idx).1
              (.group (tabs.map (·.id)) g.id)).1
              (.groupNew (tabs.map (·.id))
                (freshGroupId (attempt fail (moveSeq fail s (tabs.map (·.id)) idx).1
                  (.group (tabs.map (·.id)) g.id)).1.win))).2 = true
          · rw [if_pos hok3]
            exact ih _ _ p hp' t ht
          · rw [if_neg hok3]
            exact ih _ _ p hp' t ht

/-- Placement is monotone under `pushTabG`. -/
theorem pushTabG_mono {m : List (Nat × (Group × List Tab))} {t : Tab}
    (gid : Nat) (u : Tab) (h : ∃ e ∈ m, t ∈ e.2.2) :
    ∃ e ∈ pushTabG gid u m, t ∈ e.2.2 := by
  induction m with
  | nil => obtain ⟨e, he, _⟩ := h; cases he
  | cons e0 rest ih =>
    obtain ⟨k, v⟩ := e0
    obtain ⟨e, he, hte⟩ := h
    rcases List.mem_cons.1 he with rfl | he'
    · by_cases hk : k = gid
      · exact ⟨(k, (v.1, v.2 ++ [u])), by simp [pushTabG, hk],
          by simp [List.mem_append]; exact Or.inl hte⟩
      · exact ⟨(k, v), by simp [pushTabG, hk], hte⟩
    · by_cases hk : k = gid
      · exact ⟨e, by simp [pushTabG, hk, he'], hte⟩
      · obtain ⟨e', he', hte'⟩ := ih ⟨e, he', hte⟩
        exact ⟨e', by simp [pushTabG, hk]; exact Or.inr he', hte'⟩

/-- `pushTabG` lands its tab in the keyed bucket when the key exists. -/
theorem pushTabG_adds {m : List (Nat × (Group × List Tab))} {gid : Nat}
    (u : Tab) (h : hasKeyG m gid = true) :
    ∃ e ∈ pushTabG gid u m, u ∈ e.2.2 := by
  induction m with
  | nil => simp [hasKeyG, List.find?] at h
  | cons e0 rest ih =>
    obtain ⟨k, v⟩ := e0
    by_cases hk : k = gid
    · exact ⟨(k, (v.1, v.2 ++ [u])), by simp [pushTabG, hk], by simp⟩
    · have h' : hasKeyG rest gid = true := by
        simpa [hasKeyG, List.find?, hk] using h
      obtain ⟨e, he, hue⟩ := ih h'
      exact ⟨e, by simp [pushTabG, hk]; exact Or.inr he, hue⟩

/-- Every unpinned tab of the queried list ends up in a group bucket or in
the ungrouped list of the distribution loop. -/
theorem distributeTabs_covers (gd : List (Nat × (Group × List Tab)))
    (tabs : List Tab) :
    ∀ t ∈ tabs, t.pinned = false →
      (∃ e ∈ (distributeTabs gd tabs).1, t ∈ e.2.2) ∨
        t ∈ (distributeTabs gd tabs).2 := by
  have main : ∀ (l : List Tab) (acc : List (Nat × (Group × List Tab)) × List Tab) (t : Tab),
      (((∃ e ∈ acc.1, t ∈ e.2.2) ∨ t ∈ acc.2) ∨ (t ∈ l ∧ t.pinned = false)) →
      (∃ e ∈ (l.foldl
        (fun acc tab =>
          if tab.pinned then acc
          else
            match tab.groupId with
            | some gid =>
              if hasKeyG acc.1 gid then (pushTabG gid tab acc.1, acc.2)
              else (acc.1, acc.2 ++ [tab])
            | none => (acc.1, acc.2 ++ [tab])) acc).1, t ∈ e.2.2) ∨
        t ∈ (l.foldl
          (fun acc tab =>
            if tab.pinned then acc
            else
              match tab.groupId with
              | some gid =>
                if hasKeyG acc.1 gid then (pushTabG gid tab acc.1, acc.2)
                else (acc.1, acc.2 ++ [tab])
              | none => (acc.1, acc.2 ++ [tab])) acc).2 := by
    intro l
    induction l with
    | nil =>
      intro acc t h
      rcases h with h | ⟨h, _⟩
      · exact h
      · cases h
    | cons u rest ih =>
      intro acc t h
      simp only [List.foldl_cons]
      apply ih
      have step_mono : ∀ acc' : List (Nat × (Group × List Tab)) × List Tab,
          ((∃ e ∈ acc.1, t ∈ e.2.2) ∨ t ∈ acc.2) →
          acc' = (if u.pinned then acc
            else
              match u.groupId with
              | some gid =>
                if hasKeyG acc.1 gid then (pushTabG gid u acc.1, acc.2)
                else (acc.1, acc.2 ++ [u])
              | none => (acc.1, acc.2 ++ [u])) →
          ((∃ e ∈ acc'.1, t ∈ e.2.2) ∨ t ∈ acc'.2) := by
        intro acc' hplaced hdef
        subst hdef
        by_cases hp : u.pinned
        · simpa [hp] using hplaced
        · rcases hplaced with hbucket | hun
          · cases hg : u.groupId with
            | some gid =>
              by_cases hk : hasKeyG acc.1 gid = true
              · simp only [hp, Bool.false_eq_true, if_false, hg, hk, if_true]
                exact Or.inl (pushTabG_mono gid u hbucket)
              · simp only [hp, Bool.false_eq_true, if_false, hg, hk, if_false]
                exact Or.inl hbucket
            | none =>
              simp only [hp, Bool.false_eq_true, if_false, hg]
              exact Or.inl hbucket
          · cases hg : u.groupId with
            | some gid =>
              by_cases hk : hasKeyG acc.1 gid = true
              · simp only [hp, Bool.false_eq_true, if_false, hg, hk, if_true]
                exact Or.inr hun
              · simp only [hp, Bool.false_eq_true, if_false, hg, hk, if_false]
                exact Or.inr (List.mem_append.2 (Or.inl hun))
            | none =>
              simp only [hp, Bool.false_eq_true, if_false, hg]
              exact Or.inr (List.mem_append.2 (Or.inl hun))
      rcases h with hplaced | ⟨hmem, hunp⟩
      · exact Or.inl (step_mono _ hplaced rfl)
      · rcases List.mem_cons.1 hmem with rfl | hmem'
        · left
          have hp : t.pinned = false := hunp
          cases hg : t.groupId with
          | some gid =>
            by_cases hk : hasKeyG acc.1 gid = true
            · simp only [hp, Bool.false_eq_true, if_false, hg, hk, if_true]
              exact Or.inl (pushTabG_adds t hk)
            · simp only [hp, Bool.false_eq_true, if_false, hg, hk, if_false]
              exact Or.inr (List.mem_append.2 (Or.inr (by simp)))
          | none =>
            simp only [hp, Bool.false_eq_true, if_false, hg]
            exact Or.inr (List.mem_append.2 (Or.inr (by simp)))
        · exact Or.inr ⟨hmem', hunp⟩
  intro t ht hunp
  exact main tabs (gd, []) t (Or.inr ⟨ht, hunp⟩)

/-- C4: the failure of any individual move, group or update call never
aborts a reconciliation — with both enumerating queries succeeding the
general path reports `"sorted"` for every failure oracle and still attempts
a move for every unpinned tab of the snapshot; the ungrouped workflow
likewise never errors; only a failing enumerating query produces
`"error"`, carrying the failure's description. -/
theorem failure_tolerance (env : Env) (w : Window) :
    (∀ e, env.tabsQueryFail = some e →
        (sortTabsInWindow env w).2 = Status.error e) ∧
      (env.tabsQueryFail = none → env.supportsTabGroups = false →
        ((sortTabsInWindow env w).2 = Status.sorted ∨
          (sortTabsInWindow env w).2 = Status.already_sorted)) ∧
      (env.tabsQueryFail = none → env.supportsTabGroups = true →
        env.groupsQueryFail = none →
        (sortTabsInWindow env w).2 = Status.sorted ∧
        ∀ t ∈ queryTabs (removeDuplicateTabsExec env
            { win := w, trace := [], calls := 0 }).win,
          t.pinned = false →
          ∃ i, Op.move t.id i ∈ (sortTabsInWindow env w).1.trace) := by
  refine ⟨?_, ?_, ?_⟩
  · intro e htq
    unfold sortTabsInWindow
    rw [htq]
  · intro htq hsup
    unfold sortTabsInWindow
    rw [htq]
    simp only [hsup, Bool.not_false, if_true]
    unfold sortUngroupedTabsExec
    by_cases h : ((List.filter (fun t => !t.pinned)
        (queryTabs (removeDuplicateTabsExec env
          { win := w, trace := [], calls := 0 }).win)).map (·.id) : List Nat) =
        (jsSort (tabLe env.lcBase)
          (List.filter (fun t => !t.pinned)
            (queryTabs (removeDuplicateTabsExec env
              { win := w, trace := [], calls := 0 }).win))).map (·.id)
    · rw [if_pos h]
      exact Or.inr rfl
    · rw [if_neg h]
      exact Or.inl rfl
  · intro htq hsup hgq
    refine ⟨sortTabsInWindow_general_status env w hsup htq hgq, ?_⟩
    intro t ht hunp
    unfold sortTabsInWindow
    rw [htq]
    simp only [hsup, Bool.not_true, Bool.false_eq_true, if_false]
    rw [hgq]
    dsimp only
    rcases distributeTabs_covers
        (initGroupData (removeDuplicateTabsExec env
          { win := w, trace := [], calls := 0 }).win.groups)
        (queryTabs (removeDuplicateTabsExec env
          { win := w, trace := [], calls := 0 }).win) t ht hunp with
      ⟨e, he, hte⟩ | hun
    · have hmem2 : (e.2.1, jsSort (tabLe env.lcDef) e.2.2) ∈
          jsSort (groupLe env.lcDef)
            (((distributeTabs
              (initGroupData (removeDuplicateTabsExec env
                { win := w, trace := [], calls := 0 }).win.groups)
              (queryTabs (removeDuplicateTabsExec env
                { win := w, trace := [], calls := 0 }).win)).1.map
              (fun e => (e.1, (e.2.1, jsSort (tabLe env.lcDef) e.2.2)))).map (·.2)) :=
        mem_jsSort.2 (List.mem_map.2
          ⟨(e.1, (e.2.1, jsSort (tabLe env.lcDef) e.2.2)),
            List.mem_map.2 ⟨e, he, rfl⟩, rfl⟩)
      obtain ⟨i, hi⟩ := groupLoop_covers env.fail _
        (removeDuplicateTabsExec env { win := w, trace := [], calls := 0 })
        ((List.filter (·.pinned)
          (queryTabs (removeDuplicateTabsExec env
            { win := w, trace := [], calls := 0 }).win)).length)
        _ hmem2 t (mem_jsSort.2 hte)
      obtain ⟨l, hl⟩ := moveSeq_trace_ext env.fail _ _ _
      exact ⟨i, by rw [hl]; exact List.mem_append.2 (Or.inl hi)⟩
    · obtain ⟨i, hi⟩ := moveSeq_covers env.fail
        ((jsSort (tabLe env.lcDef)
          (distributeTabs
            (initGroupData (removeDuplicateTabsExec env
              { win := w, trace := [], calls := 0 }).win.groups)
            (queryTabs (removeDuplicateTabsExec env
              { win := w, trace := [], calls := 0 }).win)).2).map (·.id))
        (groupLoop env.fail
          (removeDuplicateTabsExec env { win := w, trace := [], calls := 0 })
          (jsSort (groupLe env.lcDef)
            (((distributeTabs
              (initGroupData (removeDuplicateTabsExec env
                { win := w, trace := [], calls := 0 }).win.groups)
              (queryTabs (removeDuplicateTabsExec env
                { win := w, trace := [], calls := 0 }).win)).1.map
              (fun e => (e.1, (e.2.1, jsSort (tabLe env.lcDef) e.2.2)))).map (·.2)))
          ((List.filter (·.pinned)
            (queryTabs (removeDuplicateTabsExec env
              { win := w, trace := [], calls := 0 }).win)).length)).1
        (groupLoop env.fail
          (removeDuplicateTabsExec env { win := w, trace := [], calls := 0 })
          (jsSort (groupLe env.lcDef)
            (((distributeTabs
              (initGroupData (removeDuplicateTabsExec env
                { win := w, trace := [], calls := 0 }).win.groups)
              (queryTabs (removeDuplicateTabsExec env
                { win := w, trace := [], calls := 0 }).win)).1.map
              (fun e => (e.1, (e.2.1, jsSort (tabLe env.lcDef) e.2.2)))).map (·.2)))
          ((List.filter (·.pinned)
            (queryTabs (removeDuplicateTabsExec env
              { win := w, trace := [], calls := 0 }).win)).length)).2
        t.id (List.mem_map.2 ⟨t, mem_jsSort.2 hun, rfl⟩)
      exact ⟨i, hi⟩

/-- An environment whose second service call (a move) fails. -/
def failingMoveEnv : Env :=
  { noFailEnv true lcSimple with fail := fun n => decide (n = 1) }

theorem failure_tolerance_witness :
    (failingMoveEnv.tabsQueryFail = none ∧
        failingMoveEnv.supportsTabGroups = true ∧
        failingMoveEnv.groupsQueryFail = none ∧ failingMoveEnv.fail 1 = true) ∧
      ((sortTabsInWindow failingMoveEnv groupedWindow).2 = Status.sorted ∧
        ∀ t ∈ queryTabs (removeDuplicateTabsExec failingMoveEnv
            { win := groupedWindow, trace := [], calls := 0 }).win,
          t.pinned = false →
          ∃ i, Op.move t.id i ∈
            (sortTabsInWindow failingMoveEnv groupedWindow).1.trace) ∧
      (sortTabsInWindow { failingMoveEnv with tabsQueryFail := some "boom" }
          groupedWindow).2 = Status.error "boom" :=
  ⟨⟨rfl, rfl, rfl, by decide⟩,
    (failure_tolerance failingMoveEnv groupedWindow).2.2 rfl rfl rfl,
    (failure_tolerance { failingMoveEnv with tabsQueryFail := some "boom" }
      groupedWindow).1 "boom" rfl⟩

/-! ## Window facts for the pinned-block claim (C6) -/

/-- A window as the browser hands it over: duplicate-free tab and group
ids, pinned tabs occupying the lowest indices. -/
def WellFormed (w : Window) : Prop :=
  (w.tabs.map (·.id)).Nodup ∧ (w.groups.map (·.id)).Nodup ∧
    ∃ pre suf, w.tabs = pre ++ suf ∧ (∀ t ∈ pre, t.pinned = true) ∧
      ∀ t ∈ suf, t.pinned = false

theorem mem_enumFrom_snd {α : Type _} :
    ∀ (l : List α) (n : Nat) (p : Nat × α), p ∈ l.enumFrom n → p.2 ∈ l := by
  intro l
  induction l with
  | nil => intro n p h; cases h
  | cons a t ih =>
    intro n p h
    rcases List.mem_cons.1 h with rfl | h'
    · exact List.mem_cons_self a t
    · exact List.mem_cons.2 (Or.inr (ih (n + 1) p h'))

/-- Every queried record is a reindexed copy of a stored record. -/
theorem queryTabs_mem {w : Window} {u : Tab} (h : u ∈ queryTabs w) :
    ∃ t ∈ w.tabs, eqMod u t := by
  obtain ⟨p, hp, rfl⟩ := List.mem_map.1 h
  exact ⟨p.2, mem_enumFrom_snd w.tabs 0 p hp, eqMod_setIdx p.2 p.1⟩

theorem forall₂_enumFrom_setIdx :
    ∀ (l : List Tab) (n : Nat),
      List.Forall₂ eqMod ((l.enumFrom n).map fun p => setIdx p.2 p.1) l := by
  intro l
  induction l with
  | nil => intro n; exact List.Forall₂.nil
  | cons a t ih =>
    intro n
    exact List.Forall₂.cons (eqMod_setIdx a n) (ih (n + 1))

/-- The query result and the stored list agree on everything but the
index fields. -/
theorem queryTabs_forall₂ (w : Window) :
    List.Forall₂ eqMod (queryTabs w) w.tabs :=
  forall₂_enumFrom_setIdx w.tabs 0

theorem forall₂_filter_length {R : Tab → Tab → Prop} {p : Tab → Bool}
    (hR : ∀ a b, R a b → p a = p b) :
    ∀ {l l' : List Tab}, List.Forall₂ R l l' →
      (l.filter p).length = (l'.filter p).length := by
  intro l l' h
  induction h with
  | nil => rfl
  | @cons a b t t' hab htt ih =>
    by_cases hp : p a = true
    · have hpb : p b = true := (hR a b hab) ▸ hp
      simp [List.filter_cons, hp, hpb, ih]
    · have hpb : p b ≠ true := fun hb => hp ((hR a b hab).trans hb)
      simp only [List.filter_cons]
      rw [if_neg (by simpa using hp), if_neg (by simpa using hpb)]
      exact ih

/-- The dedup stage leaves the window untouched or removes a set of tabs
all of which are unpinned records of the stored list. -/
theorem removeDuplicateTabsExec_win (env : Env) (s : Exec) :
    (removeDuplicateTabsExec env s).win = s.win ∨
      ∃ ids : List Nat, (∀ i ∈ ids, ∃ t ∈ s.win.tabs, t.id = i ∧ t.pinned = false) ∧
        (removeDuplicateTabsExec env s).win =
          { s.win with
            tabs := s.win.tabs.filter (fun t => !(decide (t.id ∈ ids))) } := by
  unfold removeDuplicateTabsExec
  by_cases hq : env.dedupQueryFail = true
  · rw [if_pos hq]; exact Or.inl rfl
  · rw [if_neg hq]
    by_cases hc : 0 < (dedupPlan (queryTabs s.win)).length
    · rw [if_pos hc]
      by_cases hf : env.fail s.calls = true
      · left
        show (if (!env.fail s.calls) = true then
            applyOp s.win (Op.remove (dedupPlan (queryTabs s.win)))
          else s.win) = s.win
        rw [hf]
        rfl
      · have hf0 : env.fail s.calls = false := by
          cases hb : env.fail s.calls
          · rfl
          · exact absurd hb hf
        right
        refine ⟨dedupPlan (queryTabs s.win), ?_, ?_⟩
        · intro i hi
          obtain ⟨e, he, hie⟩ := mem_dedupPlan.1 hi
          obtain ⟨u, hu, huid, hunp⟩ := mem_bucketClosure_unpinned hie
          have hef := mem_urlToTabs_eq_filter he
          rw [hef] at hu
          have hu' := (List.mem_filter.1 hu).1
          obtain ⟨t, htmem, hteq⟩ := queryTabs_mem hu'
          obtain ⟨h1, _, _, h4, _, _⟩ := hteq
          exact ⟨t, htmem, by rw [← h1]; exact huid, by rw [← h4]; exact hunp⟩
        · show (if (!env.fail s.calls) = true then
              applyOp s.win (Op.remove (dedupPlan (queryTabs s.win)))
            else s.win) = _
          rw [hf0]
          rfl
    · rw [if_neg hc]
      exact Or.inl rfl

/-- The pinned block `pre` is an unchanged prefix of the window and the
rest of the window is unpinned. -/
def PinPre (pre : List Tab) (w : Window) : Prop :=
  ∃ suf, w.tabs = pre ++ suf ∧ ∀ t ∈ suf, t.pinned = false

theorem insertIdx_append_ge {α : Type _} :
    ∀ (pre : List α) (suf : List α) (n : Nat) (a : α), pre.length ≤ n →
      List.insertIdx n a (pre ++ suf) = pre ++ List.insertIdx (n - pre.length) a suf := by
  intro pre
  induction pre with
  | nil => intro suf n a _; simp
  | cons p ps ih =>
    intro suf n a hn
    cases n with
    | zero => simp at hn
    | succ m =>
      have hm : ps.length ≤ m := Nat.le_of_succ_le_succ hn
      have hn2 : m + 1 - (p :: ps).length = m - ps.length := by
        simp only [List.length_cons]
        omega
      simp only [List.cons_append, List.insertIdx_succ_cons, ih suf m a hm, hn2]

/-- Side conditions under which an operation cannot disturb the pinned
block: its tab ids avoid the block, and a move targets an index at or
beyond it. -/
def OpSafe (pre : List Tab) : Op → Prop
  | .move tid idx => (∀ p ∈ pre, p.id ≠ tid) ∧ pre.length ≤ idx
  | .group ids _ => ∀ p ∈ pre, ¬(p.id ∈ ids)
  | .groupNew ids _ => ∀ p ∈ pre, ¬(p.id ∈ ids)
  | .updateGroup _ _ _ _ => True
  | .remove ids => ∀ p ∈ pre, ¬(p.id ∈ ids)

theorem applyMove_pinpre {pre : List Tab} {w : Window} {tid idx : Nat}
    (hw : PinPre pre w) (htid : ∀ p ∈ pre, p.id ≠ tid)
    (hidx : pre.length ≤ idx) : PinPre pre (applyMove w tid idx) := by
  obtain ⟨suf, hsplit, hsuf⟩ := hw
  unfold applyMove
  cases hfind : w.tabs.findIdx? (fun t => t.id = tid) with
  | none => exact ⟨suf, hsplit, hsuf⟩
  | some i =>
    dsimp only
    have hpre_none : pre.findIdx? (fun t => t.id = tid) = none :=
      List.findIdx?_eq_none_iff.2 (fun p hp => by simp [htid p hp])
    have hi : pre.length ≤ i := by
      rw [hsplit, List.findIdx?_append, hpre_none] at hfind
      simp only [Option.none_or] at hfind
      cases hj : suf.findIdx? (fun t => t.id = tid) with
      | none => rw [hj] at hfind; cases hfind
      | some j =>
        rw [hj] at hfind
        have : j + pre.length = i := by simpa using hfind
        omega
    cases hget : w.tabs[i]? with
    | none => exact ⟨suf, hsplit, hsuf⟩
    | some t =>
      dsimp only
      have htmem : t ∈ suf := by
        rw [hsplit, List.getElem?_append_right hi] at hget
        exact List.getElem?_mem hget
      have htp : t.pinned = false := hsuf t htmem
      have herase : w.tabs.eraseIdx i = pre ++ suf.eraseIdx (i - pre.length) := by
        rw [hsplit, List.eraseIdx_append_of_length_le hi]
      refine ⟨List.insertIdx
          (min idx (w.tabs.eraseIdx i).length - pre.length) t
          (suf.eraseIdx (i - pre.length)), ?_, ?_⟩
      · rw [herase]
        have h1 : pre.length ≤ (pre ++ suf.eraseIdx (i - pre.length)).length := by
          simp only [List.length_append]
          omega
        rw [insertIdx_append_ge _ _ _ _ (le_min hidx h1)]
      · intro u hu
        have hlen : min idx (w.tabs.eraseIdx i).length - pre.length ≤
            (suf.eraseIdx (i - pre.length)).length := by
          have h1 : (w.tabs.eraseIdx i).length =
              pre.length + (suf.eraseIdx (i - pre.length)).length := by
            rw [herase]; simp
          omega
        rcases (List.mem_insertIdx hlen).1 hu with rfl | hu'
        · exact htp
        · exact hsuf u ((List.eraseIdx_sublist suf (i - pre.length)).mem hu')

theorem applyOp_pinpre {pre : List Tab} {w : Window} {op : Op}
    (hw : PinPre pre w) (hop : OpSafe pre op) : PinPre pre (applyOp w op) := by
  obtain ⟨suf, hsplit, hsuf⟩ := hw
  cases op with
  | move tid idx => exact applyMove_pinpre ⟨suf, hsplit, hsuf⟩ hop.1 hop.2
  | group ids gid =>
    refine ⟨suf.map (fun t => if t.id ∈ ids then { t with groupId := some gid } else t), ?_, ?_⟩
    · show w.tabs.map _ = _
      rw [hsplit, List.map_append]
      congr 1
      calc pre.map _ = pre.map (fun p => p) :=
            List.map_congr_left (fun p hp => by rw [if_neg (hop p hp)])
        _ = pre := by simp
    · intro u hu
      obtain ⟨t, ht, rfl⟩ := List.mem_map.1 hu
      by_cases hid : t.id ∈ ids
      · rw [if_pos hid]
        exact hsuf t ht
      · rw [if_neg hid]
        exact hsuf t ht
  | groupNew ids gid =>
    refine ⟨suf.map (fun t => if t.id ∈ ids then { t with groupId := some gid } else t), ?_, ?_⟩
    · show w.tabs.map _ = _
      rw [hsplit, List.map_append]
      congr 1
      calc pre.map _ = pre.map (fun p => p) :=
            List.map_congr_left (fun p hp => by rw [if_neg (hop p hp)])
        _ = pre := by simp
    · intro u hu
      obtain ⟨t, ht, rfl⟩ := List.mem_map.1 hu
      by_cases hid : t.id ∈ ids
      · rw [if_pos hid]
        exact hsuf t ht
      · rw [if_neg hid]
        exact hsuf t ht
  | updateGroup gid ti co cl => exact ⟨suf, hsplit, hsuf⟩
  | remove ids =>
    refine ⟨suf.filter (fun t => !(decide (t.id ∈ ids))), ?_, ?_⟩
    · show w.tabs.filter _ = _
      rw [hsplit, List.filter_append]
      congr 1
      exact List.filter_eq_self.2 (fun p hp => by simp [hop p hp])
    · intro u hu
      exact hsuf u (List.mem_filter.1 hu).1

theorem attempt_pinpre {pre : List Tab} {s : Exec} {op : Op}
    (fail : Nat → Bool) (hw : PinPre pre s.win) (hop : OpSafe pre op) :
    PinPre pre (attempt fail s op).1.win := by
  show PinPre pre (if (!fail s.calls) = true then applyOp s.win op else s.win)
  by_cases hf : (!fail s.calls) = true
  · rw [if_pos hf]
    exact applyOp_pinpre hw hop
  · rw [if_neg hf]
    exact hw

theorem moveSeq_idx_ge (fail : Nat → Bool) :
    ∀ (tids : List Nat) (s : Exec) (idx : Nat),
      idx ≤ (moveSeq fail s tids idx).2 := by
  intro tids
  induction tids with
  | nil => intro s idx; exact le_refl idx
  | cons tid tl ih =>
    intro s idx
    rw [moveSeq]
    refine le_trans ?_ (ih _ _)
    by_cases h : (attempt fail s (.move tid idx)).2 = true
    · rw [if_pos h]; omega
    · rw [if_neg h]

theorem moveSeq_pinpre {pre : List Tab} (fail : Nat → Bool) :
    ∀ (tids : List Nat) (s : Exec) (idx : Nat),
      PinPre pre s.win → (∀ tid ∈ tids, ∀ p ∈ pre, p.id ≠ tid) →
      pre.length ≤ idx → PinPre pre (moveSeq fail s tids idx).1.win := by
  intro tids
  induction tids with
  | nil => intro s idx hw _ _; exact hw
  | cons tid tl ih =>
    intro s idx hw htids hidx
    rw [moveSeq]
    refine ih _ _ ?_ (fun t ht => htids t (List.mem_cons.2 (Or.inr ht))) ?_
    · exact attempt_pinpre fail hw
        ⟨htids tid (List.mem_cons.2 (Or.inl rfl)), hidx⟩
    · by_cases h : (attempt fail s (.move tid idx)).2 = true
      · rw [if_pos h]; omega
      · rw [if_neg h]; exact hidx

theorem groupLoop_pinpre {pre : List Tab} (fail : Nat → Bool) :
    ∀ (entries : List (Group × List Tab)) (s : Exec) (idx : Nat),
      PinPre pre s.win →
      (∀ p ∈ entries, ∀ t ∈ p.2, ∀ q ∈ pre, q.id ≠ t.id) →
      pre.length ≤ idx → PinPre pre (groupLoop fail s entries idx).1.win := by
  intro entries
  induction entries with
  | nil => intro s idx hw _ _; exact hw
  | cons e rest ih =>
    obtain ⟨g, tabs⟩ := e
    intro s idx hw hids hidx
    rw [groupLoop]
    have hhead : ∀ t ∈ tabs, ∀ q ∈ pre, q.id ≠ t.id :=
      fun t ht => hids (g, tabs) (List.mem_cons.2 (Or.inl rfl)) t ht
    have hrest : ∀ p ∈ rest, ∀ t ∈ p.2, ∀ q ∈ pre, q.id ≠ t.id :=
      fun p hp => hids p (List.mem_cons.2 (Or.inr hp))
    by_cases hemp : tabs.isEmpty
    · rw [if_pos hemp]
      exact ih s idx hw hrest hidx
    · rw [if_neg hemp]
      have htids : ∀ tid ∈ tabs.map (·.id), ∀ q ∈ pre, q.id ≠ tid := by
        intro tid htid q hq
        obtain ⟨t, ht, rfl⟩ := List.mem_map.1 htid
        exact hhead t ht q hq
      have hgsafe : ∀ q ∈ pre, ¬(q.id ∈ tabs.map (·.id)) := by
        intro q hq hmem
        obtain ⟨t, ht, hid⟩ := List.mem_map.1 hmem
        exact hhead t ht q hq hid.symm
      have h1 : PinPre pre (moveSeq fail s (tabs.map (·.id)) idx).1.win :=
        moveSeq_pinpre fail _ s idx hw htids hidx
      have hidx1 : pre.length ≤ (moveSeq fail s (tabs.map (·.id)) idx).2 :=
        le_trans hidx (moveSeq_idx_ge fail _ s idx)
      have h2 : PinPre pre (attempt fail (moveSeq fail s (tabs.map (·.id)) idx).1
          (.group (tabs.map (·.id)) g.id)).1.win :=
        attempt_pinpre fail h1 hgsafe
      by_cases hok : (attempt fail (moveSeq fail s (tabs.map (·.id)) idx).1
          (.group (tabs.map (·.id)) g.id)).2 = true
      · rw [if_pos hok]
        exact ih _ _ h2 hrest hidx1
      · rw [if_neg hok]
        have h3 : PinPre pre (attempt fail
            (attempt fail (moveSeq fail s (tabs.map (·.id)) idx).1
              (.group (tabs.map (·.id)) g.id)).1
            (.groupNew (tabs.map (·.id))
              (freshGroupId (attempt fail (moveSeq fail s (tabs.map (·.id)) idx).1
                (.group (tabs.map (·.id)) g.id)).1.win))).1.win :=
          attempt_pinpre fail h2 hgsafe
        by_cases hok3 : (attempt fail
            (attempt fail (moveSeq fail s (tabs.map (·.id)) idx).1
              (.group (tabs.map (·.id)) g.id)).1
            (.groupNew (tabs.map (·.id))
              (freshGroupId (attempt fail (moveSeq fail s (tabs.map (·.id)) idx).1
                (.group (tabs.map (·.id)) g.id)).1.win))).2 = true
        · rw [if_pos hok3]
          refine ih _ _ (attempt_pinpre fail h3 trivial) hrest hidx1
        · rw [if_neg hok3]
          exact ih _ _ h3 hrest hidx1

theorem moveSeq_move_ops (fail : Nat → Bool) :
    ∀ (tids : List Nat) (s : Exec) (idx : Nat) (tid i : Nat),
      Op.move tid i ∈ (moveSeq fail s tids idx).1.trace →
      Op.move tid i ∈ s.trace ∨ (tid ∈ tids ∧ idx ≤ i) := by
  intro tids
  induction tids with
  | nil => intro s idx tid i h; exact Or.inl h
  | cons t0 tl ih =>
    intro s idx tid i h
    rw [moveSeq] at h
    rcases ih _ _ tid i h with h1 | ⟨h1, h2⟩
    · rw [attempt_trace] at h1
      rcases List.mem_append.1 h1 with h2 | h2
      · exact Or.inl h2
      · have : Op.move tid i = Op.move t0 idx := by simpa using h2
        injection this with ha hb
        exact Or.inr ⟨by rw [ha]; simp, by omega⟩
    · refine Or.inr ⟨List.mem_cons.2 (Or.inr h1), le_trans ?_ h2⟩
      by_cases hok : (attempt fail s (.move t0 idx)).2 = true
      · rw [if_pos hok]
        omega
      · rw [if_neg hok]

theorem groupLoop_idx_ge (fail : Nat → Bool) :
    ∀ (entries : List (Group × List Tab)) (s : Exec) (idx : Nat),
      idx ≤ (groupLoop fail s entries idx).2 := by
  intro entries
  induction entries with
  | nil => intro s idx; exact le_refl idx
  | cons e rest ih =>
    obtain ⟨g, tabs⟩ := e
    intro s idx
    rw [groupLoop]
    by_cases hemp : tabs.isEmpty
    · rw [if_pos hemp]; exact ih s idx
    · rw [if_neg hemp]
      have hms := moveSeq_idx_ge fail (tabs.map (·.id)) s idx
      by_cases hok : (attempt fail (moveSeq fail s (tabs.map (·.id)) idx).1
          (.group (tabs.map (·.id)) g.id)).2 = true
      · rw [if_pos hok]
        exact le_trans hms (ih _ _)
      · rw [if_neg hok]
        by_cases hok3 : (attempt fail
            (attempt fail (moveSeq fail s (tabs.map (·.id)) idx).1
              (.group (tabs.map (·.id)) g.id)).1
            (.groupNew (tabs.map (·.id))
              (freshGroupId (attempt fail (moveSeq fail s (tabs.map (·.id)) idx).1
                (.group (tabs.map (·.id)) g.id)).1.win))).2 = true
        · rw [if_pos hok3]
          exact le_trans hms (ih _ _)
        · rw [if_neg hok3]
          exact le_trans hms (ih _ _)

theorem groupLoop_move_ops (fail : Nat → Bool) :
    ∀ (entries : List (Group × List Tab)) (s : Exec) (idx : Nat) (tid i : Nat),
      Op.move tid i ∈ (groupLoop fail s entries idx).1.trace →
      Op.move tid i ∈ s.trace ∨
        ((∃ p ∈ entries, tid ∈ p.2.map (·.id)) ∧ idx ≤ i) := by
  intro entries
  induction entries with
  | nil => intro s idx tid i h; exact Or.inl h
  | cons e rest ih =>
    obtain ⟨g, tabs⟩ := e
    intro s idx tid i h
    rw [groupLoop] at h
    by_cases hemp : tabs.isEmpty
    · rw [if_pos hemp] at h
      rcases ih _ _ tid i h with h1 | ⟨⟨p, hp, hin⟩, h2⟩
      · exact Or.inl h1
      · exact Or.inr ⟨⟨p, List.mem_cons.2 (Or.inr hp), hin⟩, h2⟩
    · rw [if_neg hemp] at h
      have hms := moveSeq_idx_ge fail (tabs.map (·.id)) s idx
      have handle : ∀ o ∈ (attempt fail (moveSeq fail s (tabs.map (·.id)) idx).1
          (.group (tabs.map (·.id)) g.id)).1.trace, o = Op.move tid i →
          Op.move tid i ∈ s.trace ∨
            ((∃ p ∈ (g, tabs) :: rest, tid ∈ p.2.map (·.id)) ∧ idx ≤ i) := by
        intro o ho heq
        subst heq
        rw [attempt_trace] at ho
        rcases List.mem_append.1 ho with h1 | h1
        · rcases moveSeq_move_ops fail _ _ _ tid i h1 with h2 | ⟨h2, h3⟩
          · exact Or.inl h2
          · exact Or.inr ⟨⟨(g, tabs), List.mem_cons.2 (Or.inl rfl), h2⟩, h3⟩
        · simp at h1
      by_cases hok : (attempt fail (moveSeq fail s (tabs.map (·.id)) idx).1
          (.group (tabs.map (·.id)) g.id)).2 = true
      · rw [if_pos hok] at h
        rcases ih _ _ tid i h with h1 | ⟨⟨p, hp, hin⟩, h2⟩
        · exact handle _ h1 rfl
        · exact Or.inr ⟨⟨p, List.mem_cons.2 (Or.inr hp), hin⟩,
            le_trans (le_trans hms (by omega)) h2⟩
      · rw [if_neg hok] at h
        set r3 := attempt fail
          (attempt fail (moveSeq fail s (tabs.map (·.id)) idx).1
            (.group (tabs.map (·.id)) g.id)).1
          (.groupNew (tabs.map (·.id))
            (freshGroupId (attempt fail (moveSeq fail s (tabs.map (·.id)) idx).1
              (.group (tabs.map (·.id)) g.id)).1.win)) with hr3
        have handle3 : ∀ o ∈ r3.1.trace, o = Op.move tid i →
            Op.move tid i ∈ s.trace ∨
              ((∃ p ∈ (g, tabs) :: rest, tid ∈ p.2.map (·.id)) ∧ idx ≤ i) := by
          intro o ho heq
          subst heq
          rw [hr3, attempt_trace] at ho
          rcases List.mem_append.1 ho with h1 | h1
          · exact handle _ h1 rfl
          · simp at h1
        by_cases hok3 : r3.2 = true
        · rw [if_pos hok3] at h
          rcases ih _ _ tid i h with h1 | ⟨⟨p, hp, hin⟩, h2⟩
          · rw [attempt_trace] at h1
            rcases List.mem_append.1 h1 with h2 | h2
            · exact handle3 _ h2 rfl
            · simp at h2
          · exact Or.inr ⟨⟨p, List.mem_cons.2 (Or.inr hp), hin⟩,
              le_trans (le_trans hms (by omega)) h2⟩
        · rw [if_neg hok3] at h
          rcases ih _ _ tid i h with h1 | ⟨⟨p, hp, hin⟩, h2⟩
          · exact handle3 _ h1 rfl
          · exact Or.inr ⟨⟨p, List.mem_cons.2 (Or.inr hp), hin⟩,
              le_trans (le_trans hms (by omega)) h2⟩

theorem mem_setEntryG {gid : Nat} {v : Group × List Tab} :
    ∀ {m : List (Nat × (Group × List Tab))} {e},
      e ∈ setEntryG gid v m → e = (gid, v) ∨ e ∈ m := by
  intro m
  induction m with
  | nil =>
    intro e h
    rcases List.mem_cons.1 h with rfl | h'
    · exact Or.inl rfl
    · cases h'
  | cons e0 rest ih =>
    obtain ⟨k, v0⟩ := e0
    intro e h
    by_cases hk : k = gid
    · rw [setEntryG, if_pos hk] at h
      rcases List.mem_cons.1 h with rfl | h'
      · exact Or.inl (by rw [hk])
      · exact Or.inr (List.mem_cons.2 (Or.inr h'))
    · rw [setEntryG, if_neg hk] at h
      rcases List.mem_cons.1 h with rfl | h'
      · exact Or.inr (List.mem_cons.2 (Or.inl rfl))
      · rcases ih h' with h2 | h2
        · exact Or.inl h2
        · exact Or.inr (List.mem_cons.2 (Or.inr h2))

theorem mem_initGroupData {groups : List Group} :
    ∀ e ∈ initGroupData groups, e.2.2 = [] ∧ e.2.1 ∈ groups ∧ e.1 = e.2.1.id := by
  have go : ∀ (l : List Group) (acc : List (Nat × (Group × List Tab))),
      (∀ e ∈ acc, e.2.2 = [] ∧ (e.2.1 ∈ l ∨ e.2.1 ∈ groups) ∧ e.1 = e.2.1.id) →
      (∀ g ∈ l, g ∈ groups) →
      ∀ e ∈ l.foldl (fun m g => setEntryG g.id (g, []) m) acc,
        e.2.2 = [] ∧ e.2.1 ∈ groups ∧ e.1 = e.2.1.id := by
    intro l
    induction l with
    | nil =>
      intro acc hacc _ e he
      obtain ⟨h1, h2, h3⟩ := hacc e he
      rcases h2 with h2 | h2
      · cases h2
      · exact ⟨h1, h2, h3⟩
    | cons g0 rest ih =>
      intro acc hacc hsub e he
      simp only [List.foldl_cons] at he
      refine ih _ ?_ (fun g hg => hsub g (List.mem_cons.2 (Or.inr hg))) e he
      intro e' he'
      rcases mem_setEntryG he' with rfl | he2
      · exact ⟨rfl, Or.inr (hsub g0 (List.mem_cons.2 (Or.inl rfl))), rfl⟩
      · obtain ⟨h1, h2, h3⟩ := hacc e' he2
        rcases h2 with h2 | h2
        · rcases List.mem_cons.1 h2 with heq | h2'
          · exact ⟨h1, Or.inr (by
              rw [heq]; exact hsub g0 (List.mem_cons.2 (Or.inl rfl))), h3⟩
          · exact ⟨h1, Or.inl h2', h3⟩
        · exact ⟨h1, Or.inr h2, h3⟩
  intro e he
  exact go groups [] (fun e' he' => by cases he') (fun g hg => hg) e he

theorem mem_pushTabG {gid : Nat} {u : Tab} :
    ∀ {m : List (Nat × (Group × List Tab))} {e}, e ∈ pushTabG gid u m →
      ∀ t ∈ e.2.2, (∃ e' ∈ m, t ∈ e'.2.2) ∨ t = u := by
  intro m
  induction m with
  | nil => intro e h; cases h
  | cons e0 rest ih =>
    obtain ⟨k, v⟩ := e0
    intro e h t ht
    by_cases hk : k = gid
    · rw [pushTabG, if_pos hk] at h
      rcases List.mem_cons.1 h with rfl | h'
      · rcases List.mem_append.1 ht with h2 | h2
        · exact Or.inl ⟨(k, v), List.mem_cons.2 (Or.inl rfl), h2⟩
        · exact Or.inr (by simpa using h2)
      · exact Or.inl ⟨e, List.mem_cons.2 (Or.inr h'), ht⟩
    · rw [pushTabG, if_neg hk] at h
      rcases List.mem_cons.1 h with rfl | h'
      · exact Or.inl ⟨(k, v), List.mem_cons.2 (Or.inl rfl), ht⟩
      · rcases ih h' t ht with ⟨e', he', hte⟩ | h2
        · exact Or.inl ⟨e', List.mem_cons.2 (Or.inr he'), hte⟩
        · exact Or.inr h2

/-- Bucket and ungrouped members of the distribution come from the queried
list and are unpinned. -/
theorem distributeTabs_mem (gd : List (Nat × (Group × List Tab)))
    (tabs : List Tab) (hgd : ∀ e ∈ gd, e.2.2 = []) :
    (∀ e ∈ (distributeTabs gd tabs).1, ∀ t ∈ e.2.2,
        t ∈ tabs ∧ t.pinned = false) ∧
      ∀ t ∈ (distributeTabs gd tabs).2, t ∈ tabs ∧ t.pinned = false := by
  have go : ∀ (Q : Tab → Prop) (l : List Tab)
      (acc : List (Nat × (Group × List Tab)) × List Tab),
      (∀ e ∈ acc.1, ∀ t ∈ e.2.2, Q t) → (∀ t ∈ acc.2, Q t) →
      (∀ t ∈ l, t.pinned = false → Q t) →
      (∀ e ∈ (l.foldl
        (fun acc tab =>
          if tab.pinned then acc
          else
            match tab.groupId with
            | some gid =>
              if hasKeyG acc.1 gid then (pushTabG gid tab acc.1, acc.2)
              else (acc.1, acc.2 ++ [tab])
            | none => (acc.1, acc.2 ++ [tab])) acc).1, ∀ t ∈ e.2.2, Q t) ∧
      ∀ t ∈ (l.foldl
        (fun acc tab =>
          if tab.pinned then acc
          else
            match tab.groupId with
            | some gid =>
              if hasKeyG acc.1 gid then (pushTabG gid tab acc.1, acc.2)
              else (acc.1, acc.2 ++ [tab])
            | none => (acc.1, acc.2 ++ [tab])) acc).2, Q t := by
    intro Q l
    induction l with
    | nil => intro acc h1 h2 _; exact ⟨h1, h2⟩
    | cons u rest ih =>
      intro acc h1 h2 h3
      simp only [List.foldl_cons]
      have hrest : ∀ t ∈ rest, t.pinned = false → Q t :=
        fun t ht => h3 t (List.mem_cons.2 (Or.inr ht))
      by_cases hp : u.pinned
      · simp only [hp, if_true]
        exact ih acc h1 h2 hrest
      · have hQu : Q u := h3 u (List.mem_cons.2 (Or.inl rfl)) (by simpa using hp)
        simp only [hp, Bool.false_eq_true, if_false]
        cases hg : u.groupId with
        | some gid =>
          by_cases hk : hasKeyG acc.1 gid = true
          · simp only [hk, if_true]
            refine ih _ ?_ h2 hrest
            intro e he t ht
            rcases mem_pushTabG he t ht with ⟨e', he', hte⟩ | rfl
            · exact h1 e' he' t hte
            · exact hQu
          · simp only [hk, Bool.false_eq_true, if_false]
            refine ih _ h1 ?_ hrest
            intro t ht
            rcases List.mem_append.1 ht with h4 | h4
            · exact h2 t h4
            · exact (by simpa using h4 : t = u) ▸ hQu
        | none =>
          refine ih _ h1 ?_ hrest
          intro t ht
          rcases List.mem_append.1 ht with h4 | h4
          · exact h2 t h4
          · exact (by simpa using h4 : t = u) ▸ hQu
  exact go (fun t => t ∈ tabs ∧ t.pinned = false) tabs (gd, [])
    (fun e he t ht => absurd ht (by rw [hgd e he]; exact List.not_mem_nil t))
    (fun t ht => by cases ht) (fun t ht hp => ⟨ht, hp⟩)

/-! ## Named stages of the reconciliation pipeline -/

/-- The dedup stage of `sortTabsInWindow`, started on a fresh execution. -/
def dedupStage (env : Env) (w : Window) : Exec :=
  removeDuplicateTabsExec env { win := w, trace := [], calls := 0 }

/-- The enumerating snapshot taken after dedup. -/
def genSnap (env : Env) (w : Window) : List Tab := queryTabs (dedupStage env w).win

/-- `pinned.length` of the snapshot. -/
def genPinnedCount (env : Env) (w : Window) : Nat :=
  ((genSnap env w).filter (·.pinned)).length

/-- The bucket distribution of the snapshot. -/
def genDist (env : Env) (w : Window) :
    List (Nat × (Group × List Tab)) × List Tab :=
  distributeTabs (initGroupData (dedupStage env w).win.groups) (genSnap env w)

/-- The sorted group data of the general path. -/
def genSortedGroupData (env : Env) (w : Window) : List (Group × List Tab) :=
  jsSort (groupLe env.lcDef)
    (((genDist env w).1.map
      (fun e => (e.1, (e.2.1, jsSort (tabLe env.lcDef) e.2.2)))).map (·.2))

/-- The sorted ungrouped tabs of the general path. -/
def genSortedUngrouped (env : Env) (w : Window) : List Tab :=
  jsSort (tabLe env.lcDef) (genDist env w).2

theorem sortTabsInWindow_tabsQueryFail (env : Env) (w : Window) (e : String)
    (htq : env.tabsQueryFail = some e) :
    sortTabsInWindow env w = (dedupStage env w, Status.error e) := by
  unfold sortTabsInWindow
  rw [htq]
  rfl

theorem sortTabsInWindow_groupsQueryFail (env : Env) (w : Window) (e : String)
    (hsup : env.supportsTabGroups = true) (htq : env.tabsQueryFail = none)
    (hgq : env.groupsQueryFail = some e) :
    sortTabsInWindow env w = (dedupStage env w, Status.error e) := by
  unfold sortTabsInWindow
  rw [htq]
  simp only [hsup, Bool.not_true, Bool.false_eq_true, if_false]
  rw [hgq]
  rfl

theorem sortTabsInWindow_ungrouped_eq (env : Env) (w : Window)
    (hsup : env.supportsTabGroups = false) (htq : env.tabsQueryFail = none) :
    sortTabsInWindow env w =
      sortUngroupedTabsExec env (dedupStage env w)
        ((genSnap env w).filter (fun t => !t.pinned)) (genPinnedCount env w) := by
  unfold sortTabsInWindow
  rw [htq]
  simp only [hsup, Bool.not_false, if_true]
  rfl

theorem sortTabsInWindow_general_eq (env : Env) (w : Window)
    (hsup : env.supportsTabGroups = true) (htq : env.tabsQueryFail = none)
    (hgq : env.groupsQueryFail = none) :
    sortTabsInWindow env w =
      ((moveSeq env.fail
        (groupLoop env.fail (dedupStage env w) (genSortedGroupData env w)
          (genPinnedCount env w)).1
        ((genSortedUngrouped env w).map (·.id))
        (groupLoop env.fail (dedupStage env w) (genSortedGroupData env w)
          (genPinnedCount env w)).2).1,
       Status.sorted) := by
  unfold sortTabsInWindow
  rw [htq]
  simp only [hsup, Bool.not_true, Bool.false_eq_true, if_false]
  rw [hgq]
  rfl

theorem filter_pinned_pinpre {pre : List Tab} {w : Window}
    (hpre : ∀ p ∈ pre, p.pinned = true) (h : PinPre pre w) :
    w.tabs.filter (·.pinned) = pre := by
  obtain ⟨suf, hs, hsuf⟩ := h
  rw [hs, List.filter_append, List.filter_eq_self.2 (fun p hp => hpre p hp),
    List.filter_eq_nil_iff.2 (fun t ht => by simp [hsuf t ht]), List.append_nil]

theorem dedupStage_pinpre (env : Env) (w : Window) {pre suf : List Tab}
    (hN : (w.tabs.map (·.id)).Nodup) (hsplit : w.tabs = pre ++ suf)
    (hpre : ∀ p ∈ pre, p.pinned = true) (hsuf : ∀ t ∈ suf, t.pinned = false) :
    PinPre pre (dedupStage env w).win ∧
      ∀ t ∈ (dedupStage env w).win.tabs, t ∈ w.tabs := by
  rcases removeDuplicateTabsExec_win env { win := w, trace := [], calls := 0 }
    with heq | ⟨ids, hids, heq⟩
  · rw [show (dedupStage env w).win = w from heq]
    exact ⟨⟨suf, hsplit, hsuf⟩, fun t ht => ht⟩
  · have heq' : (dedupStage env w).win.tabs =
        w.tabs.filter (fun t => !(decide (t.id ∈ ids))) := by
      rw [show (dedupStage env w).win = _ from heq]
    constructor
    · refine ⟨suf.filter (fun t => !(decide (t.id ∈ ids))), ?_, ?_⟩
      · rw [heq', hsplit, List.filter_append]
        congr 1
        refine List.filter_eq_self.2 (fun p hp => ?_)
        have hnot : ¬ (p.id ∈ ids) := by
          intro hmem
          obtain ⟨t, htmem, htid, htp⟩ := hids p.id hmem
          have hpw : p ∈ w.tabs := hsplit ▸ List.mem_append.2 (Or.inl hp)
          have hteq : t = p := eq_of_id_eq hN htmem hpw htid
          have : p.pinned = false := hteq ▸ htp
          rw [hpre p hp] at this
          exact Bool.noConfusion this
        simp [hnot]
      · intro t ht
        exact hsuf t (List.mem_filter.1 ht).1
    · rw [heq']
      intro t ht
      exact (List.mem_filter.1 ht).1

theorem genPinnedCount_eq (env : Env) (w : Window) {pre : List Tab}
    (hpre : ∀ p ∈ pre, p.pinned = true)
    (hpp : PinPre pre (dedupStage env w).win) :
    genPinnedCount env w = pre.length := by
  unfold genPinnedCount genSnap
  rw [forall₂_filter_length (p := (·.pinned)) (fun a b hab => hab.2.2.2.1)
    (queryTabs_forall₂ _), filter_pinned_pinpre hpre hpp]

theorem genSnap_unpinned_src (env : Env) (w : Window) {pre suf : List Tab}
    (hN : (w.tabs.map (·.id)).Nodup) (hsplit : w.tabs = pre ++ suf)
    (hpre : ∀ p ∈ pre, p.pinned = true) (hsuf : ∀ t ∈ suf, t.pinned = false) :
    ∀ u ∈ genSnap env w, u.pinned = false →
      (∃ t ∈ w.tabs, t.id = u.id ∧ t.pinned = false) ∧
        ∀ q ∈ pre, q.id ≠ u.id := by
  intro u hu hup
  obtain ⟨t', ht'mem, heqm⟩ := queryTabs_mem hu
  obtain ⟨h1, _, _, h4, _, _⟩ := heqm
  have ht'w : t' ∈ w.tabs :=
    (dedupStage_pinpre env w hN hsplit hpre hsuf).2 t' ht'mem
  have ht'p : t'.pinned = false := by rw [← h4]; exact hup
  refine ⟨⟨t', ht'w, h1.symm, ht'p⟩, ?_⟩
  intro q hq hqid
  have hqw : q ∈ w.tabs := hsplit ▸ List.mem_append.2 (Or.inl hq)
  have hqt : q = t' := eq_of_id_eq hN hqw ht'w (by rw [hqid, h1])
  have : q.pinned = false := hqt ▸ ht'p
  rw [hpre q hq] at this
  exact Bool.noConfusion this

theorem genTargets_unpinned (env : Env) (w : Window) :
    (∀ p ∈ genSortedGroupData env w, ∀ t ∈ p.2,
        t ∈ genSnap env w ∧ t.pinned = false) ∧
      ∀ t ∈ genSortedUngrouped env w, t ∈ genSnap env w ∧ t.pinned = false := by
  have hdm := distributeTabs_mem
    (initGroupData (dedupStage env w).win.groups) (genSnap env w)
    (fun e he => (mem_initGroupData e he).1)
  constructor
  · intro p hp t ht
    have hp' := mem_jsSort.1 hp
    obtain ⟨q, hq, rfl⟩ := List.mem_map.1 hp'
    obtain ⟨e, he, rfl⟩ := List.mem_map.1 hq
    have ht' : t ∈ e.2.2 := mem_jsSort.1 ht
    exact hdm.1 e he t ht'
  · intro t ht
    exact hdm.2 t (mem_jsSort.1 ht)

/-- C6: the reconciler never issues a move for a pinned tab (every move
command names an unpinned tab of the window) and every issued move targets
an index at or beyond the pinned count, so the pinned block of indices
`[0, P)` survives reconciliation unchanged. -/
theorem pinned_block_undisturbed (env : Env) (w : Window) (hwf : WellFormed w) :
    (∀ tid i, Op.move tid i ∈ (sortTabsInWindow env w).1.trace →
      (w.tabs.filter (·.pinned)).length ≤ i ∧
        ∃ t ∈ w.tabs, t.id = tid ∧ t.pinned = false) ∧
      (sortTabsInWindow env w).1.win.tabs.take
          (w.tabs.filter (·.pinned)).length =
        w.tabs.take (w.tabs.filter (·.pinned)).length := by
  obtain ⟨hN, hNg, pre, suf, hsplit, hpre, hsuf⟩ := hwf
  have hw_pinpre : PinPre pre w := ⟨suf, hsplit, hsuf⟩
  have hs1 := dedupStage_pinpre env w hN hsplit hpre hsuf
  have hP0 : w.tabs.filter (·.pinned) = pre := filter_pinned_pinpre hpre hw_pinpre
  have hPc : genPinnedCount env w = pre.length := genPinnedCount_eq env w hpre hs1.1
  have hsnapU := genSnap_unpinned_src env w hN hsplit hpre hsuf
  have take_of_pinpre : ∀ w' : Window, PinPre pre w' →
      w'.tabs.take pre.length = pre := by
    intro w' hw'
    obtain ⟨suf', hs', _⟩ := hw'
    rw [hs']
    exact List.take_left pre suf'
  have hdedup_nomoves : ∀ tid i, Op.move tid i ∈ (dedupStage env w).trace → False := by
    intro tid i h
    rcases removeDuplicateTabsExec_trace env { win := w, trace := [], calls := 0 }
      with ht | ⟨ids, ht⟩
    · rw [show (dedupStage env w).trace = _ from ht] at h
      cases h
    · rw [show (dedupStage env w).trace = _ from ht] at h
      simp at h
  have htake_goal : ∀ wfin : Window, PinPre pre wfin →
      wfin.tabs.take (w.tabs.filter (·.pinned)).length =
        w.tabs.take (w.tabs.filter (·.pinned)).length := by
    intro wfin hfin
    rw [hP0, take_of_pinpre wfin hfin, take_of_pinpre w hw_pinpre]
  cases htq : env.tabsQueryFail with
  | some e =>
    rw [sortTabsInWindow_tabsQueryFail env w e htq]
    refine ⟨?_, htake_goal _ hs1.1⟩
    intro tid i h
    exact absurd h (fun h => hdedup_nomoves tid i h)
  | none =>
    by_cases hsup : env.supportsTabGroups = true
    · cases hgq : env.groupsQueryFail with
      | some e =>
        rw [sortTabsInWindow_groupsQueryFail env w e hsup htq hgq]
        refine ⟨?_, htake_goal _ hs1.1⟩
        intro tid i h
        exact absurd h (fun h => hdedup_nomoves tid i h)
      | none =>
        rw [sortTabsInWindow_general_eq env w hsup htq hgq]
        have hT := genTargets_unpinned env w
        have hbk_ids : ∀ p ∈ genSortedGroupData env w, ∀ t ∈ p.2,
            ∀ q ∈ pre, q.id ≠ t.id := by
          intro p hp t ht q hq
          obtain ⟨hmem, hunp⟩ := hT.1 p hp t ht
          exact (hsnapU t hmem hunp).2 q hq
        have hun_ids : ∀ t ∈ genSortedUngrouped env w, ∀ q ∈ pre, q.id ≠ t.id := by
          intro t ht q hq
          obtain ⟨hmem, hunp⟩ := hT.2 t ht
          exact (hsnapU t hmem hunp).2 q hq
        have hgl_pinpre : PinPre pre (groupLoop env.fail (dedupStage env w)
            (genSortedGroupData env w) (genPinnedCount env w)).1.win :=
          groupLoop_pinpre env.fail _ _ _ hs1.1 hbk_ids (by rw [hPc])
        have hfin_pinpre : PinPre pre (moveSeq env.fail
            (groupLoop env.fail (dedupStage env w) (genSortedGroupData env w)
              (genPinnedCount env w)).1
            ((genSortedUngrouped env w).map (·.id))
            (groupLoop env.fail (dedupStage env w) (genSortedGroupData env w)
              (genPinnedCount env w)).2).1.win := by
          refine moveSeq_pinpre env.fail _ _ _ hgl_pinpre ?_ ?_
          · intro tid htid q hq
            obtain ⟨t, ht, rfl⟩ := List.mem_map.1 htid
            exact hun_ids t ht q hq
          · calc pre.length = genPinnedCount env w := hPc.symm
              _ ≤ _ := groupLoop_idx_ge env.fail _ _ _
        refine ⟨?_, htake_goal _ hfin_pinpre⟩
        intro tid i h
        rcases moveSeq_move_ops env.fail _ _ _ tid i h with h1 | ⟨h1, h2⟩
        · rcases groupLoop_move_ops env.fail _ _ _ tid i h1 with h2 | ⟨⟨p, hp, hin⟩, h3⟩
          · exact absurd h2 (fun h => hdedup_nomoves tid i h)
          · obtain ⟨t, ht, rfl⟩ := List.mem_map.1 hin
            obtain ⟨hmem, hunp⟩ := hT.1 p hp t ht
            refine ⟨?_, (hsnapU t hmem hunp).1⟩
            rw [hP0]
            rw [hPc] at h3
            exact h3
        · obtain ⟨t, ht, rfl⟩ := List.mem_map.1 h1
          obtain ⟨hmem, hunp⟩ := hT.2 t ht
          refine ⟨?_, (hsnapU t hmem hunp).1⟩
          rw [hP0]
          calc pre.length = genPinnedCount env w := hPc.symm
            _ ≤ _ := groupLoop_idx_ge env.fail _ _ _
            _ ≤ i := h2
    · have hsup' : env.supportsTabGroups = false := by
        cases hb : env.supportsTabGroups
        · rfl
        · exact absurd hb hsup
      rw [sortTabsInWindow_ungrouped_eq env w hsup' htq]
      unfold sortUngroupedTabsExec
      by_cases horder : (((genSnap env w).filter (fun t => !t.pinned)).map (·.id) : List Nat) =
          (jsSort (tabLe env.lcBase)
            ((genSnap env w).filter (fun t => !t.pinned))).map (·.id)
      · rw [if_pos horder]
        refine ⟨?_, htake_goal _ hs1.1⟩
        intro tid i h
        exact absurd h (fun h => hdedup_nomoves tid i h)
      · rw [if_neg horder]
        have hsorted_src : ∀ t ∈ jsSort (tabLe env.lcBase)
            ((genSnap env w).filter (fun t => !t.pinned)),
            t ∈ genSnap env w ∧ t.pinned = false := by
          intro t ht
          have := List.mem_filter.1 (mem_jsSort.1 ht)
          exact ⟨this.1, by simpa using this.2⟩
        have hfin : PinPre pre (moveSeq env.fail (dedupStage env w)
            ((jsSort (tabLe env.lcBase)
              ((genSnap env w).filter (fun t => !t.pinned))).map (·.id))
            (genPinnedCount env w)).1.win := by
          refine moveSeq_pinpre env.fail _ _ _ hs1.1 ?_ (by rw [hPc])
          intro tid htid q hq
          obtain ⟨t, ht, rfl⟩ := List.mem_map.1 htid
          obtain ⟨hmem, hunp⟩ := hsorted_src t ht
          exact (hsnapU t hmem hunp).2 q hq
        refine ⟨?_, htake_goal _ hfin⟩
        intro tid i h
        rcases moveSeq_move_ops env.fail _ _ _ tid i h with h1 | ⟨h1, h2⟩
        · exact absurd h1 (fun h => hdedup_nomoves tid i h)
        · obtain ⟨t, ht, rfl⟩ := List.mem_map.1 h1
          obtain ⟨hmem, hunp⟩ := hsorted_src t ht
          refine ⟨?_, (hsnapU t hmem hunp).1⟩
          rw [hP0]
          rw [hPc] at h2
          exact h2

/-- A window with a pinned tab ahead of a grouped pair and an ungrouped
tab. -/
def pinnedWindow : Window :=
  { tabs :=
      [{ id := 9, url := "https://p.com", title := "P", pinned := true,
         active := false, index := 0, groupId := none },
       { id := 1, url := "https://b.com", title := "B", pinned := false,
         active := false, index := 1, groupId := some 5 },
       { id := 2, url := "https://a.com", title := "A", pinned := false,
         active := false, index := 2, groupId := some 5 },
       { id := 3, url := "https://c.com", title := "C", pinned := false,
         active := false, index := 3, groupId := none }],
    groups := [{ id := 5, title := "g", color := "blue", collapsed := true }] }

theorem pinned_block_undisturbed_witness :
    WellFormed pinnedWindow ∧
      (∀ tid i,
        Op.move tid i ∈ (sortTabsInWindow failingMoveEnv pinnedWindow).1.trace →
        (pinnedWindow.tabs.filter (·.pinned)).length ≤ i ∧
          ∃ t ∈ pinnedWindow.tabs, t.id = tid ∧ t.pinned = false) ∧
      (sortTabsInWindow failingMoveEnv pinnedWindow).1.win.tabs.take
          (pinnedWindow.tabs.filter (·.pinned)).length =
        pinnedWindow.tabs.take (pinnedWindow.tabs.filter (·.pinned)).length := by
  have hwf : WellFormed pinnedWindow :=
    ⟨by decide, by decide, pinnedWindow.tabs.take 1, pinnedWindow.tabs.drop 1,
      (List.take_append_drop 1 pinnedWindow.tabs).symm, by decide, by decide⟩
  obtain ⟨h1, h2⟩ := pinned_block_undisturbed failingMoveEnv pinnedWindow hwf
  exact ⟨hwf, h1, h2⟩

theorem group_update_title_only_witness :
    Op.updateGroup 6 (some "g") none none ∈
        (sortTabsInWindow
          { noFailEnv true lcSimple with fail := fun n => decide (n = 2) }
          groupedWindow).1.trace ∧
      (∃ t, (some "g" : Option String) = some t) ∧
      (none : Option String) = none ∧ (none : Option Bool) = none :=
  ⟨by decide,
    group_update_title_only
      { noFailEnv true lcSimple with fail := fun n => decide (n = 2) }
      groupedWindow 6 (some "g") none none (by decide)⟩

/-! ## Idempotence: lawful collations

A collation function standing in for `localeCompare` is *lawful* when its
nonpositive relation is transitive and its strict signs are antisymmetric;
ECMAScript requires a consistent comparison from `Intl.Collator`, so any
real collation satisfies this. -/

def LcLawful (lc : String → String → Int) : Prop :=
  (∀ a b c, lc a b ≤ 0 → lc b c ≤ 0 → lc a c ≤ 0) ∧
    ∀ a b, lc a b < 0 ↔ 0 < lc b a

theorem LcLawful.zero_symm {lc : String → String → Int} (h : LcLawful lc)
    {a b : String} (hab : lc a b = 0) : lc b a = 0 := by
  rcases lt_trichotomy (lc b a) 0 with hlt | hz | hgt
  · have := (h.2 b a).1 hlt; omega
  · exact hz
  · have := (h.2 a b).2 hgt; omega

theorem LcLawful.lt_of_lt_of_le {lc : String → String → Int} (h : LcLawful lc)
    {x y z : String} (h1 : lc x y < 0) (h2 : lc y z ≤ 0) : lc x z < 0 := by
  have hle : lc x z ≤ 0 := h.1 x y z (le_of_lt h1) h2
  rcases lt_or_eq_of_le hle with hlt | hz
  · exact hlt
  · have hzx : lc z x = 0 := h.zero_symm hz
    have hyx : lc y x ≤ 0 := h.1 y z x h2 (le_of_eq hzx)
    have : 0 < lc y x := (h.2 x y).1 h1
    omega

theorem LcLawful.lt_of_le_of_lt' {lc : String → String → Int} (h : LcLawful lc)
    {x y z : String} (h1 : lc x y ≤ 0) (h2 : lc y z < 0) : lc x z < 0 := by
  have hle : lc x z ≤ 0 := h.1 x y z h1 (le_of_lt h2)
  rcases lt_or_eq_of_le hle with hlt | hz
  · exact hlt
  · have hzx : lc z x = 0 := h.zero_symm hz
    have hzy : lc z y ≤ 0 := h.1 z x y (le_of_eq hzx) h1
    have : 0 < lc z y := (h.2 y z).1 h2
    omega

theorem LcLawful.zero_trans {lc : String → String → Int} (h : LcLawful lc)
    {x y z : String} (h1 : lc x y = 0) (h2 : lc y z = 0) : lc x z = 0 := by
  have hle : lc x z ≤ 0 := h.1 x y z (le_of_eq h1) (le_of_eq h2)
  rcases lt_or_eq_of_le hle with hlt | hz
  · exfalso
    have hzy : lc z y = 0 := h.zero_symm h2
    have hyx : lc y x = 0 := h.zero_symm h1
    have hzx : lc z x ≤ 0 := h.1 z y x (le_of_eq hzy) (le_of_eq hyx)
    have : 0 < lc z x := (h.2 x z).1 hlt
    omega
  · exact hz

theorem tabLe_iff (lc : String → String → Int) (a b : Tab) :
    tabLe lc a b = true ↔
      (lc (getHost a) (getHost b) < 0 ∨
        (lc (getHost a) (getHost b) = 0 ∧ lc a.title b.title ≤ 0)) := by
  simp only [tabLe, tabCompare, decide_eq_true_eq]
  by_cases h : lc (getHost a) (getHost b) = 0
  · rw [if_neg (not_not_intro h)]
    simp [h]
  · rw [if_pos h]
    constructor
    · intro hle
      exact Or.inl (lt_of_le_of_ne hle h)
    · intro hor
      rcases hor with hlt | ⟨hz, _⟩
      · exact le_of_lt hlt
      · exact absurd hz h

theorem tabLe_total {lc : String → String → Int} (h : LcLawful lc) (a b : Tab) :
    tabLe lc a b = true ∨ tabLe lc b a = true := by
  rw [tabLe_iff, tabLe_iff]
  rcases lt_trichotomy (lc (getHost a) (getHost b)) 0 with hlt | hz | hgt
  · exact Or.inl (Or.inl hlt)
  · have hz' : lc (getHost b) (getHost a) = 0 := h.zero_symm hz
    rcases le_or_lt (lc a.title b.title) 0 with ht | ht
    · exact Or.inl (Or.inr ⟨hz, ht⟩)
    · have hba : lc b.title a.title < 0 := (h.2 b.title a.title).2 ht
      exact Or.inr (Or.inr ⟨hz', le_of_lt hba⟩)
  · exact Or.inr (Or.inl ((h.2 _ _).2 hgt))

theorem tabLe_trans {lc : String → String → Int} (h : LcLawful lc) (a b c : Tab)
    (hab : tabLe lc a b = true) (hbc : tabLe lc b c = true) :
    tabLe lc a c = true := by
  rw [tabLe_iff] at hab hbc ⊢
  rcases hab with hab | ⟨haz, hat⟩
  · rcases hbc with hbc | ⟨hbz, _⟩
    · exact Or.inl (h.lt_of_lt_of_le hab (le_of_lt hbc))
    · exact Or.inl (h.lt_of_lt_of_le hab (le_of_eq hbz))
  · rcases hbc with hbc | ⟨hbz, hbt⟩
    · exact Or.inl (h.lt_of_le_of_lt' (le_of_eq haz) hbc)
    · exact Or.inr ⟨h.zero_trans haz hbz, h.1 _ _ _ hat hbt⟩

theorem groupLe_total {lc : String → String → Int} (h : LcLawful lc)
    (a b : Group × List Tab) : groupLe lc a b = true ∨ groupLe lc b a = true := by
  simp only [groupLe, decide_eq_true_eq]
  rcases le_or_lt (lc a.1.title b.1.title) 0 with hle | hlt
  · exact Or.inl hle
  · exact Or.inr (le_of_lt ((h.2 _ _).2 hlt))

theorem groupLe_trans {lc : String → String → Int} (h : LcLawful lc)
    (a b c : Group × List Tab) (hab : groupLe lc a b = true)
    (hbc : groupLe lc b c = true) : groupLe lc a c = true := by
  simp only [groupLe, decide_eq_true_eq] at hab hbc ⊢
  exact h.1 _ _ _ hab hbc

/-- `tabLe` ignores the index field, so it factors through `eqMod`. -/
theorem tabLe_respects_eqMod (lc : String → String → Int) {a a' b b' : Tab}
    (ha : eqMod a a') (hb : eqMod b b') : tabLe lc a b = tabLe lc a' b' := by
  obtain ⟨_, ha2, ha3, _, _, _⟩ := ha
  obtain ⟨_, hb2, hb3, _, _, _⟩ := hb
  simp only [tabLe, tabCompare, getHost, getHostWith, ha2, ha3, hb2, hb3]

theorem charsLt_nil_right : ∀ a : List Char, charsLt a [] = false := by
  intro a; cases a <;> rfl

theorem charsLt_asymm :
    ∀ (a b : List Char), charsLt a b = true → charsLt b a = false := by
  intro a
  induction a with
  | nil =>
    intro b h
    cases b with
    | nil => simp [charsLt] at h
    | cons y ys => exact charsLt_nil_right (y :: ys)
  | cons x xs ih =>
    intro b h
    cases b with
    | nil => simp [charsLt] at h
    | cons y ys =>
      simp only [charsLt] at h ⊢
      by_cases h1 : x.toNat < y.toNat
      · rw [if_neg (by omega), if_pos h1]
      · by_cases h2 : y.toNat < x.toNat
        · rw [if_neg h1, if_pos h2] at h
          exact absurd h (by simp)
        · rw [if_neg h1, if_neg h2] at h
          rw [if_neg h2, if_neg h1]
          exact ih ys h

theorem charsLt_false_trans :
    ∀ (a b c : List Char), charsLt b a = false → charsLt c b = false →
      charsLt c a = false := by
  intro a
  induction a with
  | nil => intro b c _ _; exact charsLt_nil_right c
  | cons x xs ih =>
    intro b c hba hcb
    cases b with
    | nil => simp [charsLt] at hba
    | cons y ys =>
      cases c with
      | nil => simp [charsLt] at hcb
      | cons z zs =>
        simp only [charsLt] at hba hcb ⊢
        by_cases h1 : y.toNat < x.toNat
        · rw [if_pos h1] at hba; exact absurd hba (by simp)
        · by_cases h2 : z.toNat < y.toNat
          · rw [if_pos h2] at hcb; exact absurd hcb (by simp)
          · rw [if_neg (by omega)]
            by_cases h3 : x.toNat < z.toNat
            · rw [if_pos h3]
            · rw [if_neg h3]
              rw [if_neg h1, if_neg (by omega)] at hba
              rw [if_neg h2, if_neg (by omega)] at hcb
              exact ih ys zs hba hcb

theorem lcSimple_le_iff (x y : String) :
    lcSimple x y ≤ 0 ↔ charsLt y.toList x.toList = false := by
  unfold lcSimple
  cases hxy : charsLt x.toList y.toList with
  | true =>
    rw [charsLt_asymm _ _ hxy]
    decide
  | false =>
    cases hyx : charsLt y.toList x.toList with
    | true => decide
    | false => decide

theorem lcSimple_flip (a b : String) : lcSimple a b < 0 ↔ 0 < lcSimple b a := by
  unfold lcSimple
  cases hab : charsLt a.toList b.toList with
  | true =>
    rw [charsLt_asymm _ _ hab]
    decide
  | false =>
    cases hba : charsLt b.toList a.toList with
    | true => decide
    | false => decide

theorem lcSimple_lawful : LcLawful lcSimple := by
  refine ⟨?_, lcSimple_flip⟩
  intro a b c hab hbc
  rw [lcSimple_le_iff] at hab hbc ⊢
  exact charsLt_false_trans _ _ _ hab hbc

/-! ## Idempotence: the dedup stage

After a successful dedup pass, any two surviving tabs with distinct ids
sharing a nonempty normalized URL are both pinned; a list with that
property produces an empty closure plan, so a second dedup pass removes
nothing. -/

/-- No two distinct-id members share a nonempty normalized URL unless both
are pinned. -/
def NoUnpinnedDup (l : List Tab) : Prop :=
  ∀ a ∈ l, ∀ b ∈ l, a.id ≠ b.id → a.url ≠ "" → b.url ≠ "" →
    normalizeUrlForDeduplication a.url = normalizeUrlForDeduplication b.url →
    a.pinned = true ∧ b.pinned = true

theorem dedupPlan_eq_nil {tabs : List Tab}
    (h : ∀ e ∈ urlToTabs tabs, bucketClosure e.2 = []) : dedupPlan tabs = [] := by
  rw [List.eq_nil_iff_forall_not_mem]
  intro i hi
  obtain ⟨e, he, hie⟩ := mem_dedupPlan.1 hi
  rw [h e he] at hie
  cases hie

theorem nodup_ids_filter {l : List Tab} (hN : (l.map (·.id)).Nodup)
    (p : Tab → Bool) : ((l.filter p).map (·.id)).Nodup :=
  List.Nodup.sublist (List.Sublist.map (·.id) (List.filter_sublist l)) hN

theorem exists_other_id {g : List Tab} (hN : (g.map (·.id)).Nodup)
    (hlen : ¬ g.length ≤ 1) {t : Tab} (ht : t ∈ g) : ∃ u ∈ g, u.id ≠ t.id := by
  cases g with
  | nil => cases ht
  | cons x gs =>
    cases gs with
    | nil => simp at hlen
    | cons y rest =>
      simp only [List.map_cons, List.nodup_cons, List.mem_cons] at hN
      by_cases hxy : t.id = x.id
      · refine ⟨y, List.mem_cons.2 (Or.inr (List.mem_cons.2 (Or.inl rfl))), ?_⟩
        intro hyt
        exact hN.1 (Or.inl (hyt.trans hxy).symm)
      · exact ⟨x, List.mem_cons.2 (Or.inl rfl), fun hxt => hxy hxt.symm⟩

/-- A bucket list without unpinned duplicates yields an empty closure plan
(second-run dedup is a no-op). -/
theorem dedupPlan_nil_of_noDup {l : List Tab} (hN : (l.map (·.id)).Nodup)
    (h : NoUnpinnedDup l) : dedupPlan l = [] := by
  apply dedupPlan_eq_nil
  intro e he
  obtain ⟨k, g⟩ := e
  have hgf : g = l.filter (dedupPred k) := mem_urlToTabs_eq_filter he
  by_cases hlen : g.length ≤ 1
  · unfold bucketClosure
    rw [if_pos hlen]
  · have hgN : (g.map (·.id)).Nodup := by rw [hgf]; exact nodup_ids_filter hN _
    have hall : ∀ t ∈ g, t.pinned = true := by
      intro t htg
      obtain ⟨u, hug, hut⟩ := exists_other_id hgN hlen htg
      have htf := htg; rw [hgf] at htf
      have huf := hug; rw [hgf] at huf
      obtain ⟨htl, htp⟩ := List.mem_filter.1 htf
      obtain ⟨hul, hup⟩ := List.mem_filter.1 huf
      simp only [dedupPred, Bool.and_eq_true, decide_eq_true_eq] at htp hup
      exact (h t htl u hul (fun hid => hut hid.symm) htp.1 hup.1
        (htp.2.trans hup.2.symm)).1
    have hpin : 0 < (g.filter (·.pinned)).length := by
      rw [List.filter_eq_self.2 (fun t ht => hall t ht)]
      omega
    rw [bucketClosure_of_pinned hlen hpin]
    have hfe : g.filter (fun t => !t.pinned) = [] :=
      List.filter_eq_nil_iff.2 (fun t ht => by simp [hall t ht])
    rw [hfe]
    rfl

theorem bucketSurvivor_isSome {l : List Tab} (hne : l ≠ []) :
    ∃ s, bucketSurvivor l = some s := by
  unfold bucketSurvivor
  cases hf : l.find? (·.active) with
  | some s => exact ⟨s, rfl⟩
  | none =>
    cases hj : jsSort idxLe l with
    | nil =>
      have hlen := jsSort_length idxLe l
      rw [hj] at hlen
      exact absurd (List.length_eq_zero.1 hlen.symm) hne
    | cons x xs => exact ⟨x, by simp [hj]⟩

/-- The survivors of one dedup pass have no unpinned duplicates among
themselves. -/
theorem noUnpinnedDup_survivors {l : List Tab} (hN : (l.map (·.id)).Nodup) :
    ∀ a ∈ l, ∀ b ∈ l, a.id ∉ dedupPlan l → b.id ∉ dedupPlan l →
      a.id ≠ b.id → a.url ≠ "" → b.url ≠ "" →
      normalizeUrlForDeduplication a.url = normalizeUrlForDeduplication b.url →
      a.pinned = true ∧ b.pinned = true := by
  intro a ha b hb hadp hbdp hab hau hbu hnorm
  have hga : a ∈ l.filter (dedupPred (normalizeUrlForDeduplication a.url)) :=
    List.mem_filter.2 ⟨ha, by simp [dedupPred, hau]⟩
  have hgb : b ∈ l.filter (dedupPred (normalizeUrlForDeduplication a.url)) :=
    List.mem_filter.2 ⟨hb, by simp [dedupPred, hbu, hnorm.symm]⟩
  have hmem : (normalizeUrlForDeduplication a.url,
      l.filter (dedupPred (normalizeUrlForDeduplication a.url))) ∈ urlToTabs l := by
    have hlook := urlToTabs_lookup l (normalizeUrlForDeduplication a.url)
    unfold lookupBucket at hlook
    cases hf : (urlToTabs l).find?
        (fun e => e.1 = normalizeUrlForDeduplication a.url) with
    | none =>
      rw [hf] at hlook
      rw [← hlook] at hga
      cases hga
    | some e =>
      rw [hf] at hlook
      have he1 : e.1 = normalizeUrlForDeduplication a.url := by
        have := List.find?_some hf
        simpa using this
      have hem := List.mem_of_find?_eq_some hf
      have hee : e = (normalizeUrlForDeduplication a.url,
          l.filter (dedupPred (normalizeUrlForDeduplication a.url))) := by
        obtain ⟨e1, e2⟩ := e
        simp only at he1 hlook
        rw [he1, hlook]
      rw [← hee]
      exact hem
  have hlen : ¬ (l.filter (dedupPred (normalizeUrlForDeduplication a.url))).length ≤ 1 := by
    intro hle
    cases hlist : l.filter (dedupPred (normalizeUrlForDeduplication a.url)) with
    | nil => rw [hlist] at hga; cases hga
    | cons x rest =>
      rw [hlist] at hga hgb hle
      simp only [List.length_cons] at hle
      have hrest : rest = [] := List.length_eq_zero.1 (by omega)
      subst hrest
      have hax : a = x := by simpa using hga
      have hbx : b = x := by simpa using hgb
      exact hab (by rw [hax, hbx])
  have hma := mem_dedupPlan_bucket hN hmem hga
  have hmb := mem_dedupPlan_bucket hN hmem hgb
  by_cases hpin :
      0 < ((l.filter (dedupPred (normalizeUrlForDeduplication a.url))).filter (·.pinned)).length
  · have hcl := bucketClosure_of_pinned hlen hpin
    have hap : a.pinned = true := by
      cases hp : a.pinned with
      | true => rfl
      | false =>
        exfalso
        apply hadp
        apply hma.2
        rw [hcl]
        exact List.mem_map.2 ⟨a, List.mem_filter.2 ⟨hga, by simp [hp]⟩, rfl⟩
    have hbp : b.pinned = true := by
      cases hp : b.pinned with
      | true => rfl
      | false =>
        exfalso
        apply hbdp
        apply hmb.2
        rw [hcl]
        exact List.mem_map.2 ⟨b, List.mem_filter.2 ⟨hgb, by simp [hp]⟩, rfl⟩
    exact ⟨hap, hbp⟩
  · exfalso
    have hallun : ∀ t ∈ l.filter (dedupPred (normalizeUrlForDeduplication a.url)),
        t.pinned = false := by
      intro t ht
      cases hp : t.pinned with
      | false => rfl
      | true =>
        exfalso
        apply hpin
        have htm : t ∈ (l.filter
            (dedupPred (normalizeUrlForDeduplication a.url))).filter (·.pinned) :=
          List.mem_filter.2 ⟨ht, hp⟩
        exact List.length_pos.2 (fun hnil => by rw [hnil] at htm; cases htm)
    have hfilter_eq :
        (l.filter (dedupPred (normalizeUrlForDeduplication a.url))).filter
            (fun t => !t.pinned) =
          l.filter (dedupPred (normalizeUrlForDeduplication a.url)) :=
      List.filter_eq_self.2 (fun t ht => by simp [hallun t ht])
    obtain ⟨s, hs⟩ := bucketSurvivor_isSome
      (l := (l.filter (dedupPred (normalizeUrlForDeduplication a.url))).filter
        (fun t => !t.pinned))
      (by
        rw [hfilter_eq]
        intro hnil
        rw [hnil] at hga
        cases hga)
    have hcl := bucketClosure_of_survivor hlen hpin hs
    have haid : a.id = s.id := by
      by_contra hane
      apply hadp
      apply hma.2
      rw [hcl]
      refine List.mem_map.2 ⟨a, List.mem_filter.2 ⟨?_, by simp [hane]⟩, rfl⟩
      rw [hfilter_eq]
      exact hga
    have hbid : b.id = s.id := by
      by_contra hbne
      apply hbdp
      apply hmb.2
      rw [hcl]
      refine List.mem_map.2 ⟨b, List.mem_filter.2 ⟨?_, by simp [hbne]⟩, rfl⟩
      rw [hfilter_eq]
      exact hgb
    exact hab (haid.trans hbid.symm)

theorem forall₂_map_eq {α β : Type _} {R : α → α → Prop} {f : α → β}
    (hf : ∀ a b, R a b → f a = f b) :
    ∀ {l l' : List α}, List.Forall₂ R l l' → l.map f = l'.map f := by
  intro l l' h
  induction h with
  | nil => rfl
  | cons hab _ ih => simp only [List.map_cons, hf _ _ hab, ih]

theorem queryTabs_ids (w : Window) :
    (queryTabs w).map (·.id) = w.tabs.map (·.id) :=
  forall₂_map_eq (fun a b (hab : eqMod a b) => hab.1) (queryTabs_forall₂ w)

/-- With no failures, the dedup stage filters the stored tabs by the
closure plan computed over the snapshot (when the plan is empty, the
filter keeps everything). -/
theorem dedupStage_noFail_win (env : Env) (w : Window)
    (hdq : env.dedupQueryFail = false) (hfail : ∀ n, env.fail n = false) :
    (dedupStage env w).win =
      { w with tabs := w.tabs.filter (fun t => !(decide (t.id ∈ dedupPlan (queryTabs w)))) } := by
  unfold dedupStage removeDuplicateTabsExec
  rw [if_neg (by simp [hdq])]
  by_cases hc : 0 < (dedupPlan (queryTabs w)).length
  · rw [if_pos hc]
    show (if (!env.fail 0) = true then
        applyOp w (Op.remove (dedupPlan (queryTabs w))) else w) = _
    rw [hfail 0]
    rfl
  · rw [if_neg hc]
    show w = _
    have hnil : dedupPlan (queryTabs w) = [] := by
      cases hd : dedupPlan (queryTabs w) with
      | nil => rfl
      | cons x xs => rw [hd] at hc; simp at hc
    rw [hnil]
    cases w with
    | mk tabs groups => simp

theorem noUnpinnedDup_dedupStage (env : Env) (w : Window)
    (hN : (w.tabs.map (·.id)).Nodup)
    (hdq : env.dedupQueryFail = false) (hfail : ∀ n, env.fail n = false) :
    NoUnpinnedDup (dedupStage env w).win.tabs := by
  have hwin := dedupStage_noFail_win env w hdq hfail
  have hqN : ((queryTabs w).map (·.id)).Nodup := by
    rw [queryTabs_ids]; exact hN
  intro a ha b hb hab hau hbu hnorm
  rw [hwin] at ha hb
  simp only at ha hb
  obtain ⟨hal, hanp⟩ := List.mem_filter.1 ha
  obtain ⟨hbl, hbnp⟩ := List.mem_filter.1 hb
  obtain ⟨a0, ha0, ha0e⟩ := forall₂_mem_right (queryTabs_forall₂ w) a hal
  obtain ⟨b0, hb0, hb0e⟩ := forall₂_mem_right (queryTabs_forall₂ w) b hbl
  obtain ⟨ha1, ha2, _, ha4, _, _⟩ := ha0e
  obtain ⟨hb1, hb2, _, hb4, _, _⟩ := hb0e
  have hadp : a0.id ∉ dedupPlan (queryTabs w) := by
    rw [ha1]
    intro hmem
    rw [decide_eq_true hmem] at hanp
    exact Bool.noConfusion hanp
  have hbdp : b0.id ∉ dedupPlan (queryTabs w) := by
    rw [hb1]
    intro hmem
    rw [decide_eq_true hmem] at hbnp
    exact Bool.noConfusion hbnp
  have := noUnpinnedDup_survivors hqN a0 ha0 b0 hb0 hadp hbdp
    (by rw [ha1, hb1]; exact hab) (by rw [ha2]; exact hau)
    (by rw [hb2]; exact hbu) (by rw [ha2, hb2]; exact hnorm)
  exact ⟨by rw [← ha4]; exact this.1, by rw [← hb4]; exact this.2⟩

/-- A list whose members all correspond (in id, url and pinned state) to
members of a list without unpinned duplicates also has none. -/
theorem noUnpinnedDup_of_corr {l l' : List Tab}
    (hc : ∀ a' ∈ l', ∃ a ∈ l, a'.id = a.id ∧ a'.url = a.url ∧ a'.pinned = a.pinned)
    (h : NoUnpinnedDup l) : NoUnpinnedDup l' := by
  intro a' ha' b' hb' hid hau hbu hnorm
  obtain ⟨a, ha, ha1, ha2, ha3⟩ := hc a' ha'
  obtain ⟨b, hb, hb1, hb2, hb3⟩ := hc b' hb'
  have hh := h a ha b hb (by rw [← ha1, ← hb1]; exact hid)
    (by rw [← ha2]; exact hau) (by rw [← hb2]; exact hbu)
    (by rw [← ha2, ← hb2]; exact hnorm)
  exact ⟨by rw [ha3]; exact hh.1, by rw [hb3]; exact hh.2⟩

/-- A dedup pass over a window without unpinned duplicates (with duplicate
free ids) leaves the execution state untouched. -/
theorem removeDuplicateTabsExec_noDup (env : Env) (s : Exec)
    (hN : (s.win.tabs.map (·.id)).Nodup) (h : NoUnpinnedDup s.win.tabs) :
    removeDuplicateTabsExec env s = s := by
  unfold removeDuplicateTabsExec
  by_cases hq : env.dedupQueryFail = true
  · rw [if_pos hq]
  · rw [if_neg hq]
    have hqN : ((queryTabs s.win).map (·.id)).Nodup := by
      rw [queryTabs_ids]; exact hN
    have hqD : NoUnpinnedDup (queryTabs s.win) := by
      refine noUnpinnedDup_of_corr (l := s.win.tabs) ?_ h
      intro a' ha'
      obtain ⟨a, ha, hae⟩ := queryTabs_mem ha'
      exact ⟨a, ha, hae.1, hae.2.1, hae.2.2.2.1⟩
    show (if 0 < (dedupPlan (queryTabs s.win)).length then
        (attempt env.fail s (Op.remove (dedupPlan (queryTabs s.win)))).1 else s) = s
    rw [dedupPlan_nil_of_noDup hqN hqD]
    simp

/-! ## Idempotence: exact state of a failure-free move sequence -/

theorem eraseIdx_append_ge {α : Type _} :
    ∀ (pre suf : List α) (n : Nat), pre.length ≤ n →
      (pre ++ suf).eraseIdx n = pre ++ suf.eraseIdx (n - pre.length) := by
  intro pre
  induction pre with
  | nil => intro suf n _; simp
  | cons p ps ih =>
    intro suf n hn
    cases n with
    | zero => simp at hn
    | succ m =>
      have hm : ps.length ≤ m := Nat.le_of_succ_le_succ hn
      have hn2 : m + 1 - (p :: ps).length = m - ps.length := by
        simp only [List.length_cons]; omega
      simp only [List.cons_append, List.eraseIdx_cons_succ, ih suf m hm, hn2]

theorem find?_filter_of_imp {α : Type _} {p q : α → Bool}
    (h : ∀ a, p a = true → q a = true) :
    ∀ l : List α, (l.filter q).find? p = l.find? p := by
  intro l
  induction l with
  | nil => rfl
  | cons x xs ih =>
    by_cases hq : q x = true
    · simp only [List.filter_cons, hq, if_true]
      by_cases hp : p x = true
      · rw [List.find?_cons_of_pos _ hp, List.find?_cons_of_pos _ hp]
      · rw [List.find?_cons_of_neg _ hp, List.find?_cons_of_neg _ hp, ih]
    · have hp : ¬ p x = true := fun hpx => hq (h x hpx)
      simp only [List.filter_cons, hq, Bool.false_eq_true, if_false]
      rw [List.find?_cons_of_neg _ hp, ih]

theorem find?_eq_of_mem_nodup {l : List Tab} (hN : (l.map (·.id)).Nodup)
    {r : Tab} (hr : r ∈ l) {i : Nat} (hid : r.id = i) :
    l.find? (fun x => decide (x.id = i)) = some r := by
  induction l with
  | nil => cases hr
  | cons x xs ih =>
    simp only [List.map_cons, List.nodup_cons] at hN
    rcases List.mem_cons.1 hr with rfl | hrx
    · rw [List.find?_cons_of_pos _ (by simp [hid])]
    · have hxne : ¬ x.id = i := by
        intro hxi
        exact hN.1 (List.mem_map.2 ⟨r, hrx, hid.trans hxi.symm⟩)
      rw [List.find?_cons_of_neg _ (by simp [hxne])]
      exact ih hN.2 hrx

theorem findIdx?_cons_zero {α : Type _} {p : α → Bool} {x : α} {xs : List α} :
    List.findIdx? p (x :: xs) =
      if p x = true then some 0 else (List.findIdx? p xs).map (fun i => i + 1) := by
  rw [List.findIdx?_cons]
  by_cases h : p x = true
  · rw [if_pos h, if_pos h]
  · rw [if_neg h, if_neg h, List.findIdx?_succ]

/-- In a list with duplicate-free ids containing a record for `tid`, the
source's `findIndex`, indexing and `eraseIdx` pattern locates exactly that
record and erasing it is filtering it out. -/
theorem find_erase_spec :
    ∀ (rest : List Tab) (tid : Nat), ((rest.map (·.id)).Nodup) →
      ∀ t ∈ rest, t.id = tid →
      ∃ j, List.findIdx? (fun r => decide (r.id = tid)) rest = some j ∧
        rest[j]? = some t ∧
        rest.eraseIdx j = rest.filter (fun r => !(decide (r.id = tid))) := by
  intro rest
  induction rest with
  | nil => intro tid _ t ht; cases ht
  | cons r rs ih =>
    intro tid hN t ht htid
    simp only [List.map_cons, List.nodup_cons] at hN
    by_cases hr : r.id = tid
    · have htr : t = r := by
        rcases List.mem_cons.1 ht with rfl | htrs
        · rfl
        · exact absurd (List.mem_map.2 ⟨t, htrs, htid.trans hr.symm⟩) hN.1
      refine ⟨0, ?_, ?_, ?_⟩
      · rw [findIdx?_cons_zero, if_pos (by simp [hr])]
      · rw [htr]; simp
      · show rs = _
        rw [List.filter_cons, if_neg (by simp [hr])]
        refine (List.filter_eq_self.2 ?_).symm
        intro u hu
        have hune : u.id ≠ tid := by
          intro hui
          exact hN.1 (List.mem_map.2 ⟨u, hu, hui.trans hr.symm⟩)
        simp [hune]
    · have htrs : t ∈ rs := by
        rcases List.mem_cons.1 ht with rfl | h'
        · exact absurd htid hr
        · exact h'
      obtain ⟨j, hj, hget, herase⟩ := ih tid hN.2 t htrs htid
      refine ⟨j + 1, ?_, ?_, ?_⟩
      · rw [findIdx?_cons_zero, if_neg (by simp [hr]), hj]
        rfl
      · rw [List.getElem?_cons_succ]; exact hget
      · rw [List.eraseIdx_cons_succ, herase, List.filter_cons, if_pos (by simp [hr])]

/-- Exact effect of a successful `tabs.move` when the target record lives in
the suffix after an untouched prefix: the record jumps to the head of the
suffix. -/
theorem applyMove_found {pre rest : List Tab} {w : Window} {tid : Nat} {t : Tab}
    (hsplit : w.tabs = pre ++ rest)
    (hpre : ∀ p ∈ pre, p.id ≠ tid)
    (hN : (rest.map (·.id)).Nodup)
    (ht : t ∈ rest) (htid : t.id = tid) :
    applyMove w tid pre.length =
      { w with tabs := pre ++ t :: rest.filter (fun r => !(decide (r.id = tid))) } := by
  obtain ⟨j, hj, hget, herase⟩ := find_erase_spec rest tid hN t ht htid
  have hpnone : List.findIdx? (fun r => decide (r.id = tid)) pre = none :=
    List.findIdx?_eq_none_iff.2 (fun p hp => by simp [hpre p hp])
  have hfind : List.findIdx? (fun r => decide (r.id = tid)) (pre ++ rest) =
      some (j + pre.length) := by
    rw [List.findIdx?_append, hpnone, hj]
    rfl
  have hgetfull : (pre ++ rest)[j + pre.length]? = some t := by
    rw [List.getElem?_append_right (by omega)]
    have hsub : j + pre.length - pre.length = j := by omega
    rw [hsub]
    exact hget
  have herasefull : (pre ++ rest).eraseIdx (j + pre.length) =
      pre ++ rest.filter (fun r => !(decide (r.id = tid))) := by
    rw [eraseIdx_append_ge pre rest _ (by omega)]
    have hsub : j + pre.length - pre.length = j := by omega
    rw [hsub, herase]
  unfold applyMove
  rw [hsplit, hfind]
  dsimp only
  rw [hgetfull]
  dsimp only
  rw [herasefull]
  have hmin : min pre.length
      (pre ++ rest.filter (fun r => !(decide (r.id = tid)))).length = pre.length :=
    Nat.min_eq_left (by rw [List.length_append]; exact Nat.le_add_right _ _)
  rw [hmin, insertIdx_append_ge pre _ pre.length t (le_refl _), Nat.sub_self,
    List.insertIdx_zero]

/-- A call that the oracle lets succeed. -/
theorem attempt_noFail {fail : Nat → Bool} (hfail : ∀ n, fail n = false)
    (s : Exec) (op : Op) :
    attempt fail s op =
      ({ win := applyOp s.win op, trace := s.trace ++ [op],
         calls := s.calls + 1 }, true) := by
  unfold attempt
  rw [hfail s.calls]
  rfl

theorem moveSeq_cons_step (fail : Nat → Bool) (s : Exec) (tid : Nat)
    (ids : List Nat) (idx : Nat) :
    moveSeq fail s (tid :: ids) idx =
      moveSeq fail (attempt fail s (Op.move tid idx)).1 ids
        (if (attempt fail s (Op.move tid idx)).2 then idx + 1 else idx) := rfl

/-- Exact final state of a failure-free move sequence: the listed tabs'
stored records line up behind the prefix in list order, followed by the
unlisted remainder in its old relative order. -/
theorem moveSeq_noFail_state {fail : Nat → Bool} (hfail : ∀ n, fail n = false) :
    ∀ (ts : List Tab) (s : Exec) (pre rest : List Tab),
      s.win.tabs = pre ++ rest →
      ((rest.map (·.id)).Nodup) →
      (∀ p ∈ pre, ∀ t ∈ ts, p.id ≠ t.id) →
      ((ts.map (·.id)).Nodup) →
      (∀ t ∈ ts, ∃ r ∈ rest, r.id = t.id) →
      (moveSeq fail s (ts.map (·.id)) pre.length).1.win.tabs =
          pre ++ ts.filterMap (fun t => rest.find? (fun r => decide (r.id = t.id))) ++
            rest.filter (fun r => !(decide (r.id ∈ ts.map (·.id)))) ∧
        (moveSeq fail s (ts.map (·.id)) pre.length).1.win.groups = s.win.groups ∧
        (moveSeq fail s (ts.map (·.id)) pre.length).2 = pre.length + ts.length := by
  intro ts
  induction ts with
  | nil =>
    intro s pre rest hsplit hN hpre hts hcov
    refine ⟨?_, rfl, rfl⟩
    show s.win.tabs = _
    rw [hsplit]
    simp
  | cons t ts' ih =>
    intro s pre rest hsplit hN hpre hts hcov
    obtain ⟨r0, hr0mem, hr0id⟩ := hcov t (by simp)
    have happly := applyMove_found (t := r0) hsplit
      (fun p hp hpid => hpre p hp t (by simp) hpid) hN hr0mem hr0id
    simp only [List.map_cons, List.nodup_cons] at hts
    have htne : ∀ u ∈ ts', t.id ≠ u.id := by
      intro u hu hte
      exact hts.1 (List.mem_map.2 ⟨u, hu, hte.symm⟩)
    have hsplit' :
        (attempt fail s (Op.move t.id pre.length)).1.win.tabs =
          (pre ++ [r0]) ++ rest.filter (fun r => !(decide (r.id = t.id))) := by
      rw [attempt_noFail hfail]
      show (applyOp s.win (Op.move t.id pre.length)).tabs = _
      show (applyMove s.win t.id pre.length).tabs = _
      rw [happly]
      simp
    have hN' := nodup_ids_filter hN (fun r => !(decide (r.id = t.id)))
    have hpre' : ∀ p ∈ pre ++ [r0], ∀ u ∈ ts', p.id ≠ u.id := by
      intro p hp u hu
      rcases List.mem_append.1 hp with hp' | hp'
      · exact hpre p hp' u (by simp [hu])
      · have hpr : p = r0 := by simpa using hp'
        rw [hpr, hr0id]
        exact htne u hu
    have hcov' : ∀ u ∈ ts',
        ∃ r ∈ rest.filter (fun r => !(decide (r.id = t.id))), r.id = u.id := by
      intro u hu
      obtain ⟨r, hr, hrid⟩ := hcov u (by simp [hu])
      refine ⟨r, List.mem_filter.2 ⟨hr, ?_⟩, hrid⟩
      have : r.id ≠ t.id := by rw [hrid]; exact fun h => htne u hu h.symm
      simp [this]
    have hrec := ih (attempt fail s (Op.move t.id pre.length)).1 (pre ++ [r0])
      (rest.filter (fun r => !(decide (r.id = t.id)))) hsplit' hN' hpre' hts.2 hcov'
    have hlen : (pre ++ [r0]).length = pre.length + 1 := by simp
    rw [hlen] at hrec
    have hok : (attempt fail s (Op.move t.id pre.length)).2 = true := by
      rw [attempt_noFail hfail]
    have hstep : (moveSeq fail s ((t :: ts').map (·.id)) pre.length) =
        moveSeq fail (attempt fail s (Op.move t.id pre.length)).1
          (ts'.map (·.id)) (pre.length + 1) := by
      show moveSeq fail s (t.id :: ts'.map (·.id)) pre.length = _
      rw [moveSeq_cons_step, if_pos hok]
    rw [hstep]
    refine ⟨?_, ?_, ?_⟩
    · rw [hrec.1]
      have hhead : rest.find? (fun r => decide (r.id = t.id)) = some r0 :=
        find?_eq_of_mem_nodup hN hr0mem hr0id
      have hmapeq : ts'.filterMap (fun u =>
          (rest.filter (fun r => !(decide (r.id = t.id)))).find?
            (fun r => decide (r.id = u.id))) =
        ts'.filterMap (fun u => rest.find? (fun r => decide (r.id = u.id))) := by
        refine List.filterMap_congr ?_
        intro u hu
        refine find?_filter_of_imp ?_ rest
        intro r hr
        have hru : r.id = u.id := by simpa using hr
        have : r.id ≠ t.id := by rw [hru]; exact fun h => htne u hu h.symm
        simp [this]
      have hfilt : (rest.filter (fun r => !(decide (r.id = t.id)))).filter
            (fun r => !(decide (r.id ∈ ts'.map (·.id)))) =
          rest.filter (fun r => !(decide (r.id ∈ t.id :: ts'.map (·.id)))) := by
        rw [List.filter_filter]
        refine List.filter_congr ?_
        intro r _
        by_cases h1 : r.id = t.id
        · simp [h1]
        · by_cases h2 : r.id ∈ ts'.map (·.id)
          · simp [h1, h2]
          · simp [h1, h2]
      rw [hmapeq, hfilt]
      rw [List.filterMap_cons_some
        (f := fun u : Tab => List.find? (fun r => decide (r.id = u.id)) rest) hhead]
      simp [List.append_assoc]
    · rw [hrec.2.1]
      rw [attempt_noFail hfail]
      show (applyMove s.win t.id pre.length).groups = s.win.groups
      rw [happly]
    · rw [hrec.2.2]
      simp only [List.length_cons]
      omega

/-! ## Idempotence: exact state of a failure-free group loop -/

/-- Re-applying a group id that every targeted tab already carries does not
change the window. -/
theorem assignGroup_noop {w : Window} {ids : List Nat} {gid : Option Nat}
    (h : ∀ t ∈ w.tabs, t.id ∈ ids → t.groupId = gid) :
    assignGroup w ids gid = w := by
  unfold assignGroup
  have hcongr := List.map_congr_left (l := w.tabs)
    (f := fun t => if t.id ∈ ids then { t with groupId := gid } else t)
    (g := fun t => t)
    (fun t ht => by
      dsimp only
      by_cases hmem : t.id ∈ ids
      · rw [if_pos hmem, ← h t ht hmem]
      · rw [if_neg hmem])
  rw [hcongr, List.map_id']

/-- The id sequence of looked-up records equals the id sequence of the
targets when every target has a stored record. -/
theorem filterMap_find_ids {rest : List Tab} (hN : (rest.map (·.id)).Nodup) :
    ∀ {ts : List Tab}, (∀ t ∈ ts, ∃ r ∈ rest, r.id = t.id) →
      (ts.filterMap (fun t =>
          rest.find? (fun r => decide (r.id = t.id)))).map (·.id) =
        ts.map (·.id) := by
  intro ts
  induction ts with
  | nil => intro _; rfl
  | cons t ts' ih =>
    intro hcov
    obtain ⟨r, hr, hrid⟩ := hcov t (by simp)
    rw [List.filterMap_cons_some
      (f := fun u : Tab => List.find? (fun r => decide (r.id = u.id)) rest)
      (find?_eq_of_mem_nodup hN hr hrid)]
    simp only [List.map_cons]
    rw [ih (fun u hu => hcov u (by simp [hu])), hrid]

theorem mem_filterMap_find {rest ts : List Tab} {x : Tab}
    (hx : x ∈ ts.filterMap (fun t => rest.find? (fun r => decide (r.id = t.id)))) :
    x ∈ rest ∧ ∃ t ∈ ts, x.id = t.id := by
  obtain ⟨t, ht, hfind⟩ := List.mem_filterMap.1 hx
  refine ⟨List.mem_of_find?_eq_some hfind, t, ht, ?_⟩
  have := List.find?_some hfind
  simpa using this

/-- Exact final state of the failure-free group loop: the buckets' stored
records line up bucket by bucket behind the prefix, the leftover keeps its
order, the group memberships are already correct so the `tabs.group` calls
do not change the window, and groups are untouched. -/
theorem groupLoop_noFail_state {fail : Nat → Bool} (hfail : ∀ n, fail n = false) :
    ∀ (entries : List (Group × List Tab)) (s : Exec) (pre rest : List Tab),
      s.win.tabs = pre ++ rest →
      ((rest.map (·.id)).Nodup) →
      (∀ p ∈ pre, ∀ e ∈ entries, ∀ t ∈ e.2, p.id ≠ t.id) →
      (((entries.flatMap (fun e => e.2)).map (·.id)).Nodup) →
      (∀ e ∈ entries, ∀ t ∈ e.2, ∃ r ∈ rest, r.id = t.id) →
      (∀ e ∈ entries, ∀ r ∈ rest, ∀ t ∈ e.2, r.id = t.id → r.groupId = some e.1.id) →
      (groupLoop fail s entries pre.length).1.win.tabs =
          pre ++ (entries.flatMap (fun e => e.2)).filterMap
              (fun t => rest.find? (fun r => decide (r.id = t.id))) ++
            rest.filter (fun r =>
              !(decide (r.id ∈ (entries.flatMap (fun e => e.2)).map (·.id)))) ∧
        (groupLoop fail s entries pre.length).1.win.groups = s.win.groups ∧
        (groupLoop fail s entries pre.length).2 =
          pre.length + (entries.flatMap (fun e => e.2)).length := by
  intro entries
  induction entries with
  | nil =>
    intro s pre rest hsplit hN hpre hflat hcov hgrp
    refine ⟨?_, rfl, rfl⟩
    show s.win.tabs = _
    rw [hsplit]
    simp
  | cons e es ih =>
    obtain ⟨g, tabs⟩ := e
    intro s pre rest hsplit hN hpre hflat hcov hgrp
    by_cases htabs : tabs.isEmpty = true
    · have htnil : tabs = [] := by
        cases tabs
        · rfl
        · simp [List.isEmpty] at htabs
      subst htnil
      rw [groupLoop, if_pos htabs]
      have hres := ih s pre rest hsplit hN
        (fun p hp e' he' t ht => hpre p hp e' (by simp [he']) t ht)
        (by simpa using hflat)
        (fun e' he' t ht => hcov e' (by simp [he']) t ht)
        (fun e' he' r hr t ht hid => hgrp e' (by simp [he']) r hr t ht hid)
      simpa using hres
    · have hne : tabs.isEmpty = false := by
        cases h' : tabs.isEmpty
        · rfl
        · exact absurd h' htabs
      have hpre1 : ∀ p ∈ pre, ∀ t ∈ tabs, p.id ≠ t.id :=
        fun p hp t ht => hpre p hp (g, tabs) (by simp) t ht
      have hflat2 : ((tabs.map (·.id) ++
          (es.flatMap (fun e => e.2)).map (·.id)).Nodup) := by
        have : ((tabs ++ es.flatMap (fun e => e.2)).map (·.id)).Nodup := by
          simpa using hflat
        rw [List.map_append] at this
        exact this
      have hsplit3 := List.nodup_append.1 hflat2
      have hcov1 : ∀ t ∈ tabs, ∃ r ∈ rest, r.id = t.id :=
        fun t ht => hcov (g, tabs) (by simp) t ht
      have hms := moveSeq_noFail_state hfail tabs s pre rest hsplit hN hpre1
        hsplit3.1 hcov1
      have hLgids := filterMap_find_ids hN hcov1
      have hLglen : (tabs.filterMap (fun t =>
          rest.find? (fun r => decide (r.id = t.id)))).length = tabs.length := by
        have := congrArg List.length hLgids
        simpa using this
      have hgnoop : assignGroup (moveSeq fail s (tabs.map (·.id)) pre.length).1.win
          (tabs.map (·.id)) (some g.id) =
          (moveSeq fail s (tabs.map (·.id)) pre.length).1.win := by
        apply assignGroup_noop
        intro x hx hxid
        rw [hms.1] at hx
        rcases List.mem_append.1 hx with hx' | hx'
        · rcases List.mem_append.1 hx' with hxp | hxL
          · exfalso
            obtain ⟨t, ht, hxt⟩ := List.mem_map.1 hxid
            exact hpre1 x hxp t ht hxt.symm
          · obtain ⟨hxrest, t, ht, hxid'⟩ := mem_filterMap_find hxL
            exact hgrp (g, tabs) (by simp) x hxrest t ht hxid'
        · exfalso
          have hmem := (List.mem_filter.1 hx').2
          simp [hxid] at hmem
      have hok : (attempt fail (moveSeq fail s (tabs.map (·.id)) pre.length).1
          (Op.group (tabs.map (·.id)) g.id)).2 = true := by
        rw [attempt_noFail hfail]
      have hgoal : groupLoop fail s ((g, tabs) :: es) pre.length =
          groupLoop fail
            (attempt fail (moveSeq fail s (tabs.map (·.id)) pre.length).1
              (Op.group (tabs.map (·.id)) g.id)).1 es
            (moveSeq fail s (tabs.map (·.id)) pre.length).2 := by
        rw [groupLoop]
        simp only [hne, Bool.false_eq_true, if_false]
        rw [if_pos hok]
      have hwin2 : (attempt fail (moveSeq fail s (tabs.map (·.id)) pre.length).1
          (Op.group (tabs.map (·.id)) g.id)).1.win =
          (moveSeq fail s (tabs.map (·.id)) pre.length).1.win := by
        rw [attempt_noFail hfail]
        exact hgnoop
      have hsplit2 : (attempt fail (moveSeq fail s (tabs.map (·.id)) pre.length).1
          (Op.group (tabs.map (·.id)) g.id)).1.win.tabs =
          (pre ++ tabs.filterMap (fun t =>
            rest.find? (fun r => decide (r.id = t.id)))) ++
            rest.filter (fun r => !(decide (r.id ∈ tabs.map (·.id)))) := by
        rw [hwin2, hms.1]
      have hNF := nodup_ids_filter hN (fun r => !(decide (r.id ∈ tabs.map (·.id))))
      have hpre' : ∀ p ∈ pre ++ tabs.filterMap (fun t =>
          rest.find? (fun r => decide (r.id = t.id))),
          ∀ e' ∈ es, ∀ t ∈ e'.2, p.id ≠ t.id := by
        intro p hp e' he' t ht
        rcases List.mem_append.1 hp with hp' | hp'
        · exact hpre p hp' e' (by simp [he']) t ht
        · obtain ⟨hpr, t0, ht0, hpid⟩ := mem_filterMap_find hp'
          intro hpt
          have h1 : t0.id ∈ tabs.map (·.id) := List.mem_map.2 ⟨t0, ht0, rfl⟩
          have h2 : t.id ∈ (es.flatMap (fun e => e.2)).map (·.id) :=
            List.mem_map.2 ⟨t, List.mem_flatMap.2 ⟨e', he', ht⟩, rfl⟩
          have h3 : t0.id = t.id := by rw [← hpid, hpt]
          exact hsplit3.2.2 h1 (by rw [h3]; exact h2)
      have hcov' : ∀ e' ∈ es, ∀ t ∈ e'.2,
          ∃ r ∈ rest.filter (fun r => !(decide (r.id ∈ tabs.map (·.id)))),
            r.id = t.id := by
        intro e' he' t ht
        obtain ⟨r, hr, hrid⟩ := hcov e' (by simp [he']) t ht
        refine ⟨r, List.mem_filter.2 ⟨hr, ?_⟩, hrid⟩
        have ht2 : t.id ∈ (es.flatMap (fun e => e.2)).map (·.id) :=
          List.mem_map.2 ⟨t, List.mem_flatMap.2 ⟨e', he', ht⟩, rfl⟩
        have hnot : ¬ (r.id ∈ tabs.map (·.id)) := by
          intro hmem
          rw [hrid] at hmem
          exact hsplit3.2.2 hmem ht2
        simp [hnot]
      have hgrp' : ∀ e' ∈ es,
          ∀ r ∈ rest.filter (fun r => !(decide (r.id ∈ tabs.map (·.id)))),
          ∀ t ∈ e'.2, r.id = t.id → r.groupId = some e'.1.id := by
        intro e' he' r hr t ht hid
        exact hgrp e' (by simp [he']) r (List.mem_filter.1 hr).1 t ht hid
      have hihres := ih
        (attempt fail (moveSeq fail s (tabs.map (·.id)) pre.length).1
          (Op.group (tabs.map (·.id)) g.id)).1
        (pre ++ tabs.filterMap (fun t =>
          rest.find? (fun r => decide (r.id = t.id))))
        (rest.filter (fun r => !(decide (r.id ∈ tabs.map (·.id)))))
        hsplit2 hNF hpre' hsplit3.2.1 hcov' hgrp'
      have hidx : (moveSeq fail s (tabs.map (·.id)) pre.length).2 =
          (pre ++ tabs.filterMap (fun t =>
            rest.find? (fun r => decide (r.id = t.id)))).length := by
        rw [hms.2.2, List.length_append, hLglen]
      rw [hgoal, hidx]
      refine ⟨?_, ?_, ?_⟩
      · rw [hihres.1]
        have hmapeq : (es.flatMap (fun e => e.2)).filterMap
            (fun u => (rest.filter
              (fun r => !(decide (r.id ∈ tabs.map (·.id))))).find?
                (fun r => decide (r.id = u.id))) =
          (es.flatMap (fun e => e.2)).filterMap
            (fun u => rest.find? (fun r => decide (r.id = u.id))) := by
          refine List.filterMap_congr ?_
          intro u hu
          refine find?_filter_of_imp ?_ rest
          intro r hr
          have hru : r.id = u.id := by simpa using hr
          have hu2 : u.id ∈ (es.flatMap (fun e => e.2)).map (·.id) :=
            List.mem_map.2 ⟨u, hu, rfl⟩
          have hnot : ¬ (r.id ∈ tabs.map (·.id)) := by
            intro hmem
            rw [hru] at hmem
            exact hsplit3.2.2 hmem hu2
          simp [hnot]
        have hfilt : (rest.filter
              (fun r => !(decide (r.id ∈ tabs.map (·.id))))).filter
            (fun r => !(decide (r.id ∈ (es.flatMap (fun e => e.2)).map (·.id)))) =
          rest.filter (fun r => !(decide (r.id ∈ tabs.map (·.id) ++
            (es.flatMap (fun e => e.2)).map (·.id)))) := by
          rw [List.filter_filter]
          refine List.filter_congr ?_
          intro r _
          by_cases h1 : r.id ∈ tabs.map (·.id)
          · simp [h1]
          · by_cases h2 : r.id ∈ (es.flatMap (fun e => e.2)).map (·.id)
            · simp [h1, h2]
            · simp [h1, h2]
        rw [hmapeq, hfilt]
        have hpredeq : List.filter
            (fun r => !decide (r.id ∈ List.map (fun x => x.id) tabs ++
              List.map (fun x => x.id) (es.flatMap fun e => e.2))) rest =
          List.filter (fun r =>
            !decide (r.id ∈ List.map (fun x => x.id)
              (((g, tabs) :: es).flatMap fun e => e.2))) rest := by
          refine List.filter_congr ?_
          intro r _
          simp [List.flatMap_cons, List.map_append, List.mem_append]
        rw [hpredeq]
        simp [List.flatMap_cons, List.filterMap_append, List.map_append,
          List.append_assoc]
      · rw [hihres.2.1, hwin2, hms.2.1]
      · rw [hihres.2.2, List.length_append, hLglen]
        simp only [List.flatMap_cons, List.length_append]
        omega

/-! ## Idempotence: the bucket distribution as filters -/

/-- Membership test of group `gid`'s bucket in the distribution loop. -/
def bucketPred (gid : Nat) (t : Tab) : Bool :=
  !t.pinned && decide (t.groupId = some gid)

/-- Membership test of the ungrouped list in the distribution loop. -/
def ungroupedPred (gd : List (Nat × (Group × List Tab))) (t : Tab) : Bool :=
  !t.pinned && (match t.groupId with
    | some gid => !(hasKeyG gd gid)
    | none => true)

theorem hasKeyG_eq_mem :
    ∀ (m : List (Nat × (Group × List Tab))) (gid : Nat),
      hasKeyG m gid = decide (gid ∈ m.map Prod.fst) := by
  intro m
  induction m with
  | nil => intro gid; rfl
  | cons e rest ih =>
    intro gid
    by_cases hk : e.1 = gid
    · show ((e :: rest).find? (fun x => decide (x.1 = gid))).isSome = _
      rw [List.find?_cons_of_pos _ (by simp [hk])]
      simp [hk]
    · show ((e :: rest).find? (fun x => decide (x.1 = gid))).isSome = _
      rw [List.find?_cons_of_neg _ (by simp [hk])]
      show hasKeyG rest gid = _
      rw [ih gid, List.map_cons]
      rw [decide_eq_decide]
      constructor
      · intro h; exact List.mem_cons.2 (Or.inr h)
      · intro h
        rcases List.mem_cons.1 h with h' | h'
        · exact absurd h'.symm hk
        · exact h'

theorem map_form_keys (gd0 : List (Nat × (Group × List Tab)))
    (f : Nat × (Group × List Tab) → Group × List Tab) :
    ((gd0.map (fun e => (e.1, f e))).map Prod.fst) = gd0.map Prod.fst := by
  rw [List.map_map]
  rfl

theorem pushTabG_map_form (gid : Nat) (u : Tab)
    (B : Nat × (Group × List Tab) → List Tab) :
    ∀ (l : List (Nat × (Group × List Tab))), ((l.map Prod.fst).Nodup) →
      pushTabG gid u (l.map (fun e => (e.1, (e.2.1, B e)))) =
        l.map (fun e => (e.1, (e.2.1, if e.1 = gid then B e ++ [u] else B e))) := by
  intro l
  induction l with
  | nil => intro _; rfl
  | cons e rest ih =>
    intro hN
    obtain ⟨k, v⟩ := e
    simp only [List.map_cons, List.nodup_cons] at hN
    simp only [List.map_cons]
    by_cases hk : k = gid
    · simp only [pushTabG, hk, if_pos rfl, if_true]
      congr 1
      refine (List.map_congr_left ?_)
      intro e' he'
      have hne : ¬ e'.1 = gid := by
        intro heq
        apply hN.1
        rw [hk]
        exact List.mem_map.2 ⟨e', he', heq⟩
      rw [if_neg hne]
    · simp only [pushTabG]
      rw [if_neg hk, if_neg hk]
      congr 1
      exact ih hN.2

theorem setEntryG_append (gid : Nat) (v : Group × List Tab) :
    ∀ (m : List (Nat × (Group × List Tab))), (∀ e ∈ m, e.1 ≠ gid) →
      setEntryG gid v m = m ++ [(gid, v)] := by
  intro m
  induction m with
  | nil => intro _; rfl
  | cons e rest ih =>
    intro h
    obtain ⟨k, w⟩ := e
    have hk : ¬ k = gid := h (k, w) (by simp)
    simp only [setEntryG, if_neg hk, List.cons_append]
    rw [ih (fun e' he' => h e' (by simp [he']))]

theorem initGroupData_go :
    ∀ (gs : List Group) (acc : List (Nat × (Group × List Tab))),
      ((gs.map (·.id)).Nodup) → (∀ e ∈ acc, ∀ g ∈ gs, e.1 ≠ g.id) →
      gs.foldl (fun m g => setEntryG g.id (g, []) m) acc =
        acc ++ gs.map (fun g => (g.id, (g, []))) := by
  intro gs
  induction gs with
  | nil => intro acc _ _; simp
  | cons g gs' ih =>
    intro acc hN hdisj
    simp only [List.map_cons, List.nodup_cons] at hN
    simp only [List.foldl_cons]
    rw [setEntryG_append g.id (g, []) acc (fun e he => hdisj e he g (by simp))]
    rw [ih (acc ++ [(g.id, (g, []))]) hN.2 ?_]
    · simp
    · intro e he g' hg'
      rcases List.mem_append.1 he with he' | he'
      · exact hdisj e he' g' (by simp [hg'])
      · have : e = (g.id, (g, [])) := by simpa using he'
        rw [this]
        intro heq
        exact hN.1 (List.mem_map.2 ⟨g', hg', heq.symm⟩)

theorem initGroupData_map_form (groups : List Group)
    (hNg : ((groups.map (·.id)).Nodup)) :
    initGroupData groups = groups.map (fun g => (g.id, (g, ([] : List Tab)))) := by
  unfold initGroupData
  rw [initGroupData_go groups [] hNg (fun e he => absurd he (List.not_mem_nil e))]
  rfl

/-- The distribution loop over a well-keyed accumulator computes bucket and
ungrouped filters. -/
theorem distributeTabs_map_form (gd0 : List (Nat × (Group × List Tab)))
    (hN : ((gd0.map Prod.fst).Nodup)) :
    ∀ (tabs : List Tab) (B : Nat × (Group × List Tab) → List Tab) (u0 : List Tab),
      (tabs.foldl (fun acc tab =>
          if tab.pinned then acc
          else
            match tab.groupId with
            | some gid =>
              if hasKeyG acc.1 gid then (pushTabG gid tab acc.1, acc.2)
              else (acc.1, acc.2 ++ [tab])
            | none => (acc.1, acc.2 ++ [tab]))
        (gd0.map (fun e => (e.1, (e.2.1, B e))), u0)) =
        (gd0.map (fun e => (e.1, (e.2.1, B e ++ tabs.filter (bucketPred e.1)))),
         u0 ++ tabs.filter (ungroupedPred gd0)) := by
  intro tabs
  induction tabs with
  | nil =>
    intro B u0
    simp only [List.foldl_nil, List.filter_nil, List.append_nil]
  | cons t ts ih =>
    intro B u0
    simp only [List.foldl_cons]
    by_cases hp : t.pinned = true
    · rw [if_pos hp, ih B u0]
      have hb : ∀ gid, bucketPred gid t = false := by
        intro gid; simp [bucketPred, hp]
      have hu : ungroupedPred gd0 t = false := by simp [ungroupedPred, hp]
      simp only [List.filter_cons, hb, hu, Bool.false_eq_true, if_false]
    · have hp' : t.pinned = false := by
        cases h' : t.pinned
        · rfl
        · exact absurd h' hp
      rw [if_neg hp]
      cases hg : t.groupId with
      | none =>
        show (ts.foldl _ (gd0.map (fun e => (e.1, (e.2.1, B e))), u0 ++ [t])) = _
        rw [ih B (u0 ++ [t])]
        have hb : ∀ gid, bucketPred gid t = false := by
          intro gid; simp [bucketPred, hg]
        have hu : ungroupedPred gd0 t = true := by
          simp [ungroupedPred, hg, hp']
        simp only [List.filter_cons, hb, hu, Bool.false_eq_true, if_false, if_true]
        rw [List.append_assoc]
        rfl
      | some gid =>
        by_cases hk : hasKeyG gd0 gid = true
        · have hkm : hasKeyG (gd0.map (fun e => (e.1, (e.2.1, B e)))) gid = true := by
            rw [hasKeyG_eq_mem, map_form_keys, ← hasKeyG_eq_mem]
            exact hk
          show (ts.foldl _
            (if hasKeyG (gd0.map (fun e => (e.1, (e.2.1, B e)))) gid then
              (pushTabG gid t (gd0.map (fun e => (e.1, (e.2.1, B e)))),
               u0)
             else ((gd0.map (fun e => (e.1, (e.2.1, B e)))), u0 ++ [t]))) = _
          rw [if_pos hkm, pushTabG_map_form gid t B gd0 hN]
          have hrec := ih (fun e => if e.1 = gid then B e ++ [t] else B e) u0
          rw [hrec]
          have hu : ungroupedPred gd0 t = false := by
            simp [ungroupedPred, hg, hp', hk]
          simp only [List.filter_cons, hu, Bool.false_eq_true, if_false]
          congr 1
          refine List.map_congr_left ?_
          intro e he
          by_cases he1 : e.1 = gid
          · have hbt : bucketPred e.1 t = true := by
              simp [bucketPred, hg, hp', he1]
            rw [if_pos he1]
            simp only [List.filter_cons, hbt, if_true]
            rw [List.append_assoc]
            rfl
          · have hne : ¬ gid = e.1 := fun h => he1 h.symm
            have hbt : bucketPred e.1 t = false := by
              simp [bucketPred, hg, hp', hne]
            rw [if_neg he1]
            simp only [List.filter_cons, hbt, Bool.false_eq_true, if_false]
        · have hkf : hasKeyG gd0 gid = false := by
            cases h' : hasKeyG gd0 gid
            · rfl
            · exact absurd h' hk
          have hkm : hasKeyG (gd0.map (fun e => (e.1, (e.2.1, B e)))) gid = false := by
            rw [hasKeyG_eq_mem, map_form_keys, ← hasKeyG_eq_mem]
            exact hkf
          show (ts.foldl _
            (if hasKeyG (gd0.map (fun e => (e.1, (e.2.1, B e)))) gid then
              (pushTabG gid t (gd0.map (fun e => (e.1, (e.2.1, B e)))),
               u0)
             else ((gd0.map (fun e => (e.1, (e.2.1, B e)))), u0 ++ [t]))) = _
          rw [if_neg (by simp [hkm]), ih B (u0 ++ [t])]
          have hu : ungroupedPred gd0 t = true := by
            simp [ungroupedPred, hg, hp', hkf]
          refine congrArg₂ Prod.mk ?_ ?_
          · refine List.map_congr_left ?_
            intro e he
            have hek : e.1 ∈ gd0.map Prod.fst := List.mem_map.2 ⟨e, he, rfl⟩
            have hbt : bucketPred e.1 t = false := by
              by_cases he1 : e.1 = gid
              · exfalso
                rw [hasKeyG_eq_mem] at hkf
                rw [he1] at hek
                simp [hek] at hkf
              · have hne : ¬ gid = e.1 := fun h => he1 h.symm
                simp [bucketPred, hg, hp', hne]
            simp only [List.filter_cons, hbt, Bool.false_eq_true, if_false]
          · simp [List.filter_cons, hu, List.append_assoc]

/-! ## Idempotence: transfer infrastructure -/

theorem forall₂_eqMod_symm :
    ∀ {l l' : List Tab}, List.Forall₂ eqMod l l' → List.Forall₂ eqMod l' l := by
  intro l l' h
  induction h with
  | nil => exact List.Forall₂.nil
  | cons hab _ ih => exact List.Forall₂.cons (eqMod_symm hab) ih

theorem forall₂_eqMod_trans :
    ∀ {l₁ l₂ l₃ : List Tab}, List.Forall₂ eqMod l₁ l₂ → List.Forall₂ eqMod l₂ l₃ →
      List.Forall₂ eqMod l₁ l₃ := by
  intro l₁ l₂ l₃ h
  induction h generalizing l₃ with
  | nil =>
    intro h2
    cases h2
    exact List.Forall₂.nil
  | cons hab htail ih =>
    intro h2
    cases h2 with
    | cons hbc htail2 => exact List.Forall₂.cons (eqMod_trans hab hbc) (ih htail2)

theorem forall₂_filter {R : Tab → Tab → Prop} {p : Tab → Bool}
    (hresp : ∀ a b, R a b → p a = p b) :
    ∀ {l l' : List Tab}, List.Forall₂ R l l' →
      List.Forall₂ R (l.filter p) (l'.filter p) := by
  intro l l' h
  induction h with
  | nil => exact List.Forall₂.nil
  | @cons a b t t' hab _ ih =>
    by_cases hp : p a = true
    · have hpb : p b = true := (hresp a b hab) ▸ hp
      simp only [List.filter_cons, hp, hpb, if_true]
      exact List.Forall₂.cons hab ih
    · have hpb : ¬ p b = true := fun hb => hp ((hresp a b hab).trans hb)
      simp only [List.filter_cons]
      rw [if_neg (by simpa using hp), if_neg (by simpa using hpb)]
      exact ih

theorem forall₂_map_same {α β : Type _} {R : β → β → Prop} {f h : α → β} :
    ∀ {l : List α}, (∀ a ∈ l, R (f a) (h a)) →
      List.Forall₂ R (l.map f) (l.map h) := by
  intro l
  induction l with
  | nil => intro _; exact List.Forall₂.nil
  | cons a l' ih =>
    intro hp
    exact List.Forall₂.cons (hp a (by simp))
      (ih (fun a' ha' => hp a' (by simp [ha'])))

theorem flatten_forall₂_perm {α : Type _} :
    ∀ {L L' : List (List α)}, List.Forall₂ (fun a b => a.Perm b) L L' →
      L.flatten.Perm L'.flatten := by
  intro L L' h
  induction h with
  | nil => exact List.Perm.refl _
  | cons hab _ ih =>
    simp only [List.flatten_cons]
    exact List.Perm.append hab ih

theorem filter_flatMap {α β : Type _} {p : β → Bool} {f : α → List β} :
    ∀ l : List α, (l.flatMap f).filter p = l.flatMap (fun a => (f a).filter p) := by
  intro l
  induction l with
  | nil => rfl
  | cons a l' ih => simp [List.flatMap_cons, List.filter_append, ih]

theorem filterMap_flatMap {α β γ : Type _} {f : α → List β} {h : β → Option γ} :
    ∀ l : List α, (l.flatMap f).filterMap h =
      l.flatMap (fun a => (f a).filterMap h) := by
  intro l
  induction l with
  | nil => rfl
  | cons a l' ih => simp [List.flatMap_cons, List.filterMap_append, ih]

/-- Duplicate-free ids survive flattening a sequence of filters by mutually
exclusive predicates. -/
theorem nodup_ids_flat_filters (snap : List Tab) (hN : ((snap.map (·.id)).Nodup)) :
    ∀ (ps : List (Tab → Bool)),
      List.Pairwise (fun p q => ∀ t, ¬(p t = true ∧ q t = true)) ps →
      (((ps.map (fun p => snap.filter p)).flatten).map (·.id)).Nodup := by
  intro ps
  induction ps with
  | nil => intro _; simp
  | cons p ps' ih =>
    intro hpw
    rw [List.pairwise_cons] at hpw
    simp only [List.map_cons, List.flatten_cons, List.map_append]
    rw [List.nodup_append]
    refine ⟨nodup_ids_filter hN p, ih hpw.2, ?_⟩
    intro i hi1 hi2
    obtain ⟨a, ha, hai⟩ := List.mem_map.1 hi1
    obtain ⟨b, hb, hbi⟩ := List.mem_map.1 hi2
    obtain ⟨ha1, hap⟩ := List.mem_filter.1 ha
    obtain ⟨bl, hbl, hbmem⟩ := List.mem_flatten.1 hb
    obtain ⟨q, hq, rfl⟩ := List.mem_map.1 hbl
    obtain ⟨hb1, hbq⟩ := List.mem_filter.1 hbmem
    have hab : a = b := eq_of_id_eq hN ha1 hb1 (by rw [hai, hbi])
    exact hpw.1 q hq a ⟨hap, hab ▸ hbq⟩

/-- A `flatMap` whose pieces vanish except at one key of a duplicate-free
key sequence collapses to that key's piece. -/
theorem flatMap_single_of_nodup {α β : Type _} (key : α → Nat) (f : α → List β) :
    ∀ (l : List α) (k : Nat),
      ((l.map key).Nodup) →
      (∀ e ∈ l, key e ≠ k → f e = []) →
      ((∀ e ∈ l, key e ≠ k) → l.flatMap f = []) ∧
      (∀ e ∈ l, key e = k → l.flatMap f = f e) := by
  intro l
  induction l with
  | nil =>
    intro k _ _
    exact ⟨fun _ => rfl, fun e he => absurd he (List.not_mem_nil e)⟩
  | cons a l' ih =>
    intro k hN hz
    simp only [List.map_cons, List.nodup_cons] at hN
    have ihl := ih k hN.2 (fun e he hne => hz e (by simp [he]) hne)
    constructor
    · intro hall
      rw [List.flatMap_cons, hz a (by simp) (hall a (by simp)), List.nil_append]
      exact ihl.1 (fun e he => hall e (by simp [he]))
    · intro e he hek
      rcases List.mem_cons.1 he with rfl | he'
      · rw [List.flatMap_cons]
        have hrest : l'.flatMap f = [] := by
          refine ihl.1 ?_
          intro e' he' hek'
          apply hN.1
          rw [hek, ← hek']
          exact List.mem_map.2 ⟨e', he', rfl⟩
        rw [hrest, List.append_nil]
      · have hak : key a ≠ k := by
          intro hakk
          apply hN.1
          rw [hakk, ← hek]
          exact List.mem_map.2 ⟨e, he', rfl⟩
        rw [List.flatMap_cons, hz a (by simp) hak, List.nil_append]
        exact ihl.2 e he' hek

/-- Looking up each target id in a duplicate-free list returns records that
match the targets pointwise up to the index field. -/
theorem forall₂_filterMap_find {l : List Tab} (hN : (l.map (·.id)).Nodup) :
    ∀ {ts : List Tab}, (∀ t ∈ ts, ∃ r ∈ l, r.id = t.id ∧ eqMod t r) →
      List.Forall₂ eqMod ts
        (ts.filterMap (fun t => l.find? (fun r => decide (r.id = t.id)))) := by
  intro ts
  induction ts with
  | nil => intro _; exact List.Forall₂.nil
  | cons t ts' ih =>
    intro hcov
    obtain ⟨r, hr, hrid, hre⟩ := hcov t (by simp)
    rw [List.filterMap_cons_some
      (f := fun u : Tab => List.find? (fun r => decide (r.id = u.id)) l)
      (find?_eq_of_mem_nodup hN hr hrid)]
    exact List.Forall₂.cons hre (ih (fun u hu => hcov u (by simp [hu])))

theorem eq_of_gid_eq {groups : List Group} (hNg : (groups.map (·.id)).Nodup)
    {a b : Group} (ha : a ∈ groups) (hb : b ∈ groups) (h : a.id = b.id) :
    a = b := by
  induction groups with
  | nil => cases ha
  | cons g gs ih =>
    simp only [List.map_cons, List.nodup_cons] at hNg
    rcases List.mem_cons.1 ha with rfl | ha'
    · rcases List.mem_cons.1 hb with rfl | hb'
      · rfl
      · exact absurd (List.mem_map.2 ⟨b, hb', h.symm⟩) hNg.1
    · rcases List.mem_cons.1 hb with rfl | hb'
      · exact absurd (List.mem_map.2 ⟨a, ha', h⟩) hNg.1
      · exact ih hNg.2 ha' hb'

/-! ## Idempotence: in-place runs are no-ops -/

/-- Sequential application of operations to a window. -/
def applyOps (w : Window) (ops : List Op) : Window := ops.foldl applyOp w

theorem applyOps_fix {w : Window} :
    ∀ {ops : List Op}, (∀ op ∈ ops, applyOp w op = w) →
      ∀ n, applyOps w (ops.take n) = w := by
  intro ops
  induction ops with
  | nil => intro _ n; cases n <;> rfl
  | cons op ops' ih =>
    intro h n
    cases n with
    | zero => rfl
    | succ m =>
      show applyOps w (op :: ops'.take m) = w
      show applyOps (applyOp w op) (ops'.take m) = w
      rw [h op (by simp)]
      exact ih (fun o ho => h o (by simp [ho])) m

/-- Moving a tab to the position it already occupies does not change the
window. -/
theorem applyMove_inplace {pre tail : List Tab} {w : Window} {x : Tab}
    (hsplit : w.tabs = pre ++ x :: tail)
    (hpre : ∀ p ∈ pre, p.id ≠ x.id) :
    applyMove w x.id pre.length = w := by
  have hfind : List.findIdx? (fun r => decide (r.id = x.id)) (pre ++ x :: tail) =
      some (0 + pre.length) := by
    rw [List.findIdx?_append,
      List.findIdx?_eq_none_iff.2 (fun p hp => by simp [hpre p hp]),
      findIdx?_cons_zero, if_pos (by simp)]
    rfl
  have hget : (pre ++ x :: tail)[0 + pre.length]? = some x := by
    rw [List.getElem?_append_right (by omega)]
    simp
  have herase : (pre ++ x :: tail).eraseIdx (0 + pre.length) = pre ++ tail := by
    rw [eraseIdx_append_ge pre _ _ (by omega)]
    simp
  unfold applyMove
  rw [hsplit, hfind]
  dsimp only
  rw [hget]
  dsimp only
  rw [herase]
  have hmin : min pre.length (pre ++ tail).length = pre.length :=
    Nat.min_eq_left (by rw [List.length_append]; exact Nat.le_add_right _ _)
  rw [hmin, insertIdx_append_ge pre tail pre.length x (le_refl _), Nat.sub_self,
    List.insertIdx_zero, ← hsplit]

/-- A failure-free move sequence over tabs already sitting in a contiguous
block at the target position leaves the window unchanged, and every emitted
move fixes the window. -/
theorem moveSeq_inplace {fail : Nat → Bool} (hfail : ∀ n, fail n = false) :
    ∀ (seg : List Tab) (s : Exec) (pre rest : List Tab),
      s.win.tabs = pre ++ seg ++ rest →
      ((seg.map (·.id)).Nodup) →
      (∀ p ∈ pre, ∀ x ∈ seg, p.id ≠ x.id) →
      (moveSeq fail s (seg.map (·.id)) pre.length).1.win = s.win ∧
        (moveSeq fail s (seg.map (·.id)) pre.length).2 = pre.length + seg.length ∧
        ∀ op ∈ (moveSeq fail s (seg.map (·.id)) pre.length).1.trace,
          op ∈ s.trace ∨ applyOp s.win op = s.win := by
  intro seg
  induction seg with
  | nil =>
    intro s pre rest _ _ _
    exact ⟨rfl, rfl, fun op hop => Or.inl hop⟩
  | cons x xs ih =>
    intro s pre rest hsplit hN hpre
    simp only [List.map_cons, List.nodup_cons] at hN
    have hsplit1 : s.win.tabs = pre ++ x :: (xs ++ rest) := by
      rw [hsplit]
      simp
    have hmv : applyMove s.win x.id pre.length = s.win :=
      applyMove_inplace hsplit1 (fun p hp => hpre p hp x (by simp))
    have hopfix : applyOp s.win (Op.move x.id pre.length) = s.win := hmv
    have hok : (attempt fail s (Op.move x.id pre.length)).2 = true := by
      rw [attempt_noFail hfail]
    have hstep : moveSeq fail s ((x :: xs).map (·.id)) pre.length =
        moveSeq fail (attempt fail s (Op.move x.id pre.length)).1
          (xs.map (·.id)) (pre.length + 1) := by
      show moveSeq fail s (x.id :: xs.map (·.id)) pre.length = _
      rw [moveSeq_cons_step, if_pos hok]
    have hwin' : (attempt fail s (Op.move x.id pre.length)).1.win = s.win := by
      rw [attempt_noFail hfail]
      exact hopfix
    have htr' : (attempt fail s (Op.move x.id pre.length)).1.trace =
        s.trace ++ [Op.move x.id pre.length] := by
      rw [attempt_noFail hfail]
    have hsplit' : (attempt fail s (Op.move x.id pre.length)).1.win.tabs =
        (pre ++ [x]) ++ xs ++ rest := by
      rw [hwin', hsplit]
      simp
    have hpre' : ∀ p ∈ pre ++ [x], ∀ u ∈ xs, p.id ≠ u.id := by
      intro p hp u hu
      rcases List.mem_append.1 hp with hp' | hp'
      · exact hpre p hp' u (by simp [hu])
      · have hpx : p = x := by simpa using hp'
        rw [hpx]
        intro hxu
        exact hN.1 (List.mem_map.2 ⟨u, hu, hxu.symm⟩)
    have hrec := ih (attempt fail s (Op.move x.id pre.length)).1 (pre ++ [x]) rest
      hsplit' hN.2 hpre'
    have hlen : (pre ++ [x]).length = pre.length + 1 := by simp
    rw [hlen] at hrec
    rw [hstep]
    refine ⟨?_, ?_, ?_⟩
    · rw [hrec.1, hwin']
    · rw [hrec.2.1]
      simp only [List.length_cons]
      omega
    · intro op hop
      rcases hrec.2.2 op hop with hin | hfix
      · rw [htr'] at hin
        rcases List.mem_append.1 hin with hin' | hin'
        · exact Or.inl hin'
        · have : op = Op.move x.id pre.length := by simpa using hin'
          rw [this]
          exact Or.inr hopfix
      · rw [hwin'] at hfix
        exact Or.inr hfix

/-- A failure-free group loop over buckets that already sit in contiguous
blocks at the target positions, with group memberships already applied,
leaves the window unchanged and every emitted call fixes the window. -/
theorem groupLoop_inplace {fail : Nat → Bool} (hfail : ∀ n, fail n = false) :
    ∀ (entries : List (Group × List Tab)) (segs : List (List Tab)) (s : Exec)
      (pre rest : List Tab),
      s.win.tabs = pre ++ segs.flatten ++ rest →
      List.Forall₂ (fun (e : Group × List Tab) (seg : List Tab) =>
        e.2.map (·.id) = seg.map (·.id) ∧
          ∀ r ∈ seg, r.groupId = some e.1.id) entries segs →
      ((segs.flatten.map (·.id)).Nodup) →
      (∀ p ∈ pre, ∀ x ∈ segs.flatten, p.id ≠ x.id) →
      (∀ r ∈ rest, ∀ x ∈ segs.flatten, r.id ≠ x.id) →
      (groupLoop fail s entries pre.length).1.win = s.win ∧
        (groupLoop fail s entries pre.length).2 =
          pre.length + segs.flatten.length ∧
        ∀ op ∈ (groupLoop fail s entries pre.length).1.trace,
          op ∈ s.trace ∨ applyOp s.win op = s.win := by
  intro entries
  induction entries with
  | nil =>
    intro segs s pre rest hsplit hrel hN hpre hrest
    cases hrel
    exact ⟨rfl, rfl, fun op hop => Or.inl hop⟩
  | cons e es ih =>
    obtain ⟨g, tabs⟩ := e
    intro segs s pre rest hsplit hrel hN hpre hrest
    cases hrel with
    | cons hrel1 hrel2 =>
      rename_i seg segs'
      by_cases htabs : tabs.isEmpty = true
      · have htnil : tabs = [] := by
          cases tabs
          · rfl
          · simp [List.isEmpty] at htabs
        subst htnil
        have hsegnil : seg = [] := by
          have := hrel1.1
          simp only [List.map_nil] at this
          cases seg
          · rfl
          · simp at this
        subst hsegnil
        rw [groupLoop, if_pos htabs]
        have hres := ih segs' s pre rest (by simpa using hsplit)
          hrel2 (by simpa using hN) (by simpa using hpre) (by simpa using hrest)
        simpa using hres
      · have hne : tabs.isEmpty = false := by
          cases h' : tabs.isEmpty
          · rfl
          · exact absurd h' htabs
        have hsplitseg : s.win.tabs = pre ++ seg ++ (segs'.flatten ++ rest) := by
          rw [hsplit]
          simp [List.flatten_cons, List.append_assoc]
        have hflatN : ((seg.map (·.id) ++ segs'.flatten.map (·.id)).Nodup) := by
          have : ((seg ++ segs'.flatten).map (·.id)).Nodup := by
            simpa [List.flatten_cons] using hN
          rw [List.map_append] at this
          exact this
        have hsegN := (List.nodup_append.1 hflatN).1
        have hdisj := (List.nodup_append.1 hflatN).2.2
        have hpreseg : ∀ p ∈ pre, ∀ x ∈ seg, p.id ≠ x.id := by
          intro p hp x hx
          exact hpre p hp x (by simp [List.flatten_cons, hx])
        have hms := moveSeq_inplace hfail seg s pre (segs'.flatten ++ rest)
          hsplitseg hsegN hpreseg
        have hmseq : moveSeq fail s (tabs.map (·.id)) pre.length =
            moveSeq fail s (seg.map (·.id)) pre.length := by
          rw [hrel1.1]
        have hgfix : applyOp s.win (Op.group (tabs.map (·.id)) g.id) = s.win := by
          show assignGroup s.win (tabs.map (·.id)) (some g.id) = s.win
          apply assignGroup_noop
          intro t ht htid
          rw [hrel1.1] at htid
          obtain ⟨u, hu, huid⟩ := List.mem_map.1 htid
          rw [hsplit] at ht
          rcases List.mem_append.1 ht with ht' | ht'
          · rcases List.mem_append.1 ht' with ht'' | ht''
            · exact absurd huid.symm
                (hpre t ht'' u (by simp [List.flatten_cons, hu]))
            · rcases List.mem_append.1 (by
                  simpa [List.flatten_cons] using ht'' :
                  t ∈ seg ++ segs'.flatten) with hts | hts
              · have : t = u := eq_of_id_eq hsegN hts hu huid.symm
                rw [this]
                exact hrel1.2 u hu
              · exfalso
                apply hdisj (a := t.id)
                · rw [← huid]
                  exact List.mem_map.2 ⟨u, hu, rfl⟩
                · exact List.mem_map.2 ⟨t, hts, rfl⟩
          · exact absurd huid.symm
              (hrest t ht' u (by simp [List.flatten_cons, hu]))
        have hok : (attempt fail (moveSeq fail s (tabs.map (·.id)) pre.length).1
            (Op.group (tabs.map (·.id)) g.id)).2 = true := by
          rw [attempt_noFail hfail]
        have hgoal : groupLoop fail s ((g, tabs) :: es) pre.length =
            groupLoop fail
              (attempt fail (moveSeq fail s (tabs.map (·.id)) pre.length).1
                (Op.group (tabs.map (·.id)) g.id)).1 es
              (moveSeq fail s (tabs.map (·.id)) pre.length).2 := by
          rw [groupLoop]
          simp only [hne, Bool.false_eq_true, if_false]
          rw [if_pos hok]
        have hwin1 : (moveSeq fail s (tabs.map (·.id)) pre.length).1.win =
            s.win := by
          rw [hmseq]
          exact hms.1
        have hwin2 : (attempt fail (moveSeq fail s (tabs.map (·.id)) pre.length).1
            (Op.group (tabs.map (·.id)) g.id)).1.win = s.win := by
          rw [attempt_noFail hfail]
          show applyOp (moveSeq fail s (tabs.map (·.id)) pre.length).1.win
            (Op.group (tabs.map (·.id)) g.id) = s.win
          rw [hwin1]
          exact hgfix
        have htr2 : (attempt fail (moveSeq fail s (tabs.map (·.id)) pre.length).1
            (Op.group (tabs.map (·.id)) g.id)).1.trace =
            (moveSeq fail s (tabs.map (·.id)) pre.length).1.trace ++
              [Op.group (tabs.map (·.id)) g.id] := by
          rw [attempt_noFail hfail]
        have hidx : (moveSeq fail s (tabs.map (·.id)) pre.length).2 =
            (pre ++ seg).length := by
          rw [hmseq, hms.2.1, List.length_append]
        have hsplit' : (attempt fail
            (moveSeq fail s (tabs.map (·.id)) pre.length).1
            (Op.group (tabs.map (·.id)) g.id)).1.win.tabs =
            (pre ++ seg) ++ segs'.flatten ++ rest := by
          rw [hwin2, hsplitseg]
          simp [List.append_assoc]
        have hpre' : ∀ p ∈ pre ++ seg, ∀ x ∈ segs'.flatten, p.id ≠ x.id := by
          intro p hp x hx
          rcases List.mem_append.1 hp with hp' | hp'
          · exact hpre p hp' x (by simp [List.flatten_cons, hx])
          · intro hpx
            apply hdisj (a := p.id)
            · exact List.mem_map.2 ⟨p, hp', rfl⟩
            · rw [hpx]
              exact List.mem_map.2 ⟨x, hx, rfl⟩
        have hrest' : ∀ r ∈ rest, ∀ x ∈ segs'.flatten, r.id ≠ x.id := by
          intro r hr x hx
          exact hrest r hr x (by simp [List.flatten_cons, hx])
        have hrec := ih segs'
          (attempt fail (moveSeq fail s (tabs.map (·.id)) pre.length).1
            (Op.group (tabs.map (·.id)) g.id)).1
          (pre ++ seg) rest hsplit' hrel2
          ((List.nodup_append.1 hflatN).2.1) hpre' hrest'
        rw [hgoal, hidx]
        refine ⟨?_, ?_, ?_⟩
        · rw [hrec.1, hwin2]
        · rw [hrec.2.1, List.length_append]
          simp only [List.flatten_cons, List.length_append]
          omega
        · intro op hop
          rcases hrec.2.2 op hop with hin | hfix
          · rw [htr2] at hin
            rcases List.mem_append.1 hin with hin' | hin'
            · rw [hmseq] at hin'
              rcases hms.2.2 op hin' with hin'' | hfix''
              · exact Or.inl hin''
              · exact Or.inr hfix''
            · have : op = Op.group (tabs.map (·.id)) g.id := by simpa using hin'
              rw [this]
              exact Or.inr hgfix
          · rw [hwin2] at hfix
            exact Or.inr hfix

/-! ## Idempotence: the general path's plan as filters of the snapshot -/

/-- The concatenated target order of the general path: bucket blocks in
sorted group order, then the sorted ungrouped tabs. -/
def genTargets (env : Env) (w : Window) : List Tab :=
  (genSortedGroupData env w).flatMap (fun e => e.2) ++ genSortedUngrouped env w

theorem forall₂_mem_left {α β : Type _} {R : α → β → Prop} {l : List α}
    {l' : List β} (h : List.Forall₂ R l l') : ∀ x ∈ l, ∃ y ∈ l', R x y := by
  induction h with
  | nil => intro x hx; cases hx
  | cons hr _ ih =>
    intro x hx
    rcases List.mem_cons.1 hx with rfl | hx'
    · exact ⟨_, by simp, hr⟩
    · obtain ⟨y, hy, hxy⟩ := ih x hx'
      exact ⟨y, by simp [hy], hxy⟩

theorem flatMap_eq_flatten_map {α β : Type _} (f : α → List β) :
    ∀ l : List α, l.flatMap f = (l.map f).flatten := by
  intro l
  induction l with
  | nil => rfl
  | cons a l' ih =>
    simp only [List.flatMap_cons, List.map_cons, List.flatten_cons, ih]

theorem map_form_eta (l : List (Nat × (Group × List Tab))) :
    l.map (fun e => (e.1, (e.2.1, e.2.2))) = l :=
  (List.map_congr_left (fun e _ => rfl)).trans (List.map_id' l)

/-- The bucket distribution of the general path computes pure filters of
the snapshot keyed by the window's groups. -/
theorem genDist_char (env : Env) (w : Window)
    (hNg : (w.groups.map (·.id)).Nodup)
    (hgr : (dedupStage env w).win.groups = w.groups) :
    genDist env w =
      (w.groups.map (fun g =>
        (g.id, (g, (genSnap env w).filter (bucketPred g.id)))),
       (genSnap env w).filter
         (ungroupedPred (w.groups.map (fun g => (g.id, (g, ([] : List Tab))))))) := by
  unfold genDist
  rw [hgr, initGroupData_map_form w.groups hNg]
  have hkeys : (((w.groups.map (fun g => (g.id, (g, ([] : List Tab))))).map
      Prod.fst).Nodup) := by
    rw [List.map_map]
    exact hNg
  have hform := distributeTabs_map_form
    (w.groups.map (fun g => (g.id, (g, ([] : List Tab))))) hkeys
    (genSnap env w) (fun e => e.2.2) []
  rw [map_form_eta] at hform
  show (genSnap env w).foldl _ _ = _
  rw [hform]
  refine congrArg₂ Prod.mk ?_ ?_
  · rw [List.map_map]
    refine List.map_congr_left ?_
    intro g _
    simp
  · rw [List.nil_append]

/-- The general path's sorted plan, written as sorts of snapshot filters. -/
theorem genPlan_eq (env : Env) (w : Window)
    (hNg : (w.groups.map (·.id)).Nodup)
    (hgr : (dedupStage env w).win.groups = w.groups) :
    genSortedGroupData env w =
      jsSort (groupLe env.lcDef)
        (w.groups.map (fun g => (g, jsSort (tabLe env.lcDef)
          ((genSnap env w).filter (bucketPred g.id))))) ∧
    genSortedUngrouped env w =
      jsSort (tabLe env.lcDef) ((genSnap env w).filter
        (ungroupedPred (w.groups.map (fun g => (g.id, (g, ([] : List Tab))))))) := by
  constructor
  · unfold genSortedGroupData
    rw [genDist_char env w hNg hgr, List.map_map, List.map_map]
    congr 1
  · unfold genSortedUngrouped
    rw [genDist_char env w hNg hgr]

/-- Every entry of the sorted group data belongs to a group of the window
and carries that group's sorted bucket filter. -/
theorem genSortedGroupData_mem (env : Env) (w : Window)
    (hNg : (w.groups.map (·.id)).Nodup)
    (hgr : (dedupStage env w).win.groups = w.groups) :
    ∀ e ∈ genSortedGroupData env w, ∃ g ∈ w.groups,
      e = (g, jsSort (tabLe env.lcDef)
        ((genSnap env w).filter (bucketPred g.id))) := by
  intro e he
  rw [(genPlan_eq env w hNg hgr).1] at he
  have he' := mem_jsSort.1 he
  obtain ⟨g, hg, hge⟩ := List.mem_map.1 he'
  exact ⟨g, hg, hge.symm⟩

/-- The id sequence of the concatenated target order is duplicate free. -/
theorem genTargets_ids_nodup (env : Env) (w : Window)
    (hNg : (w.groups.map (·.id)).Nodup)
    (hgr : (dedupStage env w).win.groups = w.groups)
    (hsnapN : ((genSnap env w).map (·.id)).Nodup) :
    ((genTargets env w).map (·.id)).Nodup := by
  obtain ⟨hGL, hU⟩ := genPlan_eq env w hNg hgr
  -- the reference list: raw filters in group order, then the ungrouped filter
  have hperm : (genTargets env w).Perm
      (((w.groups.map (fun g => bucketPred g.id) ++
          [ungroupedPred (w.groups.map (fun g => (g.id, (g, ([] : List Tab)))))]).map
        (fun p => (genSnap env w).filter p)).flatten) := by
    unfold genTargets
    rw [hGL, hU]
    rw [List.map_append, List.flatten_append]
    refine List.Perm.append ?_ ?_
    · rw [flatMap_eq_flatten_map]
      have h1 : ((jsSort (groupLe env.lcDef)
            (w.groups.map (fun g => (g, jsSort (tabLe env.lcDef)
              ((genSnap env w).filter (bucketPred g.id)))))).map (fun e => e.2)).Perm
          ((w.groups.map (fun g => (g, jsSort (tabLe env.lcDef)
            ((genSnap env w).filter (bucketPred g.id))))).map (fun e => e.2)) :=
        List.Perm.map _ (jsSort_perm _ _)
      have h2 : ((w.groups.map (fun g => (g, jsSort (tabLe env.lcDef)
            ((genSnap env w).filter (bucketPred g.id))))).map (fun e => e.2)) =
          w.groups.map (fun g => jsSort (tabLe env.lcDef)
            ((genSnap env w).filter (bucketPred g.id))) := by
        rw [List.map_map]
        exact List.map_congr_left (fun g _ => rfl)
      have h3 : ((w.groups.map (fun g => jsSort (tabLe env.lcDef)
            ((genSnap env w).filter (bucketPred g.id)))).flatten).Perm
          ((w.groups.map (fun g =>
            (genSnap env w).filter (bucketPred g.id))).flatten) := by
        refine flatten_forall₂_perm ?_
        refine forall₂_map_same ?_
        intro g _
        exact jsSort_perm _ _
      have h4 : (List.map (fun p => (genSnap env w).filter p)
            (w.groups.map (fun g => bucketPred g.id))) =
          w.groups.map (fun g => (genSnap env w).filter (bucketPred g.id)) := by
        rw [List.map_map]
        exact List.map_congr_left (fun g _ => rfl)
      refine List.Perm.trans (List.Perm.join h1) ?_
      rw [h2, h4]
      exact h3
    · refine List.Perm.trans (jsSort_perm (tabLe env.lcDef) _) ?_
      simp
  have hnodup := nodup_ids_flat_filters (genSnap env w) hsnapN
    (w.groups.map (fun g => bucketPred g.id) ++
      [ungroupedPred (w.groups.map (fun g => (g.id, (g, ([] : List Tab)))))]) ?_
  · exact ((hperm.map (·.id)).nodup_iff).2 hnodup
  · rw [List.pairwise_append]
    refine ⟨?_, ?_, ?_⟩
    · rw [List.pairwise_map]
      have hnodup' : List.Pairwise (fun a b : Nat => a ≠ b)
          (w.groups.map (·.id)) := hNg
      have hpw := List.pairwise_map.1 hnodup'
      refine hpw.imp ?_
      intro a b hab t ht
      obtain ⟨h1, h2⟩ := ht
      simp only [bucketPred, Bool.and_eq_true, decide_eq_true_eq] at h1 h2
      exact hab (Option.some.inj (h1.2.symm.trans h2.2))
    · simp
    · intro p hp q hq t ht
      obtain ⟨g, hg, rfl⟩ := List.mem_map.1 hp
      have hq' : q = ungroupedPred
          (w.groups.map (fun g => (g.id, (g, ([] : List Tab))))) := by
        simpa using hq
      obtain ⟨h1, h2⟩ := ht
      rw [hq'] at h2
      simp only [bucketPred, Bool.and_eq_true, decide_eq_true_eq] at h1
      simp only [ungroupedPred, Bool.and_eq_true] at h2
      rw [h1.2] at h2
      have hkey : hasKeyG (w.groups.map (fun g => (g.id, (g, ([] : List Tab)))))
          g.id = true := by
        rw [hasKeyG_eq_mem, List.map_map]
        have hmem : g.id ∈ w.groups.map (·.id) := List.mem_map.2 ⟨g, hg, rfl⟩
        simpa using hmem
      have h2' : (!hasKeyG (w.groups.map (fun g => (g.id, (g, ([] : List Tab)))))
          g.id) = true := h2.2
      rw [hkey] at h2'
      simp at h2'

/-- Exact effect of a failure-free general-path run: after dedup the window
splits into the pinned prefix and an unpinned remainder `suf₂`; the run
reports `"sorted"`, leaves the groups untouched, and rearranges the window
into the prefix followed by the stored records of the plan's target order,
which match the plan pointwise up to index fields. -/
theorem general_noFail_run (env : Env) (w : Window)
    (hfail : ∀ n, env.fail n = false) (hdq : env.dedupQueryFail = false)
    (hsup : env.supportsTabGroups = true) (htq : env.tabsQueryFail = none)
    (hgq : env.groupsQueryFail = none)
    {pre suf : List Tab}
    (hN : (w.tabs.map (·.id)).Nodup) (hNg : (w.groups.map (·.id)).Nodup)
    (hsplitw : w.tabs = pre ++ suf)
    (hpre : ∀ t ∈ pre, t.pinned = true) (hsuf : ∀ t ∈ suf, t.pinned = false) :
    ∃ suf₂ : List Tab,
      (dedupStage env w).win.tabs = pre ++ suf₂ ∧
      (dedupStage env w).win.groups = w.groups ∧
      (∀ t ∈ suf₂, t ∈ suf) ∧
      ((suf₂.map (·.id)).Nodup) ∧
      (sortTabsInWindow env w).1.win.tabs =
        pre ++ (genTargets env w).filterMap
          (fun t => suf₂.find? (fun r => decide (r.id = t.id))) ∧
      (sortTabsInWindow env w).1.win.groups = w.groups ∧
      (sortTabsInWindow env w).2 = Status.sorted ∧
      List.Forall₂ eqMod (genTargets env w)
        ((genTargets env w).filterMap
          (fun t => suf₂.find? (fun r => decide (r.id = t.id)))) ∧
      ((genTargets env w).map (·.id)).Nodup ∧
      (∀ t ∈ genTargets env w, t ∈ genSnap env w ∧ t.pinned = false) := by
  obtain ⟨⟨suf₂, hsplit1, hsuf₂⟩, hmem1⟩ :=
    dedupStage_pinpre env w hN hsplitw hpre hsuf
  have hwin1 := dedupStage_noFail_win env w hdq hfail
  have hgroups1 : (dedupStage env w).win.groups = w.groups := by rw [hwin1]
  have hNs1 : ((dedupStage env w).win.tabs.map (·.id)).Nodup := by
    rw [hwin1]
    exact nodup_ids_filter hN _
  have hNsuf₂ : ((suf₂.map (·.id)).Nodup) := by
    have hx := hNs1
    rw [hsplit1, List.map_append] at hx
    exact (List.nodup_append.1 hx).2.1
  have hsub : ∀ t ∈ suf₂, t ∈ suf := by
    intro t ht
    have htw : t ∈ w.tabs := hmem1 t (by
      rw [hsplit1]
      exact List.mem_append.2 (Or.inr ht))
    rw [hsplitw] at htw
    rcases List.mem_append.1 htw with h' | h'
    · exact absurd (hpre t h') (by simp [hsuf₂ t ht])
    · exact h'
  have hPc : genPinnedCount env w = pre.length :=
    genPinnedCount_eq env w hpre ⟨suf₂, hsplit1, hsuf₂⟩
  have hsnapF0 : List.Forall₂ eqMod (genSnap env w) (dedupStage env w).win.tabs :=
    queryTabs_forall₂ _
  have hsnapF : List.Forall₂ eqMod (genSnap env w) (pre ++ suf₂) := by
    rw [← hsplit1]
    exact hsnapF0
  have hsnapN : ((genSnap env w).map (·.id)).Nodup := by
    rw [forall₂_map_eq (fun a b (h : eqMod a b) => h.1) hsnapF0]
    exact hNs1
  have hpartner : ∀ u ∈ genSnap env w, u.pinned = false →
      ∃ r ∈ suf₂, r.id = u.id ∧ eqMod u r := by
    intro u hu hup
    obtain ⟨y, hy, hre⟩ := forall₂_mem_left hsnapF u hu
    have hyp : y.pinned = false := by rw [← hre.2.2.2.1]; exact hup
    rcases List.mem_append.1 hy with hy' | hy'
    · exact absurd (hpre y hy') (by simp [hyp])
    · exact ⟨y, hy', hre.1.symm, hre⟩
  have hcover : ∀ r ∈ suf₂, ∃ u ∈ genSnap env w, eqMod u r := by
    intro r hr
    exact forall₂_mem_right hsnapF r (List.mem_append.2 (Or.inr hr))
  obtain ⟨hGL, hUeq⟩ := genPlan_eq env w hNg hgroups1
  have hentry := genSortedGroupData_mem env w hNg hgroups1
  have hTun := genTargets_unpinned env w
  have hTmem : ∀ t ∈ genTargets env w, t ∈ genSnap env w ∧ t.pinned = false := by
    intro t ht
    rcases List.mem_append.1 ht with ht' | ht'
    · obtain ⟨e, he, hte⟩ := List.mem_flatMap.1 ht'
      exact hTun.1 e he t hte
    · exact hTun.2 t ht'
  have hTN : ((genTargets env w).map (·.id)).Nodup :=
    genTargets_ids_nodup env w hNg hgroups1 hsnapN
  have hbm : ∀ e ∈ genSortedGroupData env w, ∀ t ∈ e.2,
      t.groupId = some e.1.id := by
    intro e he t ht
    obtain ⟨g, hg, rfl⟩ := hentry e he
    have ht' := mem_jsSort.1 ht
    have htp := (List.mem_filter.1 ht').2
    simp only [bucketPred, Bool.and_eq_true, decide_eq_true_eq] at htp
    exact htp.2
  have hTNsplit := List.nodup_append.1 (by
    have hx := hTN
    unfold genTargets at hx
    rw [List.map_append] at hx
    exact hx)
  have hpreT : ∀ p ∈ pre, ∀ e ∈ genSortedGroupData env w, ∀ t ∈ e.2,
      p.id ≠ t.id := by
    intro p hp e he t ht
    have h1 := hTun.1 e he t ht
    exact (genSnap_unpinned_src env w hN hsplitw hpre hsuf t h1.1 h1.2).2 p hp
  have hflatN : (((genSortedGroupData env w).flatMap
      (fun e => e.2)).map (·.id)).Nodup := hTNsplit.1
  have hcovT : ∀ e ∈ genSortedGroupData env w, ∀ t ∈ e.2,
      ∃ r ∈ suf₂, r.id = t.id := by
    intro e he t ht
    have h1 := hTun.1 e he t ht
    obtain ⟨r, hr, hrid, _⟩ := hpartner t h1.1 h1.2
    exact ⟨r, hr, hrid⟩
  have hgrpT : ∀ e ∈ genSortedGroupData env w, ∀ r ∈ suf₂, ∀ t ∈ e.2,
      r.id = t.id → r.groupId = some e.1.id := by
    intro e he r hr t ht hid
    have h1 := hTun.1 e he t ht
    obtain ⟨r', hr', hrid', hre'⟩ := hpartner t h1.1 h1.2
    have hrr : r = r' := eq_of_id_eq hNsuf₂ hr hr' (by rw [hid, ← hrid'])
    rw [hrr, ← hre'.2.2.2.2.2]
    exact hbm e he t ht
  have hGLoop := groupLoop_noFail_state hfail (genSortedGroupData env w)
    (dedupStage env w) pre suf₂ hsplit1 hNsuf₂ hpreT hflatN hcovT hgrpT
  have hflatcov : ∀ t ∈ (genSortedGroupData env w).flatMap (fun e => e.2),
      ∃ r ∈ suf₂, r.id = t.id := by
    intro t ht
    obtain ⟨e, he, hte⟩ := List.mem_flatMap.1 ht
    exact hcovT e he t hte
  have hLgids := filterMap_find_ids hNsuf₂ hflatcov
  have hLglen : (((genSortedGroupData env w).flatMap (fun e => e.2)).filterMap
      (fun t => suf₂.find? (fun r => decide (r.id = t.id)))).length =
      ((genSortedGroupData env w).flatMap (fun e => e.2)).length := by
    have hc := congrArg List.length hLgids
    simpa using hc
  have hUcov : ∀ u ∈ genSortedUngrouped env w,
      ∃ r ∈ suf₂.filter (fun r => !(decide (r.id ∈
        ((genSortedGroupData env w).flatMap (fun e => e.2)).map (·.id)))),
        r.id = u.id := by
    intro u hu
    have h1 := hTun.2 u hu
    obtain ⟨r, hr, hrid, _⟩ := hpartner u h1.1 h1.2
    refine ⟨r, List.mem_filter.2 ⟨hr, ?_⟩, hrid⟩
    have hnotin : ¬ (r.id ∈
        ((genSortedGroupData env w).flatMap (fun e => e.2)).map (·.id)) := by
      intro hmem
      apply hTNsplit.2.2 hmem
      rw [hrid]
      exact List.mem_map.2 ⟨u, hu, rfl⟩
    simp [hnotin]
  have hpreU : ∀ p ∈ pre ++
      ((genSortedGroupData env w).flatMap (fun e => e.2)).filterMap
        (fun t => suf₂.find? (fun r => decide (r.id = t.id))),
      ∀ u ∈ genSortedUngrouped env w, p.id ≠ u.id := by
    intro p hp u hu
    have h1 := hTun.2 u hu
    rcases List.mem_append.1 hp with hp' | hp'
    · exact (genSnap_unpinned_src env w hN hsplitw hpre hsuf u h1.1 h1.2).2 p hp'
    · obtain ⟨hpr, t0, ht0, hpid⟩ := mem_filterMap_find hp'
      intro hpu
      have hm1 : t0.id ∈
          ((genSortedGroupData env w).flatMap (fun e => e.2)).map (·.id) :=
        List.mem_map.2 ⟨t0, ht0, rfl⟩
      have hm2 : t0.id ∈ (genSortedUngrouped env w).map (·.id) := by
        rw [← hpid, hpu]
        exact List.mem_map.2 ⟨u, hu, rfl⟩
      exact hTNsplit.2.2 hm1 hm2
  have hUN : ((genSortedUngrouped env w).map (·.id)).Nodup := hTNsplit.2.1
  have hNF := nodup_ids_filter hNsuf₂ (fun r => !(decide (r.id ∈
    ((genSortedGroupData env w).flatMap (fun e => e.2)).map (·.id))))
  have hms := moveSeq_noFail_state hfail (genSortedUngrouped env w)
    (groupLoop env.fail (dedupStage env w) (genSortedGroupData env w) pre.length).1
    _ _ hGLoop.1 hNF hpreU hUN hUcov
  have hmain := sortTabsInWindow_general_eq env w hsup htq hgq
  rw [hPc] at hmain
  have hlen2 : pre.length +
      ((genSortedGroupData env w).flatMap (fun e => e.2)).length =
      (pre ++ ((genSortedGroupData env w).flatMap (fun e => e.2)).filterMap
        (fun t => suf₂.find? (fun r => decide (r.id = t.id)))).length := by
    rw [List.length_append, hLglen]
  rw [hGLoop.2.2, hlen2] at hmain
  have hfiltercomb : (suf₂.filter (fun r => !(decide (r.id ∈
        ((genSortedGroupData env w).flatMap (fun e => e.2)).map (·.id))))).filter
      (fun r => !(decide (r.id ∈ (genSortedUngrouped env w).map (·.id)))) = [] := by
    rw [List.filter_filter]
    refine List.filter_eq_nil_iff.2 ?_
    intro r hr
    obtain ⟨u, hu, hre⟩ := hcover r hr
    have hru : u.pinned = false := by rw [hre.2.2.2.1]; exact hsuf₂ r hr
    have hrid : u.id = r.id := hre.1
    have htarget : r.id ∈
        ((genSortedGroupData env w).flatMap (fun e => e.2)).map (·.id) ∨
        r.id ∈ (genSortedUngrouped env w).map (·.id) := by
      cases hg : u.groupId with
      | some gid =>
        by_cases hkey : gid ∈ w.groups.map (·.id)
        · obtain ⟨g, hgmem, hgid⟩ := List.mem_map.1 hkey
          left
          have hubucket : u ∈ (genSnap env w).filter (bucketPred g.id) := by
            refine List.mem_filter.2 ⟨hu, ?_⟩
            simp [bucketPred, hru, hg, hgid]
          have hue : u ∈ jsSort (tabLe env.lcDef)
              ((genSnap env w).filter (bucketPred g.id)) := mem_jsSort.2 hubucket
          have hentrymem : (g, jsSort (tabLe env.lcDef)
              ((genSnap env w).filter (bucketPred g.id))) ∈
              genSortedGroupData env w := by
            rw [hGL]
            exact mem_jsSort.2 (List.mem_map.2 ⟨g, hgmem, rfl⟩)
          rw [← hrid]
          exact List.mem_map.2 ⟨u, List.mem_flatMap.2 ⟨_, hentrymem, hue⟩, rfl⟩
        · right
          have hkeyf : hasKeyG
              (w.groups.map (fun g => (g.id, (g, ([] : List Tab))))) gid = false := by
            rw [hasKeyG_eq_mem, List.map_map]
            simpa [Function.comp] using hkey
          have hupred : ungroupedPred
              (w.groups.map (fun g => (g.id, (g, ([] : List Tab))))) u = true := by
            simp [ungroupedPred, hru, hg, hkeyf]
          have huU : u ∈ genSortedUngrouped env w := by
            rw [hUeq]
            exact mem_jsSort.2 (List.mem_filter.2 ⟨hu, hupred⟩)
          rw [← hrid]
          exact List.mem_map.2 ⟨u, huU, rfl⟩
      | none =>
        right
        have hupred : ungroupedPred
            (w.groups.map (fun g => (g.id, (g, ([] : List Tab))))) u = true := by
          simp [ungroupedPred, hru, hg]
        have huU : u ∈ genSortedUngrouped env w := by
          rw [hUeq]
          exact mem_jsSort.2 (List.mem_filter.2 ⟨hu, hupred⟩)
        rw [← hrid]
        exact List.mem_map.2 ⟨u, huU, rfl⟩
    rcases htarget with h' | h'
    · simp [h']
    · simp [h']
  refine ⟨suf₂, hsplit1, hgroups1, hsub, hNsuf₂, ?_, ?_, ?_, ?_, hTN, hTmem⟩
  · rw [hmain]
    dsimp only
    rw [hms.1]
    have hmapeq : (genSortedUngrouped env w).filterMap
        (fun u => (suf₂.filter (fun r => !(decide (r.id ∈
          ((genSortedGroupData env w).flatMap (fun e => e.2)).map (·.id))))).find?
            (fun r => decide (r.id = u.id))) =
      (genSortedUngrouped env w).filterMap
        (fun u => suf₂.find? (fun r => decide (r.id = u.id))) := by
      refine List.filterMap_congr ?_
      intro u hu
      refine find?_filter_of_imp ?_ suf₂
      intro r hrp
      have hru : r.id = u.id := by simpa using hrp
      have hnotin : ¬ (r.id ∈
          ((genSortedGroupData env w).flatMap (fun e => e.2)).map (·.id)) := by
        intro hmem
        apply hTNsplit.2.2 hmem
        rw [hru]
        exact List.mem_map.2 ⟨u, hu, rfl⟩
      simp [hnotin]
    rw [hmapeq, hfiltercomb]
    unfold genTargets
    rw [List.filterMap_append]
    simp [List.append_assoc]
  · rw [hmain]
    dsimp only
    rw [hms.2.1, hGLoop.2.1]
    exact hgroups1
  · rw [hmain]
  · refine forall₂_filterMap_find hNsuf₂ ?_
    intro t ht
    have h1 := hTmem t ht
    exact hpartner t h1.1 h1.2

/-! ## Idempotence: the second run's plan matches the first run's layout -/

theorem bucketPred_respects (gid : Nat) {a b : Tab} (h : eqMod a b) :
    bucketPred gid a = bucketPred gid b := by
  obtain ⟨_, _, _, h4, _, h6⟩ := h
  simp only [bucketPred, h4, h6]

theorem ungroupedPred_respects (gd : List (Nat × (Group × List Tab)))
    {a b : Tab} (h : eqMod a b) :
    ungroupedPred gd a = ungroupedPred gd b := by
  obtain ⟨_, _, _, h4, _, h6⟩ := h
  simp only [ungroupedPred, h4, h6]

theorem unpinnedPred_respects {a b : Tab} (h : eqMod a b) :
    (!a.pinned) = (!b.pinned) := by
  obtain ⟨_, _, _, h4, _, _⟩ := h
  rw [h4]

theorem forall₂_map_right {α β γ : Type _} {R : α → β → Prop} {P : α → γ → Prop}
    {f : β → γ} (h : ∀ a b, R a b → P a (f b)) :
    ∀ {l : List α} {l' : List β}, List.Forall₂ R l l' →
      List.Forall₂ P l (l'.map f) := by
  intro l l' hF
  induction hF with
  | nil => exact List.Forall₂.nil
  | cons hab _ ih => exact List.Forall₂.cons (h _ _ hab) ih

theorem flatMap_eq_nil_of {α β : Type _} {f : α → List β} :
    ∀ {l : List α}, (∀ a ∈ l, f a = []) → l.flatMap f = [] := by
  intro l
  induction l with
  | nil => intro _; rfl
  | cons a l' ih =>
    intro h
    rw [List.flatMap_cons, h a (by simp), List.nil_append]
    exact ih (fun b hb => h b (by simp [hb]))

theorem genSortedGroupData_keys_nodup (env : Env) (w : Window)
    (hNg : (w.groups.map (·.id)).Nodup)
    (hgr : (dedupStage env w).win.groups = w.groups) :
    ((genSortedGroupData env w).map (fun e => e.1.id)).Nodup := by
  obtain ⟨hGL, _⟩ := genPlan_eq env w hNg hgr
  rw [hGL]
  have hmapeq : (w.groups.map (fun g => (g, jsSort (tabLe env.lcDef)
      ((genSnap env w).filter (bucketPred g.id))))).map (fun e => e.1.id) =
      w.groups.map (·.id) := by
    rw [List.map_map]
    exact List.map_congr_left (fun g _ => rfl)
  exact ((List.Perm.map _ (jsSort_perm _ _)).nodup_iff).2 (by rw [hmapeq]; exact hNg)

/-- Filtering the target order by a group's bucket test recovers exactly
that group's sorted bucket. -/
theorem genTargets_filter_bucket (env : Env) (w : Window)
    (hNg : (w.groups.map (·.id)).Nodup)
    (hgr : (dedupStage env w).win.groups = w.groups)
    {g : Group} (hg : g ∈ w.groups) :
    (genTargets env w).filter (bucketPred g.id) =
      jsSort (tabLe env.lcDef) ((genSnap env w).filter (bucketPred g.id)) := by
  obtain ⟨hGL, hU⟩ := genPlan_eq env w hNg hgr
  have hkey : hasKeyG (w.groups.map (fun g => (g.id, (g, ([] : List Tab)))))
      g.id = true := by
    rw [hasKeyG_eq_mem, List.map_map]
    have hmem : g.id ∈ w.groups.map (·.id) := List.mem_map.2 ⟨g, hg, rfl⟩
    simpa [Function.comp] using hmem
  unfold genTargets
  rw [List.filter_append]
  have hUnil : (genSortedUngrouped env w).filter (bucketPred g.id) = [] := by
    refine List.filter_eq_nil_iff.2 ?_
    intro t ht
    rw [hU] at ht
    have ht' := (List.mem_filter.1 (mem_jsSort.1 ht)).2
    simp only [ungroupedPred, Bool.and_eq_true] at ht'
    intro hb
    simp only [bucketPred, Bool.and_eq_true, decide_eq_true_eq] at hb
    have ht2 : (match t.groupId with
        | some gid =>
          !(hasKeyG (w.groups.map (fun g => (g.id, (g, ([] : List Tab))))) gid)
        | none => true) = true := ht'.2
    rw [hb.2] at ht2
    have ht3 : (!(hasKeyG (w.groups.map (fun g => (g.id, (g, ([] : List Tab)))))
        g.id)) = true := ht2
    rw [hkey] at ht3
    simp at ht3
  rw [hUnil, List.append_nil, hGL, filter_flatMap]
  have hkeysN : ((jsSort (groupLe env.lcDef)
      (w.groups.map (fun g => (g, jsSort (tabLe env.lcDef)
        ((genSnap env w).filter (bucketPred g.id)))))).map
      (fun e => e.1.id)).Nodup := by
    have := genSortedGroupData_keys_nodup env w hNg hgr
    rw [hGL] at this
    exact this
  have hvanish : ∀ e ∈ jsSort (groupLe env.lcDef)
      (w.groups.map (fun g => (g, jsSort (tabLe env.lcDef)
        ((genSnap env w).filter (bucketPred g.id))))),
      (fun e => e.1.id) e ≠ g.id → e.2.filter (bucketPred g.id) = [] := by
    intro e he hne
    obtain ⟨g', hg', rfl⟩ := List.mem_map.1 (mem_jsSort.1 he)
    refine List.filter_eq_nil_iff.2 ?_
    intro t ht
    have htg := (List.mem_filter.1 (mem_jsSort.1 ht)).2
    simp only [bucketPred, Bool.and_eq_true, decide_eq_true_eq] at htg
    intro hb
    simp only [bucketPred, Bool.and_eq_true, decide_eq_true_eq] at hb
    exact hne (Option.some.inj (htg.2.symm.trans hb.2))
  have hgmem : (g, jsSort (tabLe env.lcDef)
      ((genSnap env w).filter (bucketPred g.id))) ∈
      jsSort (groupLe env.lcDef)
        (w.groups.map (fun g => (g, jsSort (tabLe env.lcDef)
          ((genSnap env w).filter (bucketPred g.id))))) :=
    mem_jsSort.2 (List.mem_map.2 ⟨g, hg, rfl⟩)
  have hsingle := (flatMap_single_of_nodup (fun e => e.1.id)
    (fun e => e.2.filter (bucketPred g.id))
    (jsSort (groupLe env.lcDef)
      (w.groups.map (fun g => (g, jsSort (tabLe env.lcDef)
        ((genSnap env w).filter (bucketPred g.id))))))
    g.id hkeysN hvanish).2 _ hgmem rfl
  rw [hsingle]
  refine List.filter_eq_self.2 ?_
  intro t ht
  exact (List.mem_filter.1 (mem_jsSort.1 ht)).2

/-- Filtering the target order by the ungrouped test recovers exactly the
sorted ungrouped block. -/
theorem genTargets_filter_ungrouped (env : Env) (w : Window)
    (hNg : (w.groups.map (·.id)).Nodup)
    (hgr : (dedupStage env w).win.groups = w.groups) :
    (genTargets env w).filter
      (ungroupedPred (w.groups.map (fun g => (g.id, (g, ([] : List Tab)))))) =
      genSortedUngrouped env w := by
  obtain ⟨hGL, hU⟩ := genPlan_eq env w hNg hgr
  unfold genTargets
  rw [List.filter_append]
  have hflatnil : ((genSortedGroupData env w).flatMap (fun e => e.2)).filter
      (ungroupedPred (w.groups.map (fun g => (g.id, (g, ([] : List Tab)))))) =
      [] := by
    rw [filter_flatMap]
    refine flatMap_eq_nil_of ?_
    intro e he
    obtain ⟨g', hg', rfl⟩ := List.mem_map.1 (mem_jsSort.1 (by rw [← hGL]; exact he))
    refine List.filter_eq_nil_iff.2 ?_
    intro t ht
    have htg := (List.mem_filter.1 (mem_jsSort.1 ht)).2
    simp only [bucketPred, Bool.and_eq_true, decide_eq_true_eq] at htg
    intro hb
    simp only [ungroupedPred, Bool.and_eq_true] at hb
    have hkey : hasKeyG (w.groups.map (fun g => (g.id, (g, ([] : List Tab)))))
        g'.id = true := by
      rw [hasKeyG_eq_mem, List.map_map]
      have hmem : g'.id ∈ w.groups.map (·.id) := List.mem_map.2 ⟨g', hg', rfl⟩
      simpa [Function.comp] using hmem
    have hb2 : (match t.groupId with
        | some gid =>
          !(hasKeyG (w.groups.map (fun g => (g.id, (g, ([] : List Tab))))) gid)
        | none => true) = true := hb.2
    rw [htg.2] at hb2
    have hb3 : (!(hasKeyG (w.groups.map (fun g => (g.id, (g, ([] : List Tab)))))
        g'.id)) = true := hb2
    rw [hkey] at hb3
    simp at hb3
  rw [hflatnil, List.nil_append]
  refine List.filter_eq_self.2 ?_
  intro t ht
  rw [hU] at ht
  exact (List.mem_filter.1 (mem_jsSort.1 ht)).2

/-- Re-running the general path on its own output changes nothing: the
window is already in target order, so the re-issued move and group calls
are all no-ops on it, and the run still reports `"sorted"`. -/
theorem general_noFail_idempotent (env : Env) (w : Window)
    (hfail : ∀ n, env.fail n = false) (hdq : env.dedupQueryFail = false)
    (hsup : env.supportsTabGroups = true) (htq : env.tabsQueryFail = none)
    (hgq : env.groupsQueryFail = none) (hlcD : LcLawful env.lcDef)
    (hwf : WellFormed w) :
    (sortTabsInWindow env (sortTabsInWindow env w).1.win).1.win =
        (sortTabsInWindow env w).1.win ∧
      (sortTabsInWindow env (sortTabsInWindow env w).1.win).2 = Status.sorted ∧
      ∀ op ∈ (sortTabsInWindow env (sortTabsInWindow env w).1.win).1.trace,
        applyOp (sortTabsInWindow env w).1.win op =
          (sortTabsInWindow env w).1.win := by
  obtain ⟨hN, hNg, pre, suf, hsplitw, hpre, hsuf⟩ := hwf
  obtain ⟨suf₂, hsplit1, hgroups1, hsub, hNsuf₂, htabs1, hgroupsF, hstat1, hF,
    hTN, hTmem⟩ :=
    general_noFail_run env w hfail hdq hsup htq hgq hN hNg hsplitw hpre hsuf
  have hsufunp₂ : ∀ t ∈ suf₂, t.pinned = false := fun t ht => hsuf t (hsub t ht)
  have hsnapF : List.Forall₂ eqMod (genSnap env w) (pre ++ suf₂) := by
    rw [← hsplit1]
    exact queryTabs_forall₂ _
  have hpartner : ∀ u ∈ genSnap env w, u.pinned = false →
      ∃ r ∈ suf₂, r.id = u.id ∧ eqMod u r := by
    intro u hu hup
    obtain ⟨y, hy, hre⟩ := forall₂_mem_left hsnapF u hu
    have hyp : y.pinned = false := by rw [← hre.2.2.2.1]; exact hup
    rcases List.mem_append.1 hy with hy' | hy'
    · exact absurd (hpre y hy') (by simp [hyp])
    · exact ⟨y, hy', hre.1.symm, hre⟩
  have hTcov : ∀ t ∈ genTargets env w,
      ∃ r ∈ suf₂, r.id = t.id ∧ eqMod t r := by
    intro t ht
    exact hpartner t (hTmem t ht).1 (hTmem t ht).2
  have hTcov' : ∀ t ∈ genTargets env w, ∃ r ∈ suf₂, r.id = t.id := by
    intro t ht
    obtain ⟨r, hr, hrid, _⟩ := hTcov t ht
    exact ⟨r, hr, hrid⟩
  have hΛids : ((genTargets env w).filterMap
      (fun t => suf₂.find? (fun r => decide (r.id = t.id)))).map (·.id) =
      (genTargets env w).map (·.id) := filterMap_find_ids hNsuf₂ hTcov'
  have hΛmem : ∀ x ∈ (genTargets env w).filterMap
      (fun t => suf₂.find? (fun r => decide (r.id = t.id))), x ∈ suf₂ :=
    fun x hx => (mem_filterMap_find hx).1
  have hΛunp : ∀ x ∈ (genTargets env w).filterMap
      (fun t => suf₂.find? (fun r => decide (r.id = t.id))), x.pinned = false :=
    fun x hx => hsufunp₂ x (hΛmem x hx)
  have hpreN : (pre.map (·.id)).Nodup := by
    have hx := hN
    rw [hsplitw, List.map_append] at hx
    exact (List.nodup_append.1 hx).1
  have hpredisj : ∀ p ∈ pre, ∀ x ∈ (genTargets env w).filterMap
      (fun t => suf₂.find? (fun r => decide (r.id = t.id))), p.id ≠ x.id := by
    intro p hp x hx
    obtain ⟨hxs, t, ht, hxid⟩ := mem_filterMap_find hx
    intro hpx
    have hsrc := genSnap_unpinned_src env w hN hsplitw hpre hsuf t
      (hTmem t ht).1 (hTmem t ht).2
    exact hsrc.2 p hp (by rw [hpx, hxid])
  have hw1N : ((sortTabsInWindow env w).1.win.tabs.map (·.id)).Nodup := by
    rw [htabs1, List.map_append, List.nodup_append]
    refine ⟨hpreN, by rw [hΛids]; exact hTN, ?_⟩
    intro i hi1 hi2
    obtain ⟨p, hp, hpi⟩ := List.mem_map.1 hi1
    obtain ⟨x, hx, hxi⟩ := List.mem_map.1 hi2
    exact hpredisj p hp x hx (by rw [hpi, hxi])
  have hNoDup1 : NoUnpinnedDup (sortTabsInWindow env w).1.win.tabs := by
    refine noUnpinnedDup_of_corr (l := (dedupStage env w).win.tabs) ?_
      (noUnpinnedDup_dedupStage env w hN hdq hfail)
    intro a ha
    rw [htabs1] at ha
    rcases List.mem_append.1 ha with ha' | ha'
    · exact ⟨a, by rw [hsplit1]; exact List.mem_append.2 (Or.inl ha'), rfl, rfl, rfl⟩
    · exact ⟨a, by
        rw [hsplit1]
        exact List.mem_append.2 (Or.inr (hΛmem a ha')), rfl, rfl, rfl⟩
  have hdedup2 : dedupStage env (sortTabsInWindow env w).1.win =
      { win := (sortTabsInWindow env w).1.win, trace := [], calls := 0 } :=
    removeDuplicateTabsExec_noDup env _ hw1N hNoDup1
  have hgr2 : (dedupStage env (sortTabsInWindow env w).1.win).win.groups =
      (sortTabsInWindow env w).1.win.groups := by rw [hdedup2]
  have hNg1 : ((sortTabsInWindow env w).1.win.groups.map (·.id)).Nodup := by
    rw [hgroupsF]; exact hNg
  obtain ⟨hGL2, hU2⟩ := genPlan_eq env (sortTabsInWindow env w).1.win hNg1 hgr2
  rw [hgroupsF] at hGL2 hU2
  have hsnapq : genSnap env (sortTabsInWindow env w).1.win =
      queryTabs (sortTabsInWindow env w).1.win := by
    unfold genSnap
    rw [hdedup2]
  have hsnapF2 : List.Forall₂ eqMod (genSnap env (sortTabsInWindow env w).1.win)
      (pre ++ (genTargets env w).filterMap
        (fun t => suf₂.find? (fun r => decide (r.id = t.id)))) := by
    rw [hsnapq, ← htabs1]
    exact queryTabs_forall₂ _
  obtain ⟨hGL1, hU1⟩ := genPlan_eq env w hNg hgroups1
  -- per-group correspondence between the second snapshot's buckets and the
  -- first run's sorted buckets
  have hbucket2 : ∀ g ∈ w.groups,
      List.Forall₂ eqMod
        ((genSnap env (sortTabsInWindow env w).1.win).filter (bucketPred g.id))
        (jsSort (tabLe env.lcDef)
          ((genSnap env w).filter (bucketPred g.id))) := by
    intro g hg
    have hF1 := forall₂_filter (fun a b h => bucketPred_respects g.id h) hsnapF2
    have hF2 : (pre ++ (genTargets env w).filterMap
        (fun t => suf₂.find? (fun r => decide (r.id = t.id)))).filter
          (bucketPred g.id) =
        ((genTargets env w).filterMap
          (fun t => suf₂.find? (fun r => decide (r.id = t.id)))).filter
            (bucketPred g.id) := by
      rw [List.filter_append]
      have hnil : pre.filter (bucketPred g.id) = [] :=
        List.filter_eq_nil_iff.2 (fun p hp => by simp [bucketPred, hpre p hp])
      rw [hnil, List.nil_append]
    have hF3 := forall₂_filter (fun a b h => bucketPred_respects g.id h) hF
    rw [genTargets_filter_bucket env w hNg hgroups1 hg] at hF3
    rw [hF2] at hF1
    exact forall₂_eqMod_trans hF1 (forall₂_eqMod_symm hF3)
  have hsorted2bucket : ∀ g ∈ w.groups,
      jsSort (tabLe env.lcDef)
        ((genSnap env (sortTabsInWindow env w).1.win).filter (bucketPred g.id)) =
      (genSnap env (sortTabsInWindow env w).1.win).filter (bucketPred g.id) := by
    intro g hg
    refine jsSort_of_pairwise ?_
    refine pairwise_of_forall₂ (R := eqMod)
      (fun a a' b b' ha hb => tabLe_respects_eqMod env.lcDef ha hb)
      (forall₂_eqMod_symm (hbucket2 g hg)) ?_
    exact jsSort_pairwise (tabLe_total hlcD) (tabLe_trans hlcD) _
  -- correspondence of the second snapshot's ungrouped block
  have hUchain : List.Forall₂ eqMod
      ((genSnap env (sortTabsInWindow env w).1.win).filter
        (ungroupedPred (w.groups.map (fun g => (g.id, (g, ([] : List Tab)))))))
      (genSortedUngrouped env w) := by
    have hF1 := forall₂_filter
      (fun a b h => ungroupedPred_respects
        (w.groups.map (fun g => (g.id, (g, ([] : List Tab))))) h) hsnapF2
    have hF2 : (pre ++ (genTargets env w).filterMap
        (fun t => suf₂.find? (fun r => decide (r.id = t.id)))).filter
          (ungroupedPred (w.groups.map (fun g => (g.id, (g, ([] : List Tab)))))) =
        ((genTargets env w).filterMap
          (fun t => suf₂.find? (fun r => decide (r.id = t.id)))).filter
            (ungroupedPred (w.groups.map (fun g => (g.id, (g, ([] : List Tab)))))) := by
      rw [List.filter_append]
      have hnil : pre.filter
          (ungroupedPred (w.groups.map (fun g => (g.id, (g, ([] : List Tab)))))) = [] :=
        List.filter_eq_nil_iff.2 (fun p hp => by simp [ungroupedPred, hpre p hp])
      rw [hnil, List.nil_append]
    have hF3 := forall₂_filter
      (fun a b h => ungroupedPred_respects
        (w.groups.map (fun g => (g.id, (g, ([] : List Tab))))) h) hF
    rw [genTargets_filter_ungrouped env w hNg hgroups1] at hF3
    rw [hF2] at hF1
    exact forall₂_eqMod_trans hF1 (forall₂_eqMod_symm hF3)
  have hsorted2U : jsSort (tabLe env.lcDef)
      ((genSnap env (sortTabsInWindow env w).1.win).filter
        (ungroupedPred (w.groups.map (fun g => (g.id, (g, ([] : List Tab))))))) =
      (genSnap env (sortTabsInWindow env w).1.win).filter
        (ungroupedPred (w.groups.map (fun g => (g.id, (g, ([] : List Tab)))))) := by
    refine jsSort_of_pairwise ?_
    refine pairwise_of_forall₂ (R := eqMod)
      (fun a a' b b' ha hb => tabLe_respects_eqMod env.lcDef ha hb)
      (forall₂_eqMod_symm hUchain) ?_
    rw [hU1]
    exact jsSort_pairwise (tabLe_total hlcD) (tabLe_trans hlcD) _
  -- relation between the second run's entries and the first run's segments
  have hRel0 : List.Forall₂ (fun (e₂ e₁ : Group × List Tab) =>
      e₂.1 = e₁.1 ∧ List.Forall₂ eqMod e₂.2 e₁.2 ∧
        (∀ t ∈ e₁.2, t.groupId = some e₁.1.id) ∧
        (∀ t ∈ e₁.2, ∃ r ∈ suf₂, r.id = t.id ∧ eqMod t r))
      (genSortedGroupData env (sortTabsInWindow env w).1.win)
      (genSortedGroupData env w) := by
    rw [hGL2, hGL1]
    refine jsSort_forall₂ ?_ ?_
    · intro a a' b b' ha hb
      simp only [groupLe, ha.1, hb.1]
    · refine forall₂_map_same ?_
      intro g hg
      refine ⟨rfl, ?_, ?_, ?_⟩
      · rw [hsorted2bucket g hg]
        exact hbucket2 g hg
      · intro t ht
        have htp := (List.mem_filter.1 (mem_jsSort.1 ht)).2
        simp only [bucketPred, Bool.and_eq_true, decide_eq_true_eq] at htp
        exact htp.2
      · intro t ht
        have htm := List.mem_filter.1 (mem_jsSort.1 ht)
        have htp : t.pinned = false := by
          have := htm.2
          simp only [bucketPred, Bool.and_eq_true, Bool.not_eq_true'] at this
          exact this.1
        exact hpartner t htm.1 htp
  have hRel : List.Forall₂ (fun (e₂ : Group × List Tab) (seg : List Tab) =>
      e₂.2.map (·.id) = seg.map (·.id) ∧ ∀ r ∈ seg, r.groupId = some e₂.1.id)
      (genSortedGroupData env (sortTabsInWindow env w).1.win)
      ((genSortedGroupData env w).map (fun e => e.2.filterMap
        (fun t => suf₂.find? (fun r => decide (r.id = t.id))))) := by
    refine forall₂_map_right ?_ hRel0
    intro e₂ e₁ hR
    obtain ⟨h1, h2, h3, h4⟩ := hR
    constructor
    · have hids12 : e₂.2.map (·.id) = e₁.2.map (·.id) :=
        forall₂_map_eq (fun a b (h : eqMod a b) => h.1) h2

      have hids1s : (e₁.2.filterMap
          (fun t => suf₂.find? (fun r => decide (r.id = t.id)))).map (·.id) =
          e₁.2.map (·.id) :=
        filterMap_find_ids hNsuf₂ (fun t ht => by
          obtain ⟨r, hr, hrid, _⟩ := h4 t ht
          exact ⟨r, hr, hrid⟩)
      rw [hids12, hids1s]
    · intro r hr
      obtain ⟨hrs, t, ht, hrid⟩ := mem_filterMap_find hr
      obtain ⟨r', hr', hrid', hre'⟩ := h4 t ht
      have hrr : r = r' := eq_of_id_eq hNsuf₂ hrs hr' (by rw [hrid, ← hrid'])
      rw [hrr, ← hre'.2.2.2.2.2, h1]
      exact h3 t ht
  -- layout of the first run's window as prefix, bucket segments, ungrouped
  have hΛsplit : (genTargets env w).filterMap
      (fun t => suf₂.find? (fun r => decide (r.id = t.id))) =
      ((genSortedGroupData env w).map (fun e => e.2.filterMap
        (fun t => suf₂.find? (fun r => decide (r.id = t.id))))).flatten ++
      (genSortedUngrouped env w).filterMap
        (fun t => suf₂.find? (fun r => decide (r.id = t.id))) := by
    unfold genTargets
    rw [List.filterMap_append, filterMap_flatMap, flatMap_eq_flatten_map]
  have hΛN : (((genTargets env w).filterMap
      (fun t => suf₂.find? (fun r => decide (r.id = t.id)))).map (·.id)).Nodup := by
    rw [hΛids]
    exact hTN
  have hΛNsplit := List.nodup_append.1 (by
    have hx := hΛN
    rw [hΛsplit, List.map_append] at hx
    exact hx)
  have hw1split : (sortTabsInWindow env w).1.win.tabs =
      pre ++ ((genSortedGroupData env w).map (fun e => e.2.filterMap
        (fun t => suf₂.find? (fun r => decide (r.id = t.id))))).flatten ++
      (genSortedUngrouped env w).filterMap
        (fun t => suf₂.find? (fun r => decide (r.id = t.id))) := by
    rw [htabs1, hΛsplit, List.append_assoc]
  have hpreflat : ∀ p ∈ pre, ∀ x ∈ ((genSortedGroupData env w).map
      (fun e => e.2.filterMap (fun t => suf₂.find?
        (fun r => decide (r.id = t.id))))).flatten, p.id ≠ x.id := by
    intro p hp x hx
    refine hpredisj p hp x ?_
    rw [hΛsplit]
    exact List.mem_append.2 (Or.inl hx)
  have hrestflat : ∀ r ∈ (genSortedUngrouped env w).filterMap
      (fun t => suf₂.find? (fun r => decide (r.id = t.id))),
      ∀ x ∈ ((genSortedGroupData env w).map (fun e => e.2.filterMap
        (fun t => suf₂.find? (fun r => decide (r.id = t.id))))).flatten,
      r.id ≠ x.id := by
    intro r hr x hx hrx
    apply hΛNsplit.2.2 (List.mem_map.2 ⟨x, hx, rfl⟩)
    rw [← hrx]
    exact List.mem_map.2 ⟨r, hr, rfl⟩
  have hGLoop2 := groupLoop_inplace hfail
    (genSortedGroupData env (sortTabsInWindow env w).1.win)
    ((genSortedGroupData env w).map (fun e => e.2.filterMap
      (fun t => suf₂.find? (fun r => decide (r.id = t.id)))))
    (dedupStage env (sortTabsInWindow env w).1.win) pre
    ((genSortedUngrouped env w).filterMap
      (fun t => suf₂.find? (fun r => decide (r.id = t.id))))
    (by rw [hdedup2]; exact hw1split) hRel hΛNsplit.1 hpreflat
    (fun r hr x hx => hrestflat r hr x hx)
  -- the second run's ungrouped id order equals the first run's layout
  have hUcov1 : ∀ t ∈ genSortedUngrouped env w, ∃ r ∈ suf₂, r.id = t.id := by
    intro t ht
    refine hTcov' t ?_
    unfold genTargets
    exact List.mem_append.2 (Or.inr ht)
  have hUids2 : (genSortedUngrouped env (sortTabsInWindow env w).1.win).map (·.id) =
      ((genSortedUngrouped env w).filterMap
        (fun t => suf₂.find? (fun r => decide (r.id = t.id)))).map (·.id) := by
    rw [hU2, hsorted2U]
    rw [forall₂_map_eq (fun a b (h : eqMod a b) => h.1) hUchain]
    rw [filterMap_find_ids hNsuf₂ hUcov1]
  have hdedupwin2 : (dedupStage env (sortTabsInWindow env w).1.win).win =
      (sortTabsInWindow env w).1.win := by rw [hdedup2]
  have hPc2 : genPinnedCount env (sortTabsInWindow env w).1.win = pre.length :=
    genPinnedCount_eq env _ hpre ⟨(genTargets env w).filterMap
      (fun t => suf₂.find? (fun r => decide (r.id = t.id))),
      by rw [hdedupwin2]; exact htabs1, hΛunp⟩
  have hmain2 := sortTabsInWindow_general_eq env (sortTabsInWindow env w).1.win
    hsup htq hgq
  rw [hPc2] at hmain2
  -- the move sequence over the ungrouped block is in place
  have hms2 := moveSeq_inplace hfail
    ((genSortedUngrouped env w).filterMap
      (fun t => suf₂.find? (fun r => decide (r.id = t.id))))
    (groupLoop env.fail (dedupStage env (sortTabsInWindow env w).1.win)
      (genSortedGroupData env (sortTabsInWindow env w).1.win) pre.length).1
    (pre ++ ((genSortedGroupData env w).map (fun e => e.2.filterMap
      (fun t => suf₂.find? (fun r => decide (r.id = t.id))))).flatten)
    []
    (by
      rw [hGLoop2.1, hdedup2]
      show (sortTabsInWindow env w).1.win.tabs = _
      rw [hw1split, List.append_nil])
    hΛNsplit.2.1
    (by
      intro p hp u hu
      rcases List.mem_append.1 hp with hp' | hp'
      · refine hpredisj p hp' u ?_
        rw [hΛsplit]
        exact List.mem_append.2 (Or.inr hu)
      · exact fun h => hrestflat u hu p hp' h.symm)
  have hidx2 : (groupLoop env.fail (dedupStage env (sortTabsInWindow env w).1.win)
      (genSortedGroupData env (sortTabsInWindow env w).1.win) pre.length).2 =
      (pre ++ ((genSortedGroupData env w).map (fun e => e.2.filterMap
        (fun t => suf₂.find? (fun r => decide (r.id = t.id))))).flatten).length := by
    rw [hGLoop2.2.1, List.length_append]
  rw [hUids2, hidx2] at hmain2
  have hglwin : (groupLoop env.fail (dedupStage env (sortTabsInWindow env w).1.win)
      (genSortedGroupData env (sortTabsInWindow env w).1.win) pre.length).1.win =
      (sortTabsInWindow env w).1.win := by
    rw [hGLoop2.1, hdedup2]
  refine ⟨?_, ?_, ?_⟩
  · rw [hmain2]
    dsimp only
    rw [hms2.1, hglwin]
  · rw [hmain2]
  · intro op hop
    rw [hmain2] at hop
    dsimp only at hop
    rcases hms2.2.2 op hop with hin | hfix
    · rcases hGLoop2.2.2 op hin with hin2 | hfix2
      · have htr : (dedupStage env (sortTabsInWindow env w).1.win).trace = [] := by
          rw [hdedup2]
        rw [htr] at hin2
        cases hin2
      · rw [hdedupwin2] at hfix2
        exact hfix2
    · rw [hglwin] at hfix
      exact hfix

/-- Two permuted tab lists with duplicate-free, positionally equal id
sequences are equal. -/
theorem eq_of_perm_map_id : ∀ {l : List Tab}, ((l.map (·.id)).Nodup) →
    ∀ {l' : List Tab}, l'.Perm l → l.map (·.id) = l'.map (·.id) → l = l' := by
  intro l
  induction l with
  | nil =>
    intro _ l' hperm _
    cases l' with
    | nil => rfl
    | cons b t' =>
      have hl := hperm.length_eq
      simp at hl
  | cons a t ih =>
    intro hN l' hperm hmap
    cases l' with
    | nil =>
      have hl := hperm.length_eq
      simp at hl
    | cons b t' =>
      simp only [List.map_cons, List.cons.injEq] at hmap
      have hbmem : b ∈ a :: t := hperm.subset (by simp)
      have hab : a = b := eq_of_id_eq hN (by simp) hbmem hmap.1
      rw [← hab] at hperm hmap
      have hperm' : t'.Perm t := hperm.cons_inv
      simp only [List.map_cons, List.nodup_cons] at hN
      rw [← hab, ih hN.2 hperm' hmap.2]

/-- A window of the shape `pre ++ lam` — pinned prefix, then survivors of
the dedup pass rearranged in an order `eqMod`-matched by a `tabLe`-sorted
reference list — has duplicate-free ids, no unpinned duplicates, and a
queried unpinned block already in `tabLe` order. -/
theorem ungrouped_ready (env : Env) (w₁ : Window)
    (pre suf₂ lam ref : List Tab)
    (hsplit : w₁.tabs = pre ++ lam)
    (hpre : ∀ p ∈ pre, p.pinned = true)
    (hpreN : (pre.map (·.id)).Nodup)
    (hsub : ∀ x ∈ lam, x ∈ suf₂)
    (hunp : ∀ x ∈ suf₂, x.pinned = false)
    (hdisj : ∀ p ∈ pre, ∀ r ∈ suf₂, p.id ≠ r.id)
    (hlamN : (lam.map (·.id)).Nodup)
    (hD : NoUnpinnedDup (pre ++ suf₂))
    (hRef : List.Forall₂ eqMod ref lam)
    (hrefPair : ref.Pairwise (fun a b => tabLe env.lcBase a b = true)) :
    (w₁.tabs.map (·.id)).Nodup ∧ NoUnpinnedDup w₁.tabs ∧
      ((queryTabs w₁).filter (fun t => !t.pinned)).Pairwise
        (fun a b => tabLe env.lcBase a b = true) := by
  refine ⟨?_, ?_, ?_⟩
  · rw [hsplit, List.map_append, List.nodup_append]
    refine ⟨hpreN, hlamN, ?_⟩
    intro i hi1 hi2
    obtain ⟨p, hp, hpi⟩ := List.mem_map.1 hi1
    obtain ⟨x, hx, hxi⟩ := List.mem_map.1 hi2
    exact hdisj p hp x (hsub x hx) (hpi.trans hxi.symm)
  · refine noUnpinnedDup_of_corr (l := pre ++ suf₂) ?_ hD
    intro a ha
    rw [hsplit] at ha
    rcases List.mem_append.1 ha with h' | h'
    · exact ⟨a, List.mem_append.2 (Or.inl h'), rfl, rfl, rfl⟩
    · exact ⟨a, List.mem_append.2 (Or.inr (hsub a h')), rfl, rfl, rfl⟩
  · have hq : List.Forall₂ eqMod (queryTabs w₁) (pre ++ lam) := by
      rw [← hsplit]
      exact queryTabs_forall₂ _
    have hfq := forall₂_filter (p := fun t => !t.pinned)
      (fun a b h => by simp only [h.2.2.2.1]) hq
    have heq : (pre ++ lam).filter (fun t => !t.pinned) = lam := by
      rw [List.filter_append,
        List.filter_eq_nil_iff.2 (fun p hp => by simp [hpre p hp]),
        List.nil_append,
        List.filter_eq_self.2 (fun x hx => by simp [hunp x (hsub x hx)])]
    rw [heq] at hfq
    exact pairwise_of_forall₂ (R := eqMod)
      (fun a a' b b' ha hb => tabLe_respects_eqMod env.lcBase ha hb)
      (forall₂_eqMod_trans hRef (forall₂_eqMod_symm hfq)) hrefPair

/-- On the workflow without tab-group support, a window with duplicate-free
ids, no unpinned duplicates, and an already `tabLe`-ordered unpinned block
yields the untouched state and `"already_sorted"`. -/
theorem ungrouped_second_run (env : Env) (w₁ : Window)
    (hsup : env.supportsTabGroups = false) (htq : env.tabsQueryFail = none)
    (hN1 : (w₁.tabs.map (·.id)).Nodup) (hD1 : NoUnpinnedDup w₁.tabs)
    (hpair : ((queryTabs w₁).filter (fun t => !t.pinned)).Pairwise
      (fun a b => tabLe env.lcBase a b = true)) :
    sortTabsInWindow env w₁ =
      ({ win := w₁, trace := [], calls := 0 }, Status.already_sorted) := by
  have hdedup : dedupStage env w₁ = { win := w₁, trace := [], calls := 0 } :=
    removeDuplicateTabsExec_noDup env _ hN1 hD1
  have hsnap : genSnap env w₁ = queryTabs w₁ := by
    unfold genSnap
    rw [hdedup]
  have hrun := sortTabsInWindow_ungrouped_eq env w₁ hsup htq
  rw [hrun, hdedup]
  refine sortUngroupedTabsExec_already env _ _ _ ?_
  rw [hsnap, jsSort_of_pairwise hpair]

/-- Re-running the ungrouped workflow on its own failure-free output issues
no operation at all: the second run reports `"already_sorted"` with an
empty trace. -/
theorem ungrouped_noFail_idempotent (env : Env) (w : Window)
    (hfail : ∀ n, env.fail n = false) (hdq : env.dedupQueryFail = false)
    (hsup : env.supportsTabGroups = false) (htq : env.tabsQueryFail = none)
    (hlcB : LcLawful env.lcBase) (hwf : WellFormed w) :
    sortTabsInWindow env (sortTabsInWindow env w).1.win =
      ({ win := (sortTabsInWindow env w).1.win, trace := [], calls := 0 },
        Status.already_sorted) := by
  obtain ⟨hN, hNg, pre, suf, hsplitw, hpre, hsuf⟩ := hwf
  obtain ⟨⟨suf₂, hs1split, hsuf₂unp⟩, hs1mem⟩ :=
    dedupStage_pinpre env w hN hsplitw hpre hsuf
  have hwin1 := dedupStage_noFail_win env w hdq hfail
  have hs1N : ((dedupStage env w).win.tabs.map (·.id)).Nodup := by
    rw [hwin1]
    exact nodup_ids_filter hN _
  have hNsplit := List.nodup_append.1
    (show ((pre.map (·.id)) ++ (suf.map (·.id))).Nodup by
      rw [← List.map_append, ← hsplitw]; exact hN)
  have hsuf₂sub : ∀ x ∈ suf₂, x ∈ suf := by
    intro x hx
    have hxw : x ∈ w.tabs := hs1mem x
      (by rw [hs1split]; exact List.mem_append.2 (Or.inr hx))
    rw [hsplitw] at hxw
    rcases List.mem_append.1 hxw with h' | h'
    · exact absurd (hpre x h') (by simp [hsuf₂unp x hx])
    · exact h'
  have hdisj : ∀ p ∈ pre, ∀ r ∈ suf₂, p.id ≠ r.id := by
    intro p hp r hr he
    have hm1 : p.id ∈ pre.map (·.id) := List.mem_map.2 ⟨p, hp, rfl⟩
    have hm2 : p.id ∈ suf.map (·.id) := by
      rw [he]
      exact List.mem_map.2 ⟨r, hsuf₂sub r hr, rfl⟩
    exact hNsplit.2.2 hm1 hm2
  have hsuf₂N : (suf₂.map (·.id)).Nodup := by
    have hx := hs1N
    rw [hs1split, List.map_append] at hx
    exact (List.nodup_append.1 hx).2.1
  have hD : NoUnpinnedDup (pre ++ suf₂) := by
    have hD0 := noUnpinnedDup_dedupStage env w hN hdq hfail
    rw [hs1split] at hD0
    exact hD0
  have hsnapF : List.Forall₂ eqMod (genSnap env w) (pre ++ suf₂) := by
    rw [← hs1split]
    exact queryTabs_forall₂ _
  have hfilt : (pre ++ suf₂).filter (fun t => !t.pinned) = suf₂ := by
    rw [List.filter_append,
      List.filter_eq_nil_iff.2 (fun p hp => by simp [hpre p hp]),
      List.nil_append,
      List.filter_eq_self.2 (fun x hx => by simp [hsuf₂unp x hx])]
  have hunpF : List.Forall₂ eqMod
      ((genSnap env w).filter (fun t => !t.pinned)) suf₂ := by
    have h1 := forall₂_filter (p := fun t => !t.pinned)
      (fun a b h => by simp only [h.2.2.2.1]) hsnapF
    rw [hfilt] at h1
    exact h1
  have hunpN : (((genSnap env w).filter (fun t => !t.pinned)).map (·.id)).Nodup := by
    refine nodup_ids_filter ?_ _
    show ((queryTabs (dedupStage env w).win).map (·.id)).Nodup
    rw [queryTabs_ids]
    exact hs1N
  have hcovB : ∀ t ∈ jsSort (tabLe env.lcBase)
      ((genSnap env w).filter (fun t => !t.pinned)),
      ∃ r ∈ suf₂, r.id = t.id ∧ eqMod t r := by
    intro t ht
    obtain ⟨r, hr, hre⟩ := forall₂_mem_left hunpF t (mem_jsSort.1 ht)
    exact ⟨r, hr, hre.1.symm, hre⟩
  have hrun1 := sortTabsInWindow_ungrouped_eq env w hsup htq
  have hPc : genPinnedCount env w = pre.length :=
    genPinnedCount_eq env w hpre ⟨suf₂, hs1split, hsuf₂unp⟩
  by_cases hord : ((((genSnap env w).filter (fun t => !t.pinned)).map (·.id)) :
      List Nat) =
      (jsSort (tabLe env.lcBase)
        ((genSnap env w).filter (fun t => !t.pinned))).map (·.id)
  · have hres : sortTabsInWindow env w =
        (dedupStage env w, Status.already_sorted) := by
      rw [hrun1]
      exact sortUngroupedTabsExec_already env _ _ _ hord
    have hunp_eq : (genSnap env w).filter (fun t => !t.pinned) =
        jsSort (tabLe env.lcBase) ((genSnap env w).filter (fun t => !t.pinned)) :=
      eq_of_perm_map_id hunpN (jsSort_perm _ _) hord
    have hrefPair : ((genSnap env w).filter (fun t => !t.pinned)).Pairwise
        (fun a b => tabLe env.lcBase a b = true) := by
      rw [hunp_eq]
      exact jsSort_pairwise (tabLe_total hlcB) (tabLe_trans hlcB) _
    obtain ⟨hN1, hD1, hpair⟩ := ungrouped_ready env (dedupStage env w).win
      pre suf₂ suf₂ ((genSnap env w).filter (fun t => !t.pinned))
      hs1split hpre hNsplit.1 (fun x hx => hx) hsuf₂unp hdisj hsuf₂N hD
      hunpF hrefPair
    rw [hres]
    exact ungrouped_second_run env (dedupStage env w).win hsup htq hN1 hD1 hpair
  · have hres : sortTabsInWindow env w =
        ((moveSeq env.fail (dedupStage env w)
          ((jsSort (tabLe env.lcBase)
            ((genSnap env w).filter (fun t => !t.pinned))).map (·.id))
          (genPinnedCount env w)).1, Status.sorted) := by
      rw [hrun1]
      unfold sortUngroupedTabsExec
      rw [if_neg hord]
    rw [hPc] at hres
    have hcov' : ∀ t ∈ jsSort (tabLe env.lcBase)
        ((genSnap env w).filter (fun t => !t.pinned)),
        ∃ r ∈ suf₂, r.id = t.id := by
      intro t ht
      obtain ⟨r, hr, hrid, _⟩ := hcovB t ht
      exact ⟨r, hr, hrid⟩
    have hsortedN : ((jsSort (tabLe env.lcBase)
        ((genSnap env w).filter (fun t => !t.pinned))).map (·.id)).Nodup := by
      refine (List.Perm.nodup_iff ?_).2 hunpN
      exact (jsSort_perm _ _).map _
    have hpredisj' : ∀ p ∈ pre, ∀ t ∈ jsSort (tabLe env.lcBase)
        ((genSnap env w).filter (fun t => !t.pinned)), p.id ≠ t.id := by
      intro p hp t ht
      obtain ⟨r, hr, hrid, _⟩ := hcovB t ht
      rw [← hrid]
      exact hdisj p hp r hr
    have hms := moveSeq_noFail_state hfail
      (jsSort (tabLe env.lcBase) ((genSnap env w).filter (fun t => !t.pinned)))
      (dedupStage env w) pre suf₂ hs1split hsuf₂N hpredisj' hsortedN hcov'
    have hresid : suf₂.filter (fun r =>
        !(decide (r.id ∈ (jsSort (tabLe env.lcBase)
          ((genSnap env w).filter (fun t => !t.pinned))).map (·.id)))) = [] := by
      refine List.filter_eq_nil_iff.2 ?_
      intro r hr
      obtain ⟨t, ht, hre⟩ := forall₂_mem_right hunpF r hr
      have hmem : r.id ∈ (jsSort (tabLe env.lcBase)
          ((genSnap env w).filter (fun t => !t.pinned))).map (·.id) :=
        List.mem_map.2 ⟨t, mem_jsSort.2 ht, hre.1⟩
      simp [hmem]
    have hw1tabs : (sortTabsInWindow env w).1.win.tabs = pre ++
        (jsSort (tabLe env.lcBase)
          ((genSnap env w).filter (fun t => !t.pinned))).filterMap
          (fun t => suf₂.find? (fun r => decide (r.id = t.id))) := by
      rw [hres]
      dsimp only
      rw [hms.1, hresid, List.append_nil]
    have hkN : (((jsSort (tabLe env.lcBase)
        ((genSnap env w).filter (fun t => !t.pinned))).filterMap
        (fun t => suf₂.find? (fun r => decide (r.id = t.id)))).map (·.id)).Nodup := by
      rw [filterMap_find_ids hsuf₂N hcov']
      exact hsortedN
    have hksub : ∀ x ∈ (jsSort (tabLe env.lcBase)
        ((genSnap env w).filter (fun t => !t.pinned))).filterMap
        (fun t => suf₂.find? (fun r => decide (r.id = t.id))), x ∈ suf₂ :=
      fun x hx => (mem_filterMap_find hx).1
    have hRef := forall₂_filterMap_find hsuf₂N hcovB
    obtain ⟨hN1, hD1, hpair⟩ := ungrouped_ready env (sortTabsInWindow env w).1.win
      pre suf₂
      ((jsSort (tabLe env.lcBase)
        ((genSnap env w).filter (fun t => !t.pinned))).filterMap
        (fun t => suf₂.find? (fun r => decide (r.id = t.id))))
      (jsSort (tabLe env.lcBase) ((genSnap env w).filter (fun t => !t.pinned)))
      hw1tabs hpre hNsplit.1 hksub hsuf₂unp hdisj hkN hD hRef
      (jsSort_pairwise (tabLe_total hlcB) (tabLe_trans hlcB) _)
    exact ungrouped_second_run env (sortTabsInWindow env w).1.win hsup htq
      hN1 hD1 hpair

/-- Counterexample to C9 as stated: re-running the general path on the
layout a successful run produced does issue further operations — its trace
is nonempty (the per-tab moves and group commands are re-issued, as
positional no-ops). -/
theorem reconciliation_idempotent_counterexample :
    (sortTabsInWindow (noFailEnv true lcSimple) groupedWindow).2 =
        Status.sorted ∧
      (sortTabsInWindow (noFailEnv true lcSimple)
        (sortTabsInWindow (noFailEnv true lcSimple)
          groupedWindow).1.win).1.trace ≠ [] := by
  decide

/-- C9, amended: re-running a failure-free reconciliation on its own output
leaves the tab layout unchanged — on the general path the window is
identical after the second run, it again reports `"sorted"`, and every
operation it issues (each re-issued move and group command) is a no-op on
that layout, individually and along every prefix of the trace; only the
workflow without tab-group support issues no further operations at all,
reporting `"already_sorted"` with an empty trace.  The original claim's
"issues no further operations" holds only for that ungrouped workflow. -/
theorem reconciliation_idempotent (env : Env) (w : Window)
    (hfail : ∀ n, env.fail n = false) (hdq : env.dedupQueryFail = false)
    (htq : env.tabsQueryFail = none) (hgq : env.groupsQueryFail = none)
    (hlcB : LcLawful env.lcBase) (hlcD : LcLawful env.lcDef)
    (hwf : WellFormed w) :
    (env.supportsTabGroups = true →
      (sortTabsInWindow env (sortTabsInWindow env w).1.win).1.win =
          (sortTabsInWindow env w).1.win ∧
        (sortTabsInWindow env (sortTabsInWindow env w).1.win).2 =
          Status.sorted ∧
        (∀ op ∈ (sortTabsInWindow env (sortTabsInWindow env w).1.win).1.trace,
          applyOp (sortTabsInWindow env w).1.win op =
            (sortTabsInWindow env w).1.win) ∧
        ∀ n, applyOps (sortTabsInWindow env w).1.win
          ((sortTabsInWindow env
            (sortTabsInWindow env w).1.win).1.trace.take n) =
          (sortTabsInWindow env w).1.win) ∧
    (env.supportsTabGroups = false →
      sortTabsInWindow env (sortTabsInWindow env w).1.win =
        ({ win := (sortTabsInWindow env w).1.win, trace := [], calls := 0 },
          Status.already_sorted)) := by
  constructor
  · intro hsup
    obtain ⟨h1, h2, h3⟩ :=
      general_noFail_idempotent env w hfail hdq hsup htq hgq hlcD hwf
    exact ⟨h1, h2, h3, applyOps_fix h3⟩
  · intro hsup
    exact ungrouped_noFail_idempotent env w hfail hdq hsup htq hlcB hwf

/-- Concrete instance of the amended idempotence theorem on a grouped
three-tab window under plain code-point collation. -/
theorem reconciliation_idempotent_witness :
    ((noFailEnv true lcSimple).supportsTabGroups = true →
      (sortTabsInWindow (noFailEnv true lcSimple)
          (sortTabsInWindow (noFailEnv true lcSimple)
            groupedWindow).1.win).1.win =
          (sortTabsInWindow (noFailEnv true lcSimple) groupedWindow).1.win ∧
        (sortTabsInWindow (noFailEnv true lcSimple)
          (sortTabsInWindow (noFailEnv true lcSimple)
            groupedWindow).1.win).2 = Status.sorted ∧
        (∀ op ∈ (sortTabsInWindow (noFailEnv true lcSimple)
            (sortTabsInWindow (noFailEnv true lcSimple)
              groupedWindow).1.win).1.trace,
          applyOp (sortTabsInWindow (noFailEnv true lcSimple)
              groupedWindow).1.win op =
            (sortTabsInWindow (noFailEnv true lcSimple) groupedWindow).1.win) ∧
        ∀ n, applyOps
          (sortTabsInWindow (noFailEnv true lcSimple) groupedWindow).1.win
          ((sortTabsInWindow (noFailEnv true lcSimple)
            (sortTabsInWindow (noFailEnv true lcSimple)
              groupedWindow).1.win).1.trace.take n) =
          (sortTabsInWindow (noFailEnv true lcSimple) groupedWindow).1.win) ∧
    ((noFailEnv true lcSimple).supportsTabGroups = false →
      sortTabsInWindow (noFailEnv true lcSimple)
          (sortTabsInWindow (noFailEnv true lcSimple) groupedWindow).1.win =
        ({ win := (sortTabsInWindow (noFailEnv true lcSimple)
            groupedWindow).1.win, trace := [], calls := 0 },
          Status.already_sorted)) :=
  reconciliation_idempotent (noFailEnv true lcSimple) groupedWindow
    (fun _ => rfl) rfl rfl rfl lcSimple_lawful lcSimple_lawful
    ⟨by decide, by decide, [], groupedWindow.tabs, rfl, by decide, by decide⟩

end ZenTab

